import Mathlib

/-!
# Schwingen: ranking and scoring engine

A shallow embedding of the ranking and scoring logic of `src/src/App.jsx`.

Modelling conventions

* JavaScript numbers that carry scores are exact rationals (`ℚ`); `NaN`, the infinities and
  the binary rounding of sums of scores are outside the model. `Infinity` as the start value
  of `lastTotal` is `none : Option ℚ`. The two products `size * 0.15` and `size * 0.18` are
  rounded as binary64 arithmetic rounds them (`roundToDouble`).
* JavaScript strings are Lean strings; a character is its code point.
  `String.fromCharCode` reduces its argument modulo `2 ^ 16`; code units in the surrogate
  range, which a rank label reaches only after more than 55000 consecutive ties, have no
  Lean character.
* A JavaScript `Map` is an association list in insertion order.
* A thrown exception is `none`; where the source catches it, it is an outcome of its own.
-/

namespace Schwingen

/-! ## Data model -/

/-- One round result, the object built by `parseNoteValue`. -/
structure Note where
  high : ℚ
  low : ℚ
  display : String
deriving DecidableEq

/-- A competitor record, the object literal built in `handleProcess`. -/
structure Schwinger where
  nummer : String
  name : String
  sterne : String
  punkteBasis : ℚ
  punkteGaenge : List (Option Note)
  total : ℚ
deriving DecidableEq

/-- The pair returned by `getDynamicRankDisplay`. -/
structure RankDisplay where
  rank : Nat
  display : String
deriving DecidableEq

/-! ## Rank labels (`getDynamicRankDisplay`, App.jsx 33-53) -/

/-- ASCII decimal digit test on a character. -/
def isDigit (c : Char) : Bool := decide (48 ≤ c.toNat) && decide (c.toNat ≤ 57)

/-- Value of a run of decimal digits read from the left, continuing from `acc`. -/
def digitsValue (acc : Nat) (cs : List Char) : Nat :=
  cs.foldl (fun acc c => 10 * acc + (c.toNat - 48)) acc

/-- The function `parseInt(s, 10)` on a string that starts with a decimal digit: the value of
the maximal leading run of digits. Every string passed to it by `getDynamicRankDisplay` is a
label built by that function, which starts with a digit (`display_head_isDigit`). For a string
with no leading digit JavaScript yields `NaN`; the model yields `0` there. -/
def parseInt (s : String) : Nat :=
  digitsValue 0 (s.data.takeWhile isDigit)

/-- The function `String.fromCharCode`: the character with code `n mod 2 ^ 16`. -/
def fromCharCode (n : Nat) : Char := Char.ofNat (n % 65536)

/-- The character `String.fromCharCode(lastChar.charCodeAt(0) + 1)` for
`lastChar = s.slice(-1)`; on the empty string `charCodeAt` is `NaN` and the result is the
character with code `0`. -/
def nextSuffixChar (s : String) : Char :=
  match s.data.getLast? with
  | some c => fromCharCode (c.toNat + 1)
  | none => fromCharCode 0

/-- One iteration of the `for` loop: `(rankCounter, lastScore)` after looking at `s`. -/
def rankCounterStep (acc : Nat × ℚ) (s : Schwinger) : Nat × ℚ :=
  if s.total < acc.2 then (acc.1 + 1, s.total) else acc

/-- The `for (let i = 1; i <= index; i++)` loop, started at `(1, list[0].total)`. -/
def rankCounterLoop (list : List Schwinger) (first : Schwinger) (index : Nat) : Nat × ℚ :=
  ((list.take (index + 1)).drop 1).foldl rankCounterStep (1, first.total)

/-- The function `getDynamicRankDisplay(list, index)`. The result is `none` where the source
throws, which is when `index ≥ 1` is not a valid index of `list`. -/
def getDynamicRankDisplay (list : List Schwinger) : Nat → Option RankDisplay
  | 0 => some ⟨1, "1a"⟩
  | index + 1 =>
    match list[0]?, list[index]?, list[index + 1]? with
    | some first, some previous, some current =>
      let rankCounter := (rankCounterLoop list first (index + 1)).1
      if current.total = previous.total then
        match getDynamicRankDisplay list index with
        | some prev =>
          let prevRankNum := parseInt prev.display
          let newChar := nextSuffixChar prev.display
          some ⟨prevRankNum, Nat.repr prevRankNum ++ String.singleton newChar⟩
        | none => none
      else
        some ⟨rankCounter, Nat.repr rankCounter ++ "a"⟩
    | _, _, _ => none

/-! ## Prospective calculator (`Kranzrechner`, App.jsx 15-21 and 174-184) -/

/-- An entry of `POSSIBLE_RESULTS`. -/
structure PossibleResult where
  score : ℚ
  label : String
deriving DecidableEq

/-- The table `POSSIBLE_RESULTS`. -/
def POSSIBLE_RESULTS : List PossibleResult :=
  [⟨8.50, "Niederlage"⟩, ⟨8.75, "Gestellt"⟩, ⟨9.00, "Gestellt"⟩, ⟨9.75, "Sieg"⟩,
   ⟨10.00, "Sieg"⟩]

/-- The closure `getNeededResultForOneRound` of `Kranzrechner`; `none` is `null`. -/
def getNeededResultForOneRound (currentScore targetScore : ℚ) : Option PossibleResult :=
  let needed := targetScore - currentScore
  POSSIBLE_RESULTS.find? (fun result => decide (result.score ≥ needed))

/-- The closure `getNeededResultForTwoRounds` of `Kranzrechner`: the nested loops return at
the first pair that reaches `needed`; `none` is `null`. -/
def getNeededResultForTwoRounds (currentScore targetScore : ℚ) :
    Option (PossibleResult × PossibleResult) :=
  let needed := targetScore - currentScore
  POSSIBLE_RESULTS.findSome? (fun r1 =>
    (POSSIBLE_RESULTS.find? (fun r2 => decide (r1.score + r2.score ≥ needed))).map
      (fun r2 => (r1, r2)))

/-! ## Text helpers (`trim`, `split`, `parseFloat`, `toFixed`) -/

/-- White space as `String.prototype.trim`, the regular expression class `\s` and
`parseFloat` understand it. -/
def isWhitespace (c : Char) : Bool :=
  [9, 10, 11, 12, 13, 32, 160, 5760, 8232, 8233, 8239, 8287, 12288, 65279].contains c.toNat
    || (decide (8192 ≤ c.toNat) && decide (c.toNat ≤ 8202))

/-- The method `trim` on the characters of a string. -/
def trimChars (cs : List Char) : List Char :=
  ((cs.dropWhile isWhitespace).reverse.dropWhile isWhitespace).reverse

/-- The method `String.prototype.trim`. -/
def trim (s : String) : String := String.mk (trimChars s.data)

/-- Splits at every occurrence of the character `sep`, as `split(',')` and `split('/')` do;
the result has one more part than there are separators. -/
def splitOnChar (sep : Char) : List Char → List (List Char)
  | [] => [[]]
  | c :: cs =>
    match splitOnChar sep cs with
    | [] => [[]]
    | part :: parts => if c = sep then [] :: part :: parts else (c :: part) :: parts

/-- Splits into lines as `split(/\r?\n/)` does: a line ends at a line feed, and a carriage
return directly before that line feed belongs to the separator. -/
def splitLines : List Char → List (List Char)
  | [] => [[]]
  | c :: cs =>
    match splitLines cs with
    | [] => [[]]
    | part :: parts =>
      if c = '\n' then [] :: part :: parts
      else if c = '\r' ∧ part = [] ∧ cs.head? = some '\n' then part :: parts
      else (c :: part) :: parts

/-- The function `parseFloat` on decimal literals: leading white space, an optional sign,
digits with an optional fraction, an optional exponent. The result is `none` where the source
yields `NaN`; the literal `Infinity` is outside the number model and also gives `none`. -/
def parseFloat (s : String) : Option ℚ :=
  let cs := s.data.dropWhile isWhitespace
  let (negative, cs) := match cs with
    | '-' :: rest => (true, rest)
    | '+' :: rest => (false, rest)
    | _ => (false, cs)
  let intDigits := cs.takeWhile isDigit
  let afterInt := cs.dropWhile isDigit
  let (fracDigits, afterFrac) := match afterInt with
    | '.' :: rest => (rest.takeWhile isDigit, rest.dropWhile isDigit)
    | _ => ([], afterInt)
  if intDigits = [] ∧ fracDigits = [] then none
  else
    let exponent : Int := match afterFrac with
      | e :: rest =>
        if e = 'e' ∨ e = 'E' then
          let (expNegative, rest) := match rest with
            | '-' :: r => (true, r)
            | '+' :: r => (false, r)
            | _ => (false, rest)
          let expDigits := rest.takeWhile isDigit
          if expNegative then -(digitsValue 0 expDigits : Int)
          else (digitsValue 0 expDigits : Int)
        else 0
      | [] => 0
    let mantissa : ℚ :=
      (digitsValue 0 intDigits : ℚ) + (digitsValue 0 fracDigits : ℚ) / 10 ^ fracDigits.length
    some ((if negative then -mantissa else mantissa) * 10 ^ exponent)

/-- The method `toFixed(2)` on a number below `10 ^ 21`: the nearest multiple of one
hundredth, the larger one on a tie, with two decimals. -/
def toFixed2 (x : ℚ) : String :=
  let n := (|x| * 100 + 1 / 2).floor.toNat
  let frac := n % 100
  (if x < 0 then "-" else "") ++ Nat.repr (n / 100) ++ "."
    ++ (if frac < 10 then "0" else "") ++ Nat.repr frac

/-! ## Parsing names and notes (`parseName`, `parseNoteValue`, App.jsx 4-31) -/

/-- Replaces the first occurrence of the non-empty text `pat` by `repl`, as `replace` does
with a string pattern. -/
def replaceFirst (pat repl : List Char) : List Char → List Char
  | [] => []
  | c :: cs => if pat.isPrefixOf (c :: cs) then repl ++ (c :: cs).drop pat.length
               else c :: replaceFirst pat repl cs

/-- The match of `/(\s*\*+)$/`: when the text ends in `*`, the maximal trailing run of `*`
together with the maximal run of white space directly before it. -/
def sterneMatch (rawName : String) : Option (List Char) :=
  let stars := rawName.data.reverse.takeWhile (fun c => c = '*')
  let before := rawName.data.reverse.dropWhile (fun c => c = '*')
  if stars = [] then none
  else some ((before.takeWhile isWhitespace).reverse ++ stars)

/-- The function `parseName(rawName)`; the result is `(name, sterne)`. -/
def parseName (rawName : String) : String × String :=
  match sterneMatch rawName with
  | some m => (String.mk (trimChars (replaceFirst m [] rawName.data)), String.mk (trimChars m))
  | none => (trim rawName, "")

/-- The table `NOTE_OPTIONS`. -/
def NOTE_OPTIONS : List String :=
  ["", "10.00", "9.75", "9.00", "8.75", "8.50", "10.00 / 9.75", "9.00 / 8.75"]

/-- The function `parseNoteValue(noteVal)`. The result is `none` where a part of the text is
not a number, so that the source would store `NaN`. -/
def parseNoteValue (noteVal : String) : Option Note :=
  if noteVal = "" then some ⟨0, 0, "-"⟩
  else if noteVal.data.contains '/' then
    match (splitOnChar '/' noteVal.data).map (fun n => parseFloat (trim (String.mk n))) with
    | some high :: some low :: _ => some ⟨high, low, noteVal⟩
    | _ => none
  else
    match parseFloat noteVal with
    | some note => some ⟨note, note, toFixed2 note⟩
    | none => none

/-! ## The competitor collection (a `Map` keyed by `nummer`) -/

/-- The `Map` from competitor number to competitor record, in insertion order. -/
abbrev SchwingerData := List (String × Schwinger)

/-- The method `Map.prototype.get`; `none` is `undefined`. -/
def mapGet {β : Type} : List (String × β) → String → Option β
  | [], _ => none
  | (k, v) :: rest, key => if k = key then some v else mapGet rest key

/-- The method `Map.prototype.set`: an existing key keeps its position, a new key goes to
the end. -/
def mapSet {β : Type} : List (String × β) → String → β → List (String × β)
  | [], key, value => [(key, value)]
  | (k, v) :: rest, key, value =>
    if k = key then (key, value) :: rest else (k, v) :: mapSet rest key value

/-- The assignment `array[i] = value`; writing past the end fills the gap with empty
slots. -/
def arraySet (array : List (Option Note)) (i : Nat) (value : Option Note) :
    List (Option Note) :=
  if i < array.length then array.set i value
  else array ++ List.replicate (i - array.length) none ++ [value]

/-- The expression `punkteBasis + punkteGaenge.reduce((sum, p) => sum + (p ? p.high : 0), 0)`
of `updateSchwinger`, `handleEditSave` and `handleDelete`. -/
def recomputeTotal (punkteBasis : ℚ) (punkteGaenge : List (Option Note)) : ℚ :=
  punkteBasis + punkteGaenge.foldl
    (fun sum p => sum + (match p with | some note => note.high | none => 0)) 0

/-- The body shared by `updateSchwinger`, `handleEditSave` and `handleDelete` after the deep
copy: write the slot of the current round and recompute the total. -/
def writeSlot (currentRound : Nat) (schwinger : Schwinger) (slot : Option Note) : Schwinger :=
  let punkteGaenge := arraySet schwinger.punkteGaenge (currentRound - 1) slot
  { schwinger with punkteGaenge := punkteGaenge,
                   total := recomputeTotal schwinger.punkteBasis punkteGaenge }

/-! ## Seeding the collection (`handleProcess`, App.jsx 90-138) -/

deriving instance DecidableEq for Except

/-- The record built for a competitor: eight empty round slots and `total` equal to the
carried-over points. -/
def newSchwinger (nummer name sterne : String) (punkte : ℚ) : Schwinger :=
  { nummer := nummer, name := name, sterne := sterne, punkteBasis := punkte,
    punkteGaenge := List.replicate 8 none, total := punkte }

/-- A line split at its first comma: `parts.shift().trim()` and `parts.join(',').trim()`;
`none` when the line has no comma (`parts.length < 2`). -/
def splitEntry (line : List Char) : Option (String × String) :=
  match splitOnChar ',' line with
  | first :: second :: more =>
    some (String.mk (trimChars first),
      String.mk (trimChars (List.intercalate [','] (second :: more))))
  | _ => none

/-- The first loop of `handleProcess`: the map from name to number, built line by line. -/
def buildNameToNummer :
    List (List Char) → List (String × String) → Except String (List (String × String))
  | [], nameToNummer => .ok nameToNummer
  | line :: rest, nameToNummer =>
    if trimChars line = [] then buildNameToNummer rest nameToNummer
    else
      match splitEntry line with
      | none => .error ("Ungültiges Format in Startliste: \"" ++ String.mk line ++ "\"")
      | some (nummer, rawName) =>
        let name := (parseName rawName).1
        if (mapGet nameToNummer name).isSome then
          .error ("Doppelter Name in Startliste: " ++ name)
        else buildNameToNummer rest (mapSet nameToNummer name nummer)

/-- The loop over the standing of the previous round (`currentRound > 1`). -/
def processRangliste (nameToNummer : List (String × String)) :
    List (List Char) → SchwingerData → Except String SchwingerData
  | [], processedData => .ok processedData
  | line :: rest, processedData =>
    if trimChars line = [] then processRangliste nameToNummer rest processedData
    else
      match splitEntry line with
      | none => .error ("Ungültiges Format in Rangliste: \"" ++ String.mk line ++ "\"")
      | some (punkteStr, rawNameFromRang) =>
        let (name, sterne) := parseName rawNameFromRang
        match mapGet nameToNummer name with
        | none =>
          .error ("Schwinger \"" ++ name ++ "\" aus Rangliste nicht in Startliste gefunden.")
        | some nummer =>
          match parseFloat (String.mk (replaceFirst [','] ['.'] punkteStr.data)) with
          | none => .error ("Ungültige Punktzahl für " ++ name)
          | some punkteFloat =>
            processRangliste nameToNummer rest
              (mapSet processedData nummer (newSchwinger nummer name sterne punkteFloat))

/-- The loop over the roster for round 1. There is no format check here; on a line without
a comma `parts.shift()` is the whole line and `parts.join(',')` is empty. -/
def processStartliste : List (List Char) → SchwingerData → SchwingerData
  | [], processedData => processedData
  | line :: rest, processedData =>
    if trimChars line = [] then processStartliste rest processedData
    else
      let (nummer, rawName) := (splitEntry line).getD (String.mk (trimChars line), "")
      let (name, sterne) := parseName rawName
      processStartliste rest (mapSet processedData nummer (newSchwinger nummer name sterne 0))

/-- The handler `handleProcess`: the collection `processedData` handed to `onDataProcessed`,
or the message shown by `setError`. -/
def handleProcess (startliste rangliste : String) (currentRound : Nat) :
    Except String SchwingerData :=
  if startliste = "" then .error "Startliste wird benötigt."
  else if currentRound > 1 ∧ rangliste = "" then
    .error ("Für Gang " ++ Nat.repr currentRound ++ " wird eine Rangliste benötigt.")
  else
    match buildNameToNummer (splitLines startliste.data) [] with
    | .error message => .error message
    | .ok nameToNummer =>
      if currentRound > 1 then processRangliste nameToNummer (splitLines rangliste.data) []
      else .ok (processStartliste (splitLines startliste.data) [])

/-! ## Recording, editing and undoing results (App.jsx 218-256 and 313-332) -/

/-- One side of a bout slot: the chosen competitor number and the chosen note text. -/
structure Selection where
  nummer : String
  note : String
deriving DecidableEq

/-- A bout slot of `pairings`. -/
structure Pairing where
  id : Nat
  s1 : Selection
  s2 : Selection
  error : Option String
deriving DecidableEq

/-- The state the handlers of `GaengeView` and `RanglisteView` read and write:
`appData.schwingerData`, `history`, `pairings`, `lastAdded` and `undoMessage`. The round
`currentRound` (one of `roundOptions`, so between 1 and 8) is fixed for a session and passed
separately. -/
structure AppState where
  schwingerData : SchwingerData
  history : List SchwingerData
  pairings : List Pairing
  lastAdded : List String
  undoMessage : String
deriving DecidableEq

/-- The path `saveResult` takes. -/
inductive SaveOutcome where
  /-- No bout slot has the given id: the destructuring throws before anything is set. -/
  | noPairing
  /-- The guard `!s1.nummer || !s2.nummer || !s1.note || !s2.note` fires. -/
  | missingField
  /-- The guard on the slot of the current round fires. -/
  | occupied
  /-- The function `updateSchwinger` throws inside the `try` block and `alert` reports it. -/
  | thrown
  /-- The call `setSchwingerData(newSchwingerData)` is reached. -/
  | saved
deriving DecidableEq

/-- The state update `setPairings(prev => prev.map(p => p.id === platzId ? f p : p))`. -/
def updatePairing (pairings : List Pairing) (platzId : Nat) (f : Pairing → Pairing) :
    List Pairing :=
  pairings.map (fun p => if p.id = platzId then f p else p)

/-- The test `data?.punkteGaenge[currentRound - 1]` of `saveResult` for truthiness. -/
def slotFilled (currentRound : Nat) (data : Option Schwinger) : Bool :=
  match data with
  | some s =>
    match s.punkteGaenge[currentRound - 1]? with
    | some (some _) => true
    | _ => false
  | none => false

/-- What a call of `updateSchwinger` does. -/
inductive UpdateResult where
  /-- The deep copy `JSON.parse(JSON.stringify(undefined))` throws: unknown number. -/
  | thrown
  /-- The note text has a part that is not a number (outside the number model). -/
  | notANumber
  /-- The new collection after `newSchwingerData.set(nummer, schwinger)`. -/
  | updated (newSchwingerData : SchwingerData)

/-- The inner function `updateSchwinger(nummer, noteVal)` of `saveResult`, applied to the
working copy `newSchwingerData`. -/
def updateSchwinger (currentRound : Nat) (newSchwingerData : SchwingerData) (nummer : String)
    (noteVal : String) : UpdateResult :=
  match mapGet newSchwingerData nummer with
  | none => .thrown
  | some schwinger =>
    match parseNoteValue noteVal with
    | none => .notANumber
    | some note =>
      .updated (mapSet newSchwingerData nummer (writeSlot currentRound schwinger (some note)))

/-- The handler `saveResult(platzId)`: the path taken and the state after the handler has
run. The result is `none` where a chosen note text is not a number. -/
def saveResult (currentRound : Nat) (st : AppState) (platzId : Nat) :
    Option (SaveOutcome × AppState) :=
  match st.pairings.find? (fun p => decide (p.id = platzId)) with
  | none => some (.noPairing, st)
  | some pairing =>
    let s1 := pairing.s1
    let s2 := pairing.s2
    if s1.nummer = "" ∨ s2.nummer = "" ∨ s1.note = "" ∨ s2.note = "" then
      let pairings := updatePairing st.pairings platzId
        (fun p => { p with error := some "Alle Felder ausfüllen" })
      some (.missingField, { st with pairings := pairings })
    else
      let s1Data := mapGet st.schwingerData s1.nummer
      let s2Data := mapGet st.schwingerData s2.nummer
      if slotFilled currentRound s1Data || slotFilled currentRound s2Data then
        let pairings := updatePairing st.pairings platzId
          (fun p => { p with error := some "Schwinger hat bereits Resultat" })
        some (.occupied, { st with pairings := pairings })
      else
        let pushed : AppState :=
          { st with history := st.history ++ [st.schwingerData],
                    lastAdded := [s1.nummer, s2.nummer] }
        match updateSchwinger currentRound st.schwingerData s1.nummer s1.note with
        | .thrown => some (.thrown, pushed)
        | .notANumber => none
        | .updated data1 =>
          match updateSchwinger currentRound data1 s2.nummer s2.note with
          | .thrown => some (.thrown, pushed)
          | .notANumber => none
          | .updated data2 =>
            let pairings := updatePairing st.pairings platzId
              (fun p => { p with s1 := ⟨"", ""⟩, s2 := ⟨"", ""⟩, error := none })
            some (.saved, { pushed with schwingerData := data2, pairings := pairings })

/-- The slot `data.get(key)?.punkteGaenge[currentRound - 1]` as `undoLast` reads it: the outer
`none` is `undefined`, `some none` is `null`. -/
def slotOf (currentRound : Nat) (data : SchwingerData) (key : String) :
    Option (Option Note) :=
  match mapGet data key with
  | some s => s.punkteGaenge[currentRound - 1]?
  | none => none

/-- The handler `undoLast`. -/
def undoLast (currentRound : Nat) (st : AppState) : AppState :=
  match st.history.getLast? with
  | none => st
  | some lastState =>
    let lastSchwingerKeys := (st.schwingerData.map Prod.fst).filter (fun key =>
      decide (slotOf currentRound lastState key = some none) &&
      decide (slotOf currentRound st.schwingerData key ≠ some none))
    let undoMessage :=
      match lastSchwingerKeys with
      | [k1, k2] =>
        match mapGet st.schwingerData k1, mapGet st.schwingerData k2 with
        | some s1, some s2 =>
          "Resultat für " ++ s1.name ++ " & " ++ s2.name ++ " rückgängig gemacht."
        | _, _ => st.undoMessage
      | _ => st.undoMessage
    { st with schwingerData := lastState, history := st.history.dropLast,
              lastAdded := [], undoMessage := undoMessage }

/-- The handler `handleEditSave(nummer, newNote)`. An unknown number makes the deep copy
throw and leaves the state as it is; the result is `none` where the note text is not a
number, where the source stores `NaN` as the result and as the total. -/
def handleEditSave (currentRound : Nat) (st : AppState) (nummer : String) (newNote : String) :
    Option AppState :=
  match mapGet st.schwingerData nummer with
  | none => some st
  | some schwinger =>
    match parseNoteValue newNote with
    | none => none
    | some note =>
      let newSchwingerData :=
        mapSet st.schwingerData nummer (writeSlot currentRound schwinger (some note))
      some { st with schwingerData := newSchwingerData }

/-- The handler `handleDelete(nummer)`. An unknown number makes the deep copy throw and leaves
the state as it is. -/
def handleDelete (currentRound : Nat) (st : AppState) (nummer : String) : AppState :=
  match mapGet st.schwingerData nummer with
  | none => st
  | some schwinger =>
    let newSchwingerData :=
      mapSet st.schwingerData nummer (writeSlot currentRound schwinger none)
    { st with schwingerData := newSchwingerData }

/-- The initial value of the state `note` of `EditNoteModal` (App.jsx 424),
`schwinger.punkteGaenge[currentRound - 1]?.display || ''`: the display text of the slot of
the current round, the empty text when the slot holds no result. -/
def editNoteInitial (currentRound : Nat) (schwinger : Schwinger) : String :=
  match schwinger.punkteGaenge[currentRound - 1]? with
  | some (some note) => note.display
  | _ => ""

/-! ## The live standing (`RanglisteView`, App.jsx 295-402) -/

/-- The festival type, `'normal'` or `'esaf'`. -/
inductive FestivalType where
  | normal
  | esaf
deriving DecidableEq

/-- The dividers of the standing; the kind is the prefix of the React key of a `LineRow`. -/
inductive LineKind where
  | ausstich
  | kranzausstich
  | kranz
  | schlussgang
  | minKranz
  | maxKranz
deriving DecidableEq

/-- A row of the table body: a `LineRow` with its caption, the row of a competitor with its
rank label, or an `EmptyRow` with its rank label. Colour classes are markup and left out. -/
inductive Row where
  | line (kind : LineKind) (text : String)
  | schwinger (s : Schwinger) (display : String)
  | empty (rank : String)
deriving DecidableEq

/-- The props and state `renderTableRows` reads: festival type, round, `schwingerData.size`,
the memoised list `competedSchwinger` and the three selected cutoff values. -/
structure RanglisteView where
  festivalType : FestivalType
  currentRound : Nat
  size : Nat
  competedSchwinger : List Schwinger
  ausstichLinie : String
  kranzausstichLinie : String
  kranzLinie : String

/-- The memoised list `competedSchwinger` of a collection: the competitors whose slot of the
current round is not `null`, stably sorted by total in non-increasing order. -/
def competedSchwinger (schwingerData : SchwingerData) (currentRound : Nat) : List Schwinger :=
  ((schwingerData.map Prod.snd).filter
    (fun s => decide (s.punkteGaenge[currentRound - 1]? ≠ some none))).insertionSort
    (fun a b => b.total ≤ a.total)

/-- The initial state of a `RanglisteView` over a collection. -/
def initialView (festivalType : FestivalType) (currentRound : Nat)
    (schwingerData : SchwingerData) : RanglisteView :=
  { festivalType := festivalType, currentRound := currentRound,
    size := schwingerData.length,
    competedSchwinger := competedSchwinger schwingerData currentRound,
    ausstichLinie := "35.75", kranzausstichLinie := "54.25",
    kranzLinie := if festivalType = .esaf then "74.75" else "56.50" }

def showAusstich (v : RanglisteView) : Bool :=
  (decide (v.festivalType = .normal) || decide (v.festivalType = .esaf))
    && decide (v.currentRound = 4)

def showSchlussgang (v : RanglisteView) : Bool :=
  (decide (v.festivalType = .normal) && decide (v.currentRound = 5))
    || (decide (v.festivalType = .esaf) && decide (v.currentRound = 7))

def showKranzausstich (v : RanglisteView) : Bool :=
  decide (v.festivalType = .esaf) && decide (v.currentRound = 6)

def showKranz (v : RanglisteView) : Bool :=
  (decide (v.festivalType = .normal) && decide (v.currentRound = 6))
    || (decide (v.festivalType = .esaf) && decide (v.currentRound = 8))

/-- The integer nearest to `m`, the even one on a tie. -/
def roundHalfEven (m : ℚ) : ℤ :=
  if m - ⌊m⌋ < 1 / 2 then ⌊m⌋
  else if 1 / 2 < m - ⌊m⌋ then ⌊m⌋ + 1
  else if ⌊m⌋ % 2 = 0 then ⌊m⌋ else ⌊m⌋ + 1

/-- The binary64 number nearest to a non-negative rational in the normal range, ties to
even: a multiple of `2 ^ (e - 52)` for `2 ^ e ≤ q < 2 ^ (e + 1)`. -/
def roundToDouble (q : ℚ) : ℚ :=
  if q ≤ 0 then 0
  else roundHalfEven (q / 2 ^ (Int.log 2 q - 52)) * 2 ^ (Int.log 2 q - 52)

/-- The literal `0.15` as a binary64 number. -/
def double015 : ℚ := roundToDouble (15 / 100)

/-- The literal `0.18` as a binary64 number. -/
def double018 : ℚ := roundToDouble (18 / 100)

/-- The value `showKranz ? Math.ceil(schwingerData.size * 0.15) : 0`, the product rounded as
binary64 multiplication rounds it. -/
def minKranzRank (v : RanglisteView) : Nat :=
  if showKranz v then ⌈roundToDouble ((v.size : ℚ) * double015)⌉₊ else 0

/-- The value `showKranz ? Math.ceil(schwingerData.size * 0.18) : 0`, the product rounded as
binary64 multiplication rounds it. -/
def maxKranzRank (v : RanglisteView) : Nat :=
  if showKranz v then ⌈roundToDouble ((v.size : ℚ) * double018)⌉₊ else 0

def kranzScoreThreshold (v : RanglisteView) : ℚ :=
  if v.festivalType = .esaf then 74.25 else 55.75

def kranzAnwaerter (v : RanglisteView) : List Schwinger :=
  if showKranz v then
    v.competedSchwinger.filter (fun s => decide (s.total > kranzScoreThreshold v))
  else v.competedSchwinger

def rest (v : RanglisteView) : List Schwinger :=
  if showKranz v then
    v.competedSchwinger.filter (fun s => decide (s.total ≤ kranzScoreThreshold v))
  else []

/-- The list `[...kranzAnwaerter, ...rest]` of `renderSchwingerRows`. -/
def fullList (v : RanglisteView) : List Schwinger := kranzAnwaerter v ++ rest v

/-- The object `lineFlags`. -/
structure LineFlags where
  ausstich : Bool
  kranzausstich : Bool
  kranz : Bool
  minKranz : Bool
  maxKranz : Bool
deriving DecidableEq

/-- The mutable locals of `renderTableRows`: `rows`, `lastTotal` (`none` is `Infinity`) and
`lineFlags`. -/
structure RenderState where
  rows : List Row
  lastTotal : Option ℚ
  lineFlags : LineFlags

/-- The caption of a cutoff divider, with the first `*` of the selected value removed. -/
def cutoffText (label linie : String) : String :=
  "--- " ++ label ++ " (" ++ String.mk (replaceFirst ['*'] [] linie.data) ++ ") ---"

/-- The caption of a qualification-count divider. -/
def countText (label : String) (count : Nat) : String :=
  "--- " ++ label ++ " (" ++ Nat.repr count ++ ") ---"

/-- The test `linie !== '0' && lastTotal >= parseFloat(linie) && total < parseFloat(linie)`;
a comparison with `NaN` is false. -/
def crossesLine (linie : String) (lastTotal : Option ℚ) (total : ℚ) : Bool :=
  decide (linie ≠ "0") &&
    match parseFloat linie with
    | none => false
    | some value =>
      (match lastTotal with
        | none => true
        | some last => decide (last ≥ value)) && decide (total < value)

/-- The statement `rows.push(row)`. -/
def pushRow (st : RenderState) (row : Row) : RenderState :=
  { st with rows := st.rows ++ [row] }

/-- The count `rank1Count`: the entries of `fullList` whose rank is 1. The entries are distinct
objects, so `fullList.indexOf(schw)` is the position of `schw`. -/
def rank1Count (fullList : List Schwinger) : Option Nat :=
  ((List.range fullList.length).mapM (fun i => getDynamicRankDisplay fullList i)).map
    (fun rds => (rds.filter (fun rd => decide (rd.rank = 1))).length)

/-- The three cutoff checks made before the row of `s` is pushed; all read `lastTotal` as it
was left by the previous row. -/
def pushCutoffLines (v : RanglisteView) (st : RenderState) (s : Schwinger) : RenderState :=
  let st1 :=
    if showAusstich v && crossesLine v.ausstichLinie st.lastTotal s.total then
      { pushRow st (.line .ausstich (cutoffText "Ausstichlinie" v.ausstichLinie)) with
        lineFlags := { st.lineFlags with ausstich := true } }
    else st
  let st2 :=
    if showKranzausstich v && crossesLine v.kranzausstichLinie st.lastTotal s.total then
      { pushRow st1 (.line .kranzausstich
          (cutoffText "Kranzausstichlinie" v.kranzausstichLinie)) with
        lineFlags := { st1.lineFlags with kranzausstich := true } }
    else st1
  if showKranz v && crossesLine v.kranzLinie st.lastTotal s.total then
    { pushRow st2 (.line .kranz (cutoffText "Kranzlinie" v.kranzLinie)) with
      lineFlags := { st2.lineFlags with kranz := true } }
  else st2

/-- The block `if (showSchlussgang && isLastOfRank)`; `none` where `rank1Count` throws. -/
def pushSchlussgangLine (v : RanglisteView) (st : RenderState) (rank : Nat)
    (isLastOfRank : Bool) : Option RenderState :=
  if showSchlussgang v && isLastOfRank then
    match rank1Count (fullList v) with
    | none => none
    | some rank1Count =>
      let st1 :=
        if rank = 1 ∧ rank1Count ≥ 2 then
          pushRow st (.line .schlussgang "--- Schlussgangkandidaten ---")
        else st
      some (if rank = 2 ∧ rank1Count < 2 then
          pushRow st1 (.line .schlussgang "--- Schlussgangkandidaten ---")
        else st1)
  else some st

/-- The two checks of a position `personIndex` (1-based) against `minKranzRank` and
`maxKranzRank`, shared by the candidate rows and the placeholder rows. -/
def pushCountLines (v : RanglisteView) (st : RenderState) (personIndex : Nat) : RenderState :=
  let st1 :=
    if personIndex = minKranzRank v then
      { pushRow st (.line .minKranz (countText "Min. Kränze" (minKranzRank v))) with
        lineFlags := { st.lineFlags with minKranz := true } }
    else st
  if personIndex = maxKranzRank v then
    { pushRow st1 (.line .maxKranz (countText "Max. Kränze" (maxKranzRank v))) with
      lineFlags := { st1.lineFlags with maxKranz := true } }
  else st1

/-- The body of the `forEach` callback of `renderSchwingerRows` for the entry `s` at position
`index` of the list walked; `none` where `getDynamicRankDisplay` throws. -/
def renderSchwingerRow (v : RanglisteView) (isAnwaerter : Bool) (st : RenderState)
    (s : Schwinger) (index : Nat) : Option RenderState :=
  let globalIndex := if isAnwaerter then index else (kranzAnwaerter v).length + index
  match getDynamicRankDisplay (fullList v) globalIndex with
  | none => none
  | some rd =>
    let st1 := pushRow (pushCutoffLines v st s) (.schwinger s rd.display)
    let isLastOfRank :=
      match (fullList v)[globalIndex + 1]? with
      | none => true
      | some nextSchwinger => decide (nextSchwinger.total ≠ s.total)
    match pushSchlussgangLine v st1 rd.rank isLastOfRank with
    | none => none
    | some st2 =>
      let st3 :=
        if showKranz v && isLastOfRank && isAnwaerter then
          pushCountLines v st2 (globalIndex + 1)
        else st2
      some { st3 with lastTotal := some s.total }

/-- The function `renderSchwingerRows(schwingerList, isAnwaerter)`: the `forEach` from
position `index` of the list on. -/
def renderSchwingerRowsFrom (v : RanglisteView) (isAnwaerter : Bool) :
    List Schwinger → Nat → RenderState → Option RenderState
  | [], _, st => some st
  | s :: schwingerList, index, st =>
    match renderSchwingerRow v isAnwaerter st s index with
    | none => none
    | some st1 => renderSchwingerRowsFrom v isAnwaerter schwingerList (index + 1) st1

/-- The function `renderSchwingerRows(schwingerList, isAnwaerter)`. -/
def renderSchwingerRows (v : RanglisteView) (schwingerList : List Schwinger)
    (isAnwaerter : Bool) (st : RenderState) : Option RenderState :=
  renderSchwingerRowsFrom v isAnwaerter schwingerList 0 st

/-- The loop `for (let i = 0; i < neededPlaceholders; i++)` from `i` on, with `remaining`
iterations to go: the rows pushed to `placeholders` are appended to `rows` directly. -/
def pushPlaceholdersFrom (v : RanglisteView) (lastRank : Nat) :
    Nat → Nat → RenderState → RenderState
  | 0, _, st => st
  | remaining + 1, i, st =>
    let personIndex := (kranzAnwaerter v).length + i + 1
    let rankDisplay := Nat.repr (lastRank + i + 1) ++ "a"
    pushPlaceholdersFrom v lastRank remaining (i + 1)
      (pushCountLines v (pushRow st (.empty rankDisplay)) personIndex)

/-- The block `if (showKranz)` between the two walks; `none` where `getDynamicRankDisplay`
throws. -/
def pushPlaceholders (v : RanglisteView) (st : RenderState) : Option RenderState :=
  if showKranz v then
    if maxKranzRank v > (kranzAnwaerter v).length then
      let lastRank : Option Nat :=
        if (kranzAnwaerter v).length > 0 then
          (getDynamicRankDisplay (kranzAnwaerter v) ((kranzAnwaerter v).length - 1)).map
            RankDisplay.rank
        else some 0
      match lastRank with
      | none => none
      | some lastRank =>
        some (pushPlaceholdersFrom v lastRank
          (maxKranzRank v - (kranzAnwaerter v).length) 0 st)
    else some st
  else some st

/-- The five checks after the walks that push a divider not pushed so far. -/
def pushMissingLines (v : RanglisteView) (st : RenderState) : RenderState :=
  let st1 :=
    if showAusstich v && decide (v.ausstichLinie ≠ "0") && !st.lineFlags.ausstich then
      pushRow st (.line .ausstich (cutoffText "Ausstichlinie" v.ausstichLinie))
    else st
  let st2 :=
    if showKranzausstich v && decide (v.kranzausstichLinie ≠ "0")
        && !st.lineFlags.kranzausstich then
      pushRow st1 (.line .kranzausstich (cutoffText "Kranzausstichlinie" v.kranzausstichLinie))
    else st1
  let st3 :=
    if showKranz v && decide (v.kranzLinie ≠ "0") && !st.lineFlags.kranz then
      pushRow st2 (.line .kranz (cutoffText "Kranzlinie" v.kranzLinie))
    else st2
  let st4 :=
    if showKranz v && !st.lineFlags.maxKranz then
      pushRow st3 (.line .maxKranz (countText "Max. Kränze" (maxKranzRank v)))
    else st3
  if showKranz v && !st.lineFlags.minKranz then
    pushRow st4 (.line .minKranz (countText "Min. Kränze" (minKranzRank v)))
  else st4

/-- The function `renderTableRows`; `none` where a call of `getDynamicRankDisplay` throws. -/
def renderTableRows (v : RanglisteView) : Option (List Row) :=
  let st0 : RenderState := ⟨[], none, ⟨false, false, false, false, false⟩⟩
  match renderSchwingerRows v (kranzAnwaerter v) true st0 with
  | none => none
  | some st1 =>
    match pushPlaceholders v st1 with
    | none => none
    | some st2 =>
      match renderSchwingerRows v (rest v) false st2 with
      | none => none
      | some st3 => some (pushMissingLines v st3).rows

/-! ## Auxiliary definitions used to state the properties -/


/-- Position of index `i` inside its run of consecutive equal totals: `0` at index `0` and
after a change of total, one more than at `i - 1` on a tie with the previous entry. -/
def tieOffset (list : List Schwinger) : Nat → Nat
  | 0 => 0
  | i + 1 =>
    match list[i]?, list[i + 1]? with
    | some previous, some current =>
      if current.total = previous.total then tieOffset list i + 1 else 0
    | _, _ => 0

/-- The rank number without the label: `1` at index `0`, the previous rank on a tie with the
previous entry, the loop counter otherwise. -/
def rankOf (list : List Schwinger) : Nat → Nat
  | 0 => 1
  | i + 1 =>
    match list[0]?, list[i]?, list[i + 1]? with
    | some first, some previous, some current =>
      if current.total = previous.total then rankOf list i
      else (rankCounterLoop list first (i + 1)).1
    | _, _, _ => 0

/-- The letters available as rank suffix. -/
def alphabet : String := "abcdefghijklmnopqrstuvwxyz"

/-- A list is sorted by total in non-increasing order, as `sort((a, b) => b.total - a.total)`
leaves it. -/
def SortedByTotal (list : List Schwinger) : Prop :=
  list.Pairwise (fun a b => b.total ≤ a.total)

/-- Number of distinct totals among `list[0..i]`. -/
def distinctTotals (list : List Schwinger) (i : Nat) : Nat :=
  ((list.take (i + 1)).map Schwinger.total).dedup.length

/-- No group of equal totals has more than 26 members. -/
def TieGroupsWithinAlphabet (list : List Schwinger) : Prop :=
  ∀ x : ℚ, list.countP (fun s => decide (s.total = x)) ≤ 26

/-- Index of the first entry of `list` whose total is `x`. -/
def groupStart (list : List Schwinger) (x : ℚ) : Nat :=
  list.findIdx (fun s => decide (s.total = x))

/-! ## Sample data for the concrete instances -/

/-- A competitor with the given number and carried-over total and eight empty round slots,
as `handleProcess` builds it from a standing line. -/
def sampleSchwinger (nummer : String) (punkte : ℚ) : Schwinger :=
  ⟨nummer, nummer, "", punkte, List.replicate 8 none, punkte⟩

/-- A sorted standing with a tie at the top and a tie at the bottom. -/
def sampleStanding : List Schwinger :=
  [sampleSchwinger "1" 48.75, sampleSchwinger "2" 48.75, sampleSchwinger "3" 48.50,
   sampleSchwinger "4" 47.25, sampleSchwinger "5" 47.25]

/-- All pairs of outcomes in the order of the nested loops: first outcome outer, second
outcome inner, both in table order. -/
def resultPairs : List (PossibleResult × PossibleResult) :=
  POSSIBLE_RESULTS.flatMap (fun r1 => POSSIBLE_RESULTS.map (fun r2 => (r1, r2)))

/-- A competitor is consistent when `total` is `punkteBasis` plus the sum of the high values
of its non-empty round slots. -/
def Consistent (s : Schwinger) : Prop :=
  s.total = s.punkteBasis + ((s.punkteGaenge.filterMap id).map Note.high).sum

/-- Every competitor of the collection is consistent. -/
def AllConsistent (data : SchwingerData) : Prop :=
  ∀ entry ∈ data, Consistent entry.2

/-- `SavedRun currentRound st n st'`: the state `st'` is reached from `st` by `n` successful
calls of `saveResult`. Before each save the bout slots may have been edited in any way
(`handlePairingChange` writes `pairings` only). -/
inductive SavedRun (currentRound : Nat) : AppState → Nat → AppState → Prop where
  | start (st : AppState) : SavedRun currentRound st 0 st
  | save {st mid st' : AppState} {n : Nat} (pairings : List Pairing) (platzId : Nat) :
      SavedRun currentRound st n mid →
      saveResult currentRound { mid with pairings := pairings } platzId = some (.saved, st') →
      SavedRun currentRound st (n + 1) st'

/-- The roster of the scenario: two competitors before round 1. -/
def sampleRoster : SchwingerData :=
  [("1", newSchwinger "1" "Giger Samuel" "***" 0), ("2", newSchwinger "2" "Orlik Armon" "*" 0)]

/-- A session at round 1 with one filled bout slot. -/
def sampleState : AppState :=
  { schwingerData := sampleRoster, history := [],
    pairings := [⟨0, ⟨"1", "9.75"⟩, ⟨"2", "8.75"⟩, none⟩], lastAdded := [], undoMessage := "" }

/-- The collection after the bout of `sampleState` is saved. -/
def sampleSavedData : SchwingerData :=
  [("1", { newSchwinger "1" "Giger Samuel" "***" 0 with
      punkteGaenge := some ⟨9.75, 9.75, "9.75"⟩ :: List.replicate 7 none, total := 9.75 }),
   ("2", { newSchwinger "2" "Orlik Armon" "*" 0 with
      punkteGaenge := some ⟨8.75, 8.75, "8.75"⟩ :: List.replicate 7 none, total := 8.75 })]

/-- The state after the bout of `sampleState` is saved. -/
def sampleSavedState : AppState :=
  { schwingerData := sampleSavedData, history := [sampleRoster],
    pairings := [⟨0, ⟨"", ""⟩, ⟨"", ""⟩, none⟩], lastAdded := ["1", "2"], undoMessage := "" }

/-! ### The rows of the standing as a pure function -/

/-- The result of `getDynamicRankDisplay` at a valid index. -/
def rankDisplayAt (list : List Schwinger) (i : Nat) : RankDisplay :=
  (getDynamicRankDisplay list i).getD ⟨0, ""⟩

/-- The value of `lastTotal` when the entry at position `g` of `list` is reached. -/
def prevTotal (list : List Schwinger) : Nat → Option ℚ
  | 0 => none
  | g + 1 => list[g]?.map Schwinger.total

/-- The value of `isLastOfRank` for the entry `s` at position `g` of `list`. -/
def isLastOfRank (list : List Schwinger) (g : Nat) (s : Schwinger) : Bool :=
  match list[g + 1]? with
  | none => true
  | some nextSchwinger => decide (nextSchwinger.total ≠ s.total)

/-- The dividers pushed by the three cutoff checks before a row. -/
def cutoffLines (v : RanglisteView) (lastTotal : Option ℚ) (total : ℚ) : List Row :=
  (if showAusstich v && crossesLine v.ausstichLinie lastTotal total then
      [Row.line .ausstich (cutoffText "Ausstichlinie" v.ausstichLinie)] else []) ++
  (if showKranzausstich v && crossesLine v.kranzausstichLinie lastTotal total then
      [Row.line .kranzausstich (cutoffText "Kranzausstichlinie" v.kranzausstichLinie)]
    else []) ++
  (if showKranz v && crossesLine v.kranzLinie lastTotal total then
      [Row.line .kranz (cutoffText "Kranzlinie" v.kranzLinie)] else [])

/-- The number of entries of rank 1. -/
def rank1CountOf (list : List Schwinger) : Nat :=
  ((List.range list.length).filter (fun i => decide ((rankDisplayAt list i).rank = 1))).length

/-- The dividers pushed by the final-bout check after a row. -/
def schlussgangLines (v : RanglisteView) (rank : Nat) (isLast : Bool) : List Row :=
  if showSchlussgang v && isLast then
    (if rank = 1 ∧ rank1CountOf (fullList v) ≥ 2 then
        [Row.line .schlussgang "--- Schlussgangkandidaten ---"] else []) ++
    (if rank = 2 ∧ rank1CountOf (fullList v) < 2 then
        [Row.line .schlussgang "--- Schlussgangkandidaten ---"] else [])
  else []

/-- The dividers pushed by the two qualification-count checks at position `personIndex`. -/
def countLines (v : RanglisteView) (personIndex : Nat) : List Row :=
  (if personIndex = minKranzRank v then
      [Row.line .minKranz (countText "Min. Kränze" (minKranzRank v))] else []) ++
  (if personIndex = maxKranzRank v then
      [Row.line .maxKranz (countText "Max. Kränze" (maxKranzRank v))] else [])

/-- The rows pushed for the entry `s` at position `g` of `fullList`. -/
def rowBlock (v : RanglisteView) (isAnwaerter : Bool) (g : Nat) (s : Schwinger) : List Row :=
  cutoffLines v (prevTotal (fullList v) g) s.total ++
  [Row.schwinger s (rankDisplayAt (fullList v) g).display] ++
  schlussgangLines v (rankDisplayAt (fullList v) g).rank (isLastOfRank (fullList v) g s) ++
  (if showKranz v && isLastOfRank (fullList v) g s && isAnwaerter then countLines v (g + 1)
    else [])

/-- The rows pushed by a walk over `list`, whose first entry is at position `g` of
`fullList`. -/
def walkRows (v : RanglisteView) (isAnwaerter : Bool) : List Schwinger → Nat → List Row
  | [], _ => []
  | s :: list, g => rowBlock v isAnwaerter g s ++ walkRows v isAnwaerter list (g + 1)

/-- The rank of the last candidate, `0` when there is none. -/
def lastCandidateRank (v : RanglisteView) : Nat :=
  if (kranzAnwaerter v).length > 0 then
    (rankDisplayAt (fullList v) ((kranzAnwaerter v).length - 1)).rank
  else 0

/-- The placeholder rows from number `i` on with their dividers, `remaining` to go. -/
def placeholderRowsFrom (v : RanglisteView) (lastRank : Nat) : Nat → Nat → List Row
  | 0, _ => []
  | remaining + 1, i =>
    Row.empty (Nat.repr (lastRank + i + 1) ++ "a") ::
      (countLines v ((kranzAnwaerter v).length + i + 1) ++
        placeholderRowsFrom v lastRank remaining (i + 1))

/-- The rows pushed between the two walks. -/
def placeholderRows (v : RanglisteView) : List Row :=
  if showKranz v then
    placeholderRowsFrom v (lastCandidateRank v) (maxKranzRank v - (kranzAnwaerter v).length) 0
  else []

/-- Whether a row is a divider of the given kind. -/
def isLineOf (kind : LineKind) : Row → Bool
  | .line k _ => decide (k = kind)
  | _ => false

/-- Whether `rows` contains a divider of the given kind. -/
def hasLine (kind : LineKind) (rows : List Row) : Bool :=
  rows.any (isLineOf kind)

/-- The number of dividers of the given kind in `rows`. -/
def lineCount (kind : LineKind) (rows : List Row) : Nat :=
  rows.countP (isLineOf kind)

/-- The competitor or placeholder a row shows: `none` for a divider. -/
def Row.entry : Row → Option (Schwinger ⊕ String)
  | .line _ _ => none
  | .schwinger s _ => some (.inl s)
  | .empty rank => some (.inr rank)

/-- The rows pushed before the final checks. -/
def bodyRows (v : RanglisteView) : List Row :=
  walkRows v true (kranzAnwaerter v) 0 ++ placeholderRows v ++
    walkRows v false (rest v) (kranzAnwaerter v).length

/-- The dividers pushed by the final checks, given the rows pushed so far. -/
def missingLines (v : RanglisteView) (body : List Row) : List Row :=
  (if showAusstich v && decide (v.ausstichLinie ≠ "0") && !hasLine .ausstich body then
      [Row.line .ausstich (cutoffText "Ausstichlinie" v.ausstichLinie)] else []) ++
  (if showKranzausstich v && decide (v.kranzausstichLinie ≠ "0")
        && !hasLine .kranzausstich body then
      [Row.line .kranzausstich (cutoffText "Kranzausstichlinie" v.kranzausstichLinie)]
    else []) ++
  (if showKranz v && decide (v.kranzLinie ≠ "0") && !hasLine .kranz body then
      [Row.line .kranz (cutoffText "Kranzlinie" v.kranzLinie)] else []) ++
  (if showKranz v && !hasLine .maxKranz body then
      [Row.line .maxKranz (countText "Max. Kränze" (maxKranzRank v))] else []) ++
  (if showKranz v && !hasLine .minKranz body then
      [Row.line .minKranz (countText "Min. Kränze" (minKranzRank v))] else [])

/-- The row sequence of the standing. -/
def tableRows (v : RanglisteView) : List Row :=
  bodyRows v ++ missingLines v (bodyRows v)

/-- The flags of `lineFlags` say which dividers `rows` contains. -/
def FlagsMatch (st : RenderState) : Prop :=
  st.lineFlags.ausstich = hasLine .ausstich st.rows ∧
  st.lineFlags.kranzausstich = hasLine .kranzausstich st.rows ∧
  st.lineFlags.kranz = hasLine .kranz st.rows ∧
  st.lineFlags.minKranz = hasLine .minKranz st.rows ∧
  st.lineFlags.maxKranz = hasLine .maxKranz st.rows

/-- The state `st'` is `st` with `rows` pushed: `lastTotal` is untouched and the flags still
say which dividers have been pushed. -/
def Pushes (st : RenderState) (rows : List Row) (st' : RenderState) : Prop :=
  st'.rows = st.rows ++ rows ∧ st'.lastTotal = st.lastTotal ∧ (FlagsMatch st → FlagsMatch st')

/-- A final-round view of a normal festival with 40 competitors, three of them with a result
in round 6. -/
def sampleKranzView : RanglisteView :=
  { festivalType := .normal, currentRound := 6, size := 40,
    competedSchwinger :=
      [sampleSchwinger "1" 58, sampleSchwinger "2" 57, sampleSchwinger "3" 55],
    ausstichLinie := "35.75", kranzausstichLinie := "54.25", kranzLinie := "56.50" }


/-- The position a qualification-count divider marks. -/
def countTarget (v : RanglisteView) : LineKind → Nat
  | .minKranz => minKranzRank v
  | .maxKranz => maxKranzRank v
  | _ => 0

/-- Whether a row is a placeholder (`EmptyRow`). -/
def isPlaceholder : Row → Bool
  | .empty _ => true
  | _ => false

/-- Whether the cutoff divider of the given kind is active in the view. -/
def cutoffShown (v : RanglisteView) : LineKind → Bool
  | .ausstich => showAusstich v
  | .kranzausstich => showKranzausstich v
  | .kranz => showKranz v
  | _ => false

/-- The selected value of the cutoff of the given kind. -/
def cutoffLinie (v : RanglisteView) : LineKind → String
  | .ausstich => v.ausstichLinie
  | .kranzausstich => v.kranzausstichLinie
  | .kranz => v.kranzLinie
  | _ => "0"

/-- The label in the caption of the cutoff divider of the given kind. -/
def cutoffLabel : LineKind → String
  | .ausstich => "Ausstichlinie"
  | .kranzausstich => "Kranzausstichlinie"
  | .kranz => "Kranzlinie"
  | _ => ""

/-- No divider of the kind in `rows`, and every competitor row has a total of at least `x`. -/
def AllAbove (kind : LineKind) (x : ℚ) (rows : List Row) : Prop :=
  hasLine kind rows = false ∧ ∀ s d, Row.schwinger s d ∈ rows → x ≤ s.total

/-- No divider of the kind in `rows`, and every competitor row has a total below `x`. -/
def AllBelow (kind : LineKind) (x : ℚ) (rows : List Row) : Prop :=
  hasLine kind rows = false ∧ ∀ s d, Row.schwinger s d ∈ rows → s.total < x

/-- The divider of the kind occurs exactly once in `rows`: every competitor row before it has
a total of at least `x`, every competitor row after it a total below `x`, and it is either
directly followed by a competitor row, or it is followed by nothing but qualification-count
dividers, and by nothing at all unless it is the Kranz divider. -/
def DividerPlaced (kind : LineKind) (x : ℚ) (rows : List Row) : Prop :=
  ∃ before text after, rows = before ++ Row.line kind text :: after ∧
    AllAbove kind x before ∧ AllBelow kind x after ∧
    ((∃ s d tail, after = Row.schwinger s d :: tail) ∨
      ((∀ row ∈ after, ∃ t, row = Row.line .minKranz t ∨ row = Row.line .maxKranz t) ∧
        (kind ≠ .kranz → after = [])))

/-- The divider of the kind occurs exactly once in `rows` and is directly followed by a
competitor row; totals are at least `x` before it and below `x` after it. -/
def PlacedBefore (kind : LineKind) (x : ℚ) (rows : List Row) : Prop :=
  ∃ before text s d tail, rows = before ++ Row.line kind text :: Row.schwinger s d :: tail ∧
    AllAbove kind x before ∧ AllBelow kind x (Row.schwinger s d :: tail)

/-- The value `lastTotal` is `Infinity` or at least `x`. -/
def LastAbove (x : ℚ) (lastTotal : Option ℚ) : Prop :=
  lastTotal = none ∨ ∃ last, lastTotal = some last ∧ x ≤ last

/-- The value `lastTotal` is a number below `x`. -/
def LastBelow (x : ℚ) (lastTotal : Option ℚ) : Prop :=
  ∃ last, lastTotal = some last ∧ last < x

/-- No row of `rows` is a divider of the kind or a competitor row. -/
def NeutralFor (kind : LineKind) (rows : List Row) : Prop :=
  ∀ row ∈ rows, isLineOf kind row = false ∧ ∀ s d, row ≠ Row.schwinger s d

/-- The setting of a cutoff claim: the cutoff of the kind is active in the view, its selected
value is not "0" and reads as the number `x`, and the competed list is sorted. -/
structure CutoffSetting (v : RanglisteView) (kind : LineKind) (x : ℚ) : Prop where
  shown : cutoffShown v kind = true
  selected : cutoffLinie v kind ≠ "0"
  value : parseFloat (cutoffLinie v kind) = some x
  sorted : SortedByTotal v.competedSchwinger

/-- A round-4 view of a normal festival: five competitors with a result, cutoff 35.75. -/
def sampleAusstichView : RanglisteView :=
  { festivalType := .normal, currentRound := 4, size := 5,
    competedSchwinger :=
      [sampleSchwinger "1" 38, sampleSchwinger "2" 36, sampleSchwinger "3" 35.75,
       sampleSchwinger "4" 35.50, sampleSchwinger "5" 30],
    ausstichLinie := "35.75", kranzausstichLinie := "54.25", kranzLinie := "56.50" }

/-- A final-round view of a normal festival with 20 competitors, four of them with a result
in round 6, all above the Kranz cutoff 56.50, the last three tied. -/
def sampleTiedKranzView : RanglisteView :=
  { festivalType := .normal, currentRound := 6, size := 20,
    competedSchwinger :=
      [sampleSchwinger "1" 58, sampleSchwinger "2" 57, sampleSchwinger "3" 57,
       sampleSchwinger "4" 57],
    ausstichLinie := "35.75", kranzausstichLinie := "54.25", kranzLinie := "56.50" }

/-- The placement with the divider after all rows when no total is below `x`: as
`DividerPlaced`, but a divider that is not directly followed by a competitor row is the last
row. -/
def DividerPlacedLast (kind : LineKind) (x : ℚ) (rows : List Row) : Prop :=
  ∃ before text after, rows = before ++ Row.line kind text :: after ∧
    AllAbove kind x before ∧ AllBelow kind x after ∧
    ((∃ s d tail, after = Row.schwinger s d :: tail) ∨ after = [])

/-- The session of `sampleState` with the unknown number "3" on the second side of the bout
slot. -/
def sampleUnknownState : AppState :=
  { sampleState with pairings := [⟨0, ⟨"1", "9.75"⟩, ⟨"3", "8.75"⟩, none⟩] }

/-- The session of `sampleState` with competitor "1" on both sides of the bout slot. -/
def sampleSelfState : AppState :=
  { sampleState with pairings := [⟨0, ⟨"1", "9.75"⟩, ⟨"1", "8.75"⟩, none⟩] }

/-- The state after the bout of `sampleSelfState` is saved: the slot of competitor "1" holds
the result of the second side. -/
def sampleSelfSavedState : AppState :=
  { schwingerData :=
      [("1", { newSchwinger "1" "Giger Samuel" "***" 0 with
          punkteGaenge := some ⟨8.75, 8.75, "8.75"⟩ :: List.replicate 7 none, total := 8.75 }),
       ("2", newSchwinger "2" "Orlik Armon" "*" 0)],
    history := [sampleRoster],
    pairings := [⟨0, ⟨"", ""⟩, ⟨"", ""⟩, none⟩], lastAdded := ["1", "1"], undoMessage := "" }

/-- A record after `writeSlot` differs from the record before only in the slot of the current
round and in the total. -/
def SameElsewhere (currentRound : Nat) (before after : Schwinger) : Prop :=
  after.nummer = before.nummer ∧ after.name = before.name ∧ after.sterne = before.sterne ∧
  after.punkteBasis = before.punkteBasis ∧
  ∀ i, i ≠ currentRound - 1 → i < before.punkteGaenge.length →
    after.punkteGaenge[i]? = before.punkteGaenge[i]?


/-- Following the claim's words: the total at position `j` of `list` is strictly below the
minimum of the totals at the positions before `j`. -/
def belowEarlierMinimum (list : List Schwinger) (j : Nat) : Bool :=
  match list[j]?, ((list.take j).map Schwinger.total).min? with
  | some s, some m => decide (s.total < m)
  | _, _ => false

/-- Following the claim's words: the forward-pass rank counter at index `i`, which is 1 plus
the number of positions `j` in `1..i` whose total is strictly below the minimum of the totals
before `j`. -/
def forwardRank (list : List Schwinger) (i : Nat) : Nat :=
  1 + ((List.range' 1 i).filter (belowEarlierMinimum list)).length

/-- No run of consecutive equal totals is longer than 26. -/
def RunsWithinAlphabet (list : List Schwinger) : Prop :=
  ∀ j, j < list.length → tieOffset list j < 26

/-- An unsorted list: the total rises again after the second entry. -/
def sampleUnsorted : List Schwinger :=
  [sampleSchwinger "1" 48.50, sampleSchwinger "2" 47, sampleSchwinger "3" 48.75,
   sampleSchwinger "4" 48.75, sampleSchwinger "5" 46]

/-- The largest tie group in which every suffix character that `parseInt` reads past is a
single code unit below the surrogate range: the suffix of member `k` (0-based) has the code
`97 + k`. -/
def maxTieGroup : Nat := 55200

/-- No group of equal totals has more than `maxTieGroup` members. -/
def TieGroupsBounded (list : List Schwinger) : Prop :=
  ∀ x : ℚ, list.countP (fun s => decide (s.total = x)) ≤ maxTieGroup

/-- The number of entries of dense rank 1, the members of the rank-1 group. -/
def rank1GroupSize (list : List Schwinger) : Nat :=
  ((List.range list.length).filter (fun i => decide (distinctTotals list i = 1))).length

/-- Following the claim's words: the entry at index `i` is a final-bout candidate when it is in
the rank-1 group and that group has at least 2 members, and otherwise when it is in the rank-1
or the rank-2 group. -/
def IsSchlussgangCandidate (list : List Schwinger) (i : Nat) : Prop :=
  if 2 ≤ rank1GroupSize list then distinctTotals list i = 1
  else distinctTotals list i = 1 ∨ distinctTotals list i = 2

/-- A round-5 view of a normal festival: one leader, two competitors tied behind, one more. -/
def sampleSchlussgangView : RanglisteView :=
  { festivalType := .normal, currentRound := 5, size := 4,
    competedSchwinger :=
      [sampleSchwinger "1" 48.75, sampleSchwinger "2" 48.50, sampleSchwinger "3" 48.50,
       sampleSchwinger "4" 47],
    ausstichLinie := "35.75", kranzausstichLinie := "54.25", kranzLinie := "56.50" }

/-- The rank after whose last member the final-bout divider belongs: 1 when the rank-1 group
has at least 2 members, otherwise 2. -/
def schlussgangRank (list : List Schwinger) : Nat :=
  if 2 ≤ rank1GroupSize list then 1 else 2

/-- The row number `countTarget v kind` of the sequence of candidate rows followed by
placeholder rows is a placeholder, or it is a candidate whose successor in the list has
another total or does not exist (the last of its tie group in a sorted list). -/
def SitsAtPosition (v : RanglisteView) (kind : LineKind) : Prop :=
  (kranzAnwaerter v).length < countTarget v kind ∨
  ∃ s, (kranzAnwaerter v)[countTarget v kind - 1]? = some s ∧
    isLastOfRank (fullList v) (countTarget v kind - 1) s = true

/-- Following the claim's words: the divider of the kind directly follows row number
`countTarget v kind` of the sequence of candidate rows followed by placeholder rows. Exactly
that many candidate or placeholder rows precede it, no competitor row before it is a
non-candidate, and the row right before it is a candidate or placeholder row, or, for the
"Max. Kränze" divider, the "Min. Kränze" divider that directly follows such a row. -/
def CountDividerPlaced (v : RanglisteView) (kind : LineKind) (rows : List Row) : Prop :=
  ∃ before text after, rows = before ++ Row.line kind text :: after ∧
    hasLine kind before = false ∧
    (before.filterMap Row.entry).length = countTarget v kind ∧
    (∀ s d, Row.schwinger s d ∈ before → kranzScoreThreshold v < s.total) ∧
    ((∃ front row, before = front ++ [row] ∧ (Row.entry row).isSome = true) ∨
      (∃ front row t, kind = .maxKranz ∧ before = front ++ [row, Row.line .minKranz t] ∧
        (Row.entry row).isSome = true))

/-- The divider of the kind comes after all competitor and placeholder rows. -/
def CountDividerAtEnd (kind : LineKind) (rows : List Row) : Prop :=
  ∃ before text after, rows = before ++ Row.line kind text :: after ∧
    hasLine kind before = false ∧ after.filterMap Row.entry = []

/-- The divider `first` comes before the divider `second`. -/
def DividerBefore (first second : LineKind) (rows : List Row) : Prop :=
  ∃ a t1 b t2 c, rows = a ++ Row.line first t1 :: (b ++ Row.line second t2 :: c)

/-- The state after the result of competitor "1" in `sampleSavedState` has been edited to the
blank note: the slot holds the empty result with the display text "-". -/
def sampleBlankEditState : AppState :=
  { sampleSavedState with
    schwingerData :=
      [("1", { newSchwinger "1" "Giger Samuel" "***" 0 with
          punkteGaenge := some ⟨0, 0, "-"⟩ :: List.replicate 7 none, total := 0 }),
       ("2", { newSchwinger "2" "Orlik Armon" "*" 0 with
          punkteGaenge := some ⟨8.75, 8.75, "8.75"⟩ :: List.replicate 7 none,
          total := 8.75 })] }


/-! ## Decimal rendering and `parseInt` -/

theorem digitChar_spec : ∀ d, d < 10 →
    isDigit (Nat.digitChar d) = true ∧ (Nat.digitChar d).toNat - 48 = d := by
  decide

theorem toDigitsCore_spec (fuel : Nat) : ∀ (n : Nat) (ds : List Char), n < fuel →
    ∃ pre : List Char, Nat.toDigitsCore 10 fuel n ds = pre ++ ds ∧ pre ≠ [] ∧
      (∀ c ∈ pre, isDigit c = true) ∧ ∀ acc, digitsValue acc pre = acc * 10 ^ pre.length + n := by
  induction fuel with
  | zero => intro n ds h; omega
  | succ fuel ih =>
    intro n ds h
    have hd := digitChar_spec (n % 10) (Nat.mod_lt _ (by decide))
    unfold Nat.toDigitsCore
    by_cases h0 : n / 10 = 0
    · simp only [h0, if_true]
      refine ⟨[Nat.digitChar (n % 10)], rfl, by simp, ?_, ?_⟩
      · intro c hc; simp at hc; subst hc; exact hd.1
      · intro acc
        simp only [digitsValue, List.foldl_cons, List.foldl_nil, List.length_singleton, hd.2]
        have : n % 10 = n := by omega
        omega
    · simp only [h0, if_false]
      obtain ⟨pre, hpre, hne, hdig, hval⟩ := ih (n / 10) (Nat.digitChar (n % 10) :: ds) (by omega)
      refine ⟨pre ++ [Nat.digitChar (n % 10)], by simp [hpre], by simp, ?_, ?_⟩
      · intro c hc
        rcases List.mem_append.1 hc with hc | hc
        · exact hdig c hc
        · simp at hc; subst hc; exact hd.1
      · intro acc
        have := hval acc
        simp only [digitsValue] at this ⊢
        simp only [List.foldl_append, this, List.foldl_cons, List.foldl_nil, hd.2,
          List.length_append, List.length_singleton, pow_succ]
        have := Nat.div_add_mod n 10
        ring_nf
        ring_nf at this
        omega

theorem repr_spec (n : Nat) : ∃ pre : List Char, (Nat.repr n).data = pre ∧ pre ≠ [] ∧
    (∀ c ∈ pre, isDigit c = true) ∧ digitsValue 0 pre = n := by
  obtain ⟨pre, hpre, hne, hdig, hval⟩ := toDigitsCore_spec (n + 1) n [] (by omega)
  refine ⟨pre, ?_, hne, hdig, by simpa using hval 0⟩
  simp [Nat.repr, Nat.toDigits, hpre, List.asString]

theorem takeWhile_digits_append (pre : List Char) (c : Char) (rest : List Char)
    (hpre : ∀ d ∈ pre, isDigit d = true) (hc : isDigit c = false) :
    (pre ++ c :: rest).takeWhile isDigit = pre := by
  induction pre with
  | nil => simp [List.takeWhile, hc]
  | cons a pre ih =>
    have ha := hpre a (by simp)
    simp only [List.cons_append, List.takeWhile_cons, ha, if_true]
    rw [ih (fun d hd => hpre d (by simp [hd]))]

theorem parseInt_label (n : Nat) (c : Char) (hc : isDigit c = false) :
    parseInt (Nat.repr n ++ String.singleton c) = n := by
  obtain ⟨pre, hpre, _, hdig, hval⟩ := repr_spec n
  have : (Nat.repr n ++ String.singleton c).data = pre ++ [c] := by
    simp [String.data_append, hpre, String.singleton]
  unfold parseInt
  rw [this, takeWhile_digits_append pre c [] hdig hc]
  exact hval

theorem nextSuffixChar_label (n : Nat) (c : Char) :
    nextSuffixChar (Nat.repr n ++ String.singleton c) = fromCharCode (c.toNat + 1) := by
  have : (Nat.repr n ++ String.singleton c).data = (Nat.repr n).data ++ [c] := by
    simp [String.data_append, String.singleton]
  simp [nextSuffixChar, this]
/-! ## Rank labels on arbitrary lists -/

theorem suffixChar_spec : ∀ k, k < 26 →
    alphabet.data[k]? = some (Char.ofNat (97 + k)) ∧
    isDigit (Char.ofNat (97 + k)) = false ∧
    fromCharCode ((Char.ofNat (97 + k)).toNat + 1) = Char.ofNat (97 + (k + 1)) := by
  decide

/-- On any list, as long as every run of equal totals up to `i` stays within 26 members,
the label at a valid index `i` is the decimal rank followed by the letter number
`tieOffset list i`. -/
theorem getDynamicRankDisplay_eq (list : List Schwinger) : ∀ i, i < list.length →
    (∀ j, j ≤ i → tieOffset list j < 26) →
    getDynamicRankDisplay list i = some ⟨rankOf list i,
      Nat.repr (rankOf list i) ++ String.singleton (Char.ofNat (97 + tieOffset list i))⟩ := by
  intro i
  induction i with
  | zero =>
    intro _ _
    simp only [getDynamicRankDisplay, rankOf, tieOffset]
    decide
  | succ i ih =>
    intro hi hrun
    have h0 : 0 < list.length := by omega
    have h1 : i < list.length := by omega
    have ih := ih h1 (fun j hj => hrun j (by omega))
    have hk := hrun (i + 1) le_rfl
    unfold getDynamicRankDisplay rankOf
    unfold tieOffset at hk ⊢
    simp only [List.getElem?_eq_getElem h0, List.getElem?_eq_getElem h1,
      List.getElem?_eq_getElem hi] at hk ⊢
    by_cases heq : list[i + 1].total = list[i].total
    · simp only [heq, if_true] at hk ⊢
      have hs := suffixChar_spec (tieOffset list i) (by omega)
      simp only [ih, parseInt_label _ _ hs.2.1, nextSuffixChar_label, hs.2.2]
    · simp only [heq, if_false]
      rfl

/-! ## Rank labels on sorted lists -/

theorem rankCounterLoop_succ (list : List Schwinger) (first : Schwinger) (i : Nat)
    (hi : i + 1 < list.length) :
    rankCounterLoop list first (i + 1) =
      rankCounterStep (rankCounterLoop list first i) list[i + 1] := by
  unfold rankCounterLoop
  rw [List.take_succ (n := i + 1), List.getElem?_eq_getElem hi, Option.toList_some,
    List.drop_append_of_le_length (by simp; omega), List.foldl_append]
  rfl

theorem SortedByTotal.le_of_le {list : List Schwinger} (h : SortedByTotal list) {i j : Nat}
    (hij : i ≤ j) (hi : i < list.length) (hj : j < list.length) :
    list[j].total ≤ list[i].total := by
  rcases Nat.eq_or_lt_of_le hij with rfl | hlt
  · exact le_rfl
  · exact (List.pairwise_iff_getElem.1 h) i j hi hj hlt

theorem distinctTotals_succ (list : List Schwinger) (h : SortedByTotal list) (i : Nat)
    (hi : i + 1 < list.length) :
    distinctTotals list (i + 1) =
      if list[i + 1].total = list[i].total then distinctTotals list i
      else distinctTotals list i + 1 := by
  unfold distinctTotals
  rw [← List.card_toFinset, ← List.card_toFinset, List.take_succ (n := i + 1),
    List.getElem?_eq_getElem hi, Option.toList_some, List.map_append, List.toFinset_append]
  simp only [List.map_cons, List.map_nil, List.toFinset_cons, List.toFinset_nil,
    insert_emptyc_eq]
  by_cases heq : list[i + 1].total = list[i].total
  · simp only [heq, if_true]
    congr 1
    apply Finset.union_eq_left.2
    intro x hx
    simp only [Finset.mem_singleton] at hx
    subst hx
    simp only [List.mem_toFinset, List.mem_map]
    exact ⟨list[i], List.mem_take_iff_getElem.2 ⟨i, by simp; omega, by simp⟩, rfl⟩
  · simp only [heq, if_false]
    rw [Finset.union_comm, ← Finset.insert_eq, Finset.card_insert_of_not_mem]
    simp only [List.mem_toFinset, List.mem_map, not_exists, not_and]
    intro s hs hst
    obtain ⟨j, hj, rfl⟩ := List.mem_take_iff_getElem.1 hs
    simp at hj
    have h1 := h.le_of_le (i := j) (j := i) (by omega) (by omega) (by omega)
    have h2 := h.le_of_le (i := i) (j := i + 1) (by omega) (by omega) hi
    have : list[j].total = list[i].total := le_antisymm (by rw [hst]; exact h2) h1
    exact heq (hst ▸ this)


theorem distinctTotals_zero (list : List Schwinger) (h0 : 0 < list.length) :
    distinctTotals list 0 = 1 := by
  cases list with
  | nil => simp at h0
  | cons a l => simp [distinctTotals]

theorem rankCounterLoop_sorted (list : List Schwinger) (h : SortedByTotal list)
    (first : Schwinger) (hfirst : list[0]? = some first) :
    ∀ i (hi : i < list.length),
      rankCounterLoop list first i = (distinctTotals list i, list[i].total) := by
  intro i
  induction i with
  | zero =>
    intro hi
    rw [List.getElem?_eq_getElem hi] at hfirst
    rw [distinctTotals_zero list hi]
    cases list with
    | nil => simp at hi
    | cons a l =>
      simp at hfirst
      simp [rankCounterLoop, hfirst]
  | succ i ih =>
    intro hi
    rw [rankCounterLoop_succ list first i hi, ih (by omega), distinctTotals_succ list h i hi]
    have hle := h.le_of_le (i := i) (j := i + 1) (by omega) (by omega) hi
    unfold rankCounterStep
    by_cases heq : list[i + 1].total = list[i].total
    · simp [heq]
    · have hlt : list[i + 1].total < list[i].total := lt_of_le_of_ne hle heq
      simp [heq, hlt]

theorem rankOf_sorted (list : List Schwinger) (h : SortedByTotal list) :
    ∀ i, i < list.length → rankOf list i = distinctTotals list i := by
  intro i
  induction i with
  | zero => intro hi; rw [distinctTotals_zero list hi]; rfl
  | succ i ih =>
    intro hi
    have h0 : 0 < list.length := by omega
    have h1 : i < list.length := by omega
    unfold rankOf
    simp only [List.getElem?_eq_getElem h0, List.getElem?_eq_getElem h1,
      List.getElem?_eq_getElem hi]
    rw [rankCounterLoop_sorted list h list[0] (List.getElem?_eq_getElem h0) (i + 1) hi,
      distinctTotals_succ list h i hi, ih h1]
    by_cases heq : list[i + 1].total = list[i].total
    · simp [heq]
    · simp [heq, distinctTotals_succ list h i hi]

theorem tieOffset_sorted (list : List Schwinger) (h : SortedByTotal list) :
    ∀ i (hi : i < list.length),
      groupStart list list[i].total ≤ i ∧
      tieOffset list i = i - groupStart list list[i].total := by
  intro i
  induction i with
  | zero =>
    intro hi
    have : groupStart list list[0].total = 0 := by
      unfold groupStart
      rw [List.findIdx_eq hi]
      simp
    simp [this, tieOffset]
  | succ i ih =>
    intro hi
    have h1 : i < list.length := by omega
    obtain ⟨ihle, ihoff⟩ := ih h1
    unfold tieOffset
    simp only [List.getElem?_eq_getElem h1, List.getElem?_eq_getElem hi]
    by_cases heq : list[i + 1].total = list[i].total
    · simp only [heq, if_true, ihoff]
      omega
    · simp only [heq, if_false]
      have hle := h.le_of_le (i := i) (j := i + 1) (by omega) (by omega) hi
      have hlt : list[i + 1].total < list[i].total := lt_of_le_of_ne hle heq
      have : groupStart list list[i + 1].total = i + 1 := by
        unfold groupStart
        rw [List.findIdx_eq hi]
        refine ⟨by simp, ?_⟩
        intro j hj
        have hj1 := h.le_of_le (i := j) (j := i) (by omega) (by omega) h1
        simp only [decide_eq_false_iff_not]
        intro hc
        rw [hc] at hj1
        exact absurd hlt (not_lt.2 hj1)
      omega
theorem tieOffset_lt_of_groups (list : List Schwinger) (h : SortedByTotal list)
    (hg : TieGroupsWithinAlphabet list) (i : Nat) (hi : i < list.length) :
    tieOffset list i < 26 := by
  obtain ⟨hle, hoff⟩ := tieOffset_sorted list h i hi
  have hglt : groupStart list list[i].total < list.length := by omega
  have hgp : list[groupStart list list[i].total].total = list[i].total := by
    have := @List.findIdx_getElem Schwinger
      (fun s : Schwinger => decide (s.total = list[i].total)) list hglt
    simpa using this
  have hall : ∀ s ∈ (list.take (i + 1)).drop (groupStart list list[i].total),
      (fun s => decide (s.total = list[i].total)) s = true := by
    intro s hs
    obtain ⟨j, hj, rfl⟩ := List.mem_iff_getElem.1 hs
    simp only [List.length_drop, List.length_take] at hj
    simp only [List.getElem_drop, List.getElem_take, decide_eq_true_eq]
    have h1 := h.le_of_le (i := groupStart list list[i].total)
      (j := groupStart list list[i].total + j) (by omega) hglt (by omega)
    have h2 := h.le_of_le (i := groupStart list list[i].total + j) (j := i) (by omega)
      (by omega) hi
    rw [hgp] at h1
    exact le_antisymm h1 h2
  have hcount := List.countP_eq_length.2 hall
  have hsub : ((list.take (i + 1)).drop (groupStart list list[i].total)).Sublist list :=
    (List.drop_sublist _ _).trans (List.take_sublist _ _)
  have := hsub.countP_le (fun s => decide (s.total = list[i].total))
  have hb := hg list[i].total
  rw [hcount] at this
  simp only [List.length_drop, List.length_take] at this
  omega
/-! ## C2, C3: dense ranks and rank labels -/

theorem sampleStanding_sorted : SortedByTotal sampleStanding := by
  unfold SortedByTotal sampleStanding sampleSchwinger
  simp only [List.pairwise_cons, List.mem_cons, List.mem_singleton, List.not_mem_nil,
    forall_eq_or_imp, forall_eq, List.Pairwise.nil, and_true]
  norm_num

theorem sampleStanding_groups : TieGroupsWithinAlphabet sampleStanding :=
  fun _ => le_trans (List.countP_le_length _) (by decide)

/-- C2. Dense ranking: on a non-empty list sorted by total in non-increasing order whose tie
groups have at most 26 members, the rank returned at a valid index `i` is the number of
distinct totals among `list[0..i]`; equivalently the rank at index 0 is 1, the rank repeats
on a tie with the previous entry and grows by one on a strictly lower total. -/
theorem C2_dense_rank (list : List Schwinger) (i : Nat) (hsorted : SortedByTotal list)
    (hgroups : TieGroupsWithinAlphabet list) (hi : i < list.length) :
    (getDynamicRankDisplay list i).map RankDisplay.rank = some (distinctTotals list i) ∧
    (getDynamicRankDisplay list 0).map RankDisplay.rank = some 1 ∧
    ∀ j (hj : j + 1 < list.length),
      (list[j + 1].total = list[j].total →
        (getDynamicRankDisplay list (j + 1)).map RankDisplay.rank =
          (getDynamicRankDisplay list j).map RankDisplay.rank) ∧
      (list[j + 1].total < list[j].total →
        (getDynamicRankDisplay list (j + 1)).map RankDisplay.rank =
          (getDynamicRankDisplay list j).map (fun rd => rd.rank + 1)) := by
  have key : ∀ k, k < list.length →
      (getDynamicRankDisplay list k).map RankDisplay.rank = some (distinctTotals list k) := by
    intro k hk
    rw [getDynamicRankDisplay_eq list k hk
      (fun j hj => tieOffset_lt_of_groups list hsorted hgroups j (by omega)),
      rankOf_sorted list hsorted k hk]
    rfl
  refine ⟨key i hi, rfl, ?_⟩
  intro j hj
  rw [key (j + 1) hj, Option.map_congr (f := fun rd => rd.rank + 1)
    (g := (· + 1) ∘ RankDisplay.rank) (fun _ _ => rfl), ← Option.map_map, key j (by omega),
    distinctTotals_succ list hsorted j hj]
  constructor
  · intro heq; simp [heq]
  · intro hlt; simp [ne_of_lt hlt]

/-- C2 at the sample standing, index 3: the fourth entry has rank 3. -/
theorem C2_dense_rank_witness :
    SortedByTotal sampleStanding ∧ TieGroupsWithinAlphabet sampleStanding ∧
    3 < sampleStanding.length ∧
    (getDynamicRankDisplay sampleStanding 3).map RankDisplay.rank = some 3 :=
  ⟨sampleStanding_sorted, sampleStanding_groups, by decide,
    (C2_dense_rank sampleStanding 3 sampleStanding_sorted sampleStanding_groups
      (by decide)).1.trans (by decide!)⟩

/-- C3. Rank labels: on a non-empty list sorted by total in non-increasing order whose tie
groups have at most 26 members, the label at a valid index `i` is the decimal rank followed
by exactly one letter, the `k`-th letter of a..z (0-based) for `k = i` minus the index of the
first member of the tie group of `i`; index 0 yields rank 1 and label "1a". -/
theorem C3_rank_label (list : List Schwinger) (i : Nat) (hsorted : SortedByTotal list)
    (hgroups : TieGroupsWithinAlphabet list) (hi : i < list.length) :
    (∃ rd c, getDynamicRankDisplay list i = some rd ∧
      alphabet.data[i - groupStart list list[i].total]? = some c ∧
      rd.display = Nat.repr rd.rank ++ String.singleton c) ∧
    getDynamicRankDisplay list 0 = some ⟨1, "1a"⟩ := by
  refine ⟨?_, rfl⟩
  have hk := tieOffset_lt_of_groups list hsorted hgroups i hi
  refine ⟨_, _, getDynamicRankDisplay_eq list i hi
    (fun j hj => tieOffset_lt_of_groups list hsorted hgroups j (by omega)), ?_, rfl⟩
  rw [← (tieOffset_sorted list hsorted i hi).2]
  exact (suffixChar_spec _ hk).1

/-- C3 at the sample standing, index 4, the second member of the third group. -/
theorem C3_rank_label_witness :
    SortedByTotal sampleStanding ∧ TieGroupsWithinAlphabet sampleStanding ∧
    4 < sampleStanding.length ∧
    ((∃ rd c, getDynamicRankDisplay sampleStanding 4 = some rd ∧
      alphabet.data[4 - groupStart sampleStanding
        (sampleStanding.get ⟨4, by decide⟩).total]? = some c ∧
      rd.display = Nat.repr rd.rank ++ String.singleton c) ∧
    getDynamicRankDisplay sampleStanding 0 = some ⟨1, "1a"⟩) :=
  ⟨sampleStanding_sorted, sampleStanding_groups, by decide,
    C3_rank_label sampleStanding 4 sampleStanding_sorted sampleStanding_groups (by decide)⟩
/-! ## C4, C5: prospective calculator -/

theorem POSSIBLE_RESULTS_sorted :
    POSSIBLE_RESULTS.Pairwise (fun a b => a.score ≤ b.score) := by
  unfold POSSIBLE_RESULTS
  simp only [List.pairwise_cons, List.mem_cons, List.mem_singleton, List.not_mem_nil,
    forall_eq_or_imp, forall_eq, List.Pairwise.nil, and_true]
  norm_num

theorem POSSIBLE_RESULTS_bounds : ∀ r ∈ POSSIBLE_RESULTS, 8.5 ≤ r.score ∧ r.score ≤ 10 := by
  unfold POSSIBLE_RESULTS
  simp only [List.mem_cons, List.mem_singleton, List.not_mem_nil, forall_eq_or_imp, forall_eq]
  norm_num

/-- In a list sorted by score, the first entry with a property is a lowest-scoring one. -/
theorem find?_lowest (p : PossibleResult → Bool) :
    ∀ (l : List PossibleResult), l.Pairwise (fun a b => a.score ≤ b.score) →
    ∀ r, l.find? p = some r →
      r ∈ l ∧ p r = true ∧ ∀ q ∈ l, p q = true → r.score ≤ q.score := by
  intro l
  induction l with
  | nil => intro _ r h; simp at h
  | cons a l ih =>
    intro hs r h
    rw [List.pairwise_cons] at hs
    rw [List.find?_cons] at h
    cases hpa : p a with
    | true =>
      rw [hpa] at h
      simp only [Option.some.injEq] at h
      subst h
      refine ⟨by simp, hpa, ?_⟩
      intro q hq _
      rcases List.mem_cons.1 hq with rfl | hq
      · exact le_rfl
      · exact hs.1 q hq
    | false =>
      rw [hpa] at h
      obtain ⟨hm, hp, hlow⟩ := ih hs.2 r h
      refine ⟨List.mem_cons_of_mem _ hm, hp, ?_⟩
      intro q hq hpq
      rcases List.mem_cons.1 hq with rfl | hq
      · rw [hpa] at hpq; cases hpq
      · exact hlow q hq hpq

/-- In a list sorted by score, the first entry on which `f` succeeds is a lowest-scoring
one. -/
theorem findSome?_lowest {β : Type} (f : PossibleResult → Option β) :
    ∀ (l : List PossibleResult), l.Pairwise (fun a b => a.score ≤ b.score) →
    ∀ b, l.findSome? f = some b →
      ∃ a ∈ l, f a = some b ∧ ∀ q ∈ l, (f q).isSome = true → a.score ≤ q.score := by
  intro l
  induction l with
  | nil => intro _ b h; simp at h
  | cons a l ih =>
    intro hs b h
    rw [List.pairwise_cons] at hs
    rw [List.findSome?_cons] at h
    cases hfa : f a with
    | some c =>
      rw [hfa] at h
      simp only [Option.some.injEq] at h
      subst h
      refine ⟨a, by simp, hfa, ?_⟩
      intro q hq _
      rcases List.mem_cons.1 hq with rfl | hq
      · exact le_rfl
      · exact hs.1 q hq
    | none =>
      rw [hfa] at h
      obtain ⟨a', hm, hfa', hlow⟩ := ih hs.2 b h
      refine ⟨a', List.mem_cons_of_mem _ hm, hfa', ?_⟩
      intro q hq hfq
      rcases List.mem_cons.1 hq with rfl | hq
      · rw [hfa] at hfq; cases hfq
      · exact hlow q hq hfq

theorem getNeededResultForOneRound_eq_none (currentScore targetScore : ℚ) :
    getNeededResultForOneRound currentScore targetScore = none ↔
      targetScore - currentScore > 10 := by
  unfold getNeededResultForOneRound
  simp only [List.find?_eq_none, decide_eq_true_eq, ge_iff_le, not_le, gt_iff_lt]
  constructor
  · intro h
    have := h ⟨10.00, "Sieg"⟩ (by simp [POSSIBLE_RESULTS])
    norm_num at this
    exact this
  · intro h r hr
    exact lt_of_le_of_lt (POSSIBLE_RESULTS_bounds r hr).2 h

/-- C4. One-round calculator: with `needed = target - currentScore`, the result is
"unreachable" exactly when `needed > 10.00`; otherwise it is the lowest-scoring entry of
`POSSIBLE_RESULTS` whose score is at least `needed`, and it is the 8.50 loss outcome whenever
`needed ≤ 0`. -/
theorem C4_one_round (currentScore targetScore : ℚ) :
    (getNeededResultForOneRound currentScore targetScore = none ↔
      targetScore - currentScore > 10) ∧
    (targetScore - currentScore ≤ 10 →
      ∃ r, getNeededResultForOneRound currentScore targetScore = some r ∧
        r ∈ POSSIBLE_RESULTS ∧ targetScore - currentScore ≤ r.score ∧
        ∀ q ∈ POSSIBLE_RESULTS, targetScore - currentScore ≤ q.score → r.score ≤ q.score) ∧
    (targetScore - currentScore ≤ 0 →
      getNeededResultForOneRound currentScore targetScore = some ⟨8.50, "Niederlage"⟩) := by
  refine ⟨getNeededResultForOneRound_eq_none _ _, ?_, ?_⟩
  · intro h
    cases hres : getNeededResultForOneRound currentScore targetScore with
    | none =>
      have := (getNeededResultForOneRound_eq_none _ _).1 hres
      exact absurd h (not_le.2 this)
    | some r =>
      obtain ⟨hm, hp, hlow⟩ := find?_lowest
        (fun result => decide (result.score ≥ targetScore - currentScore))
        POSSIBLE_RESULTS POSSIBLE_RESULTS_sorted r hres
      simp only [decide_eq_true_eq, ge_iff_le] at hp hlow
      exact ⟨r, rfl, hm, hp, hlow⟩
  · intro h
    unfold getNeededResultForOneRound POSSIBLE_RESULTS
    rw [List.find?_cons]
    have : decide ((8.50 : ℚ) ≥ targetScore - currentScore) = true := by
      simp only [decide_eq_true_eq, ge_iff_le]
      linarith
    simp only [this]
theorem findSome?_find?_eq_find?_pairs {α : Type} (p : α → α → Bool) (l2 : List α) :
    ∀ l1 : List α,
      l1.findSome? (fun a => (l2.find? (fun b => p a b)).map (fun b => (a, b))) =
        (l1.flatMap (fun a => l2.map (fun b => (a, b)))).find? (fun q => p q.1 q.2) := by
  intro l1
  induction l1 with
  | nil => rfl
  | cons a l ih =>
    rw [List.findSome?_cons, List.flatMap_cons, List.find?_append, List.find?_map, ← ih]
    cases h : List.find? (fun b => p a b) l2 with
    | none =>
      have : List.find? ((fun q : α × α => p q.1 q.2) ∘ fun b => (a, b)) l2 = none := h
      simp [this]
    | some b =>
      have : List.find? ((fun q : α × α => p q.1 q.2) ∘ fun b => (a, b)) l2 = some b := h
      simp [this]

theorem getNeededResultForTwoRounds_eq_none (currentScore targetScore : ℚ) :
    getNeededResultForTwoRounds currentScore targetScore = none ↔
      targetScore - currentScore > 20 := by
  unfold getNeededResultForTwoRounds
  simp only [List.findSome?_eq_none_iff, Option.map_eq_none', List.find?_eq_none,
    decide_eq_true_eq, ge_iff_le, not_le, gt_iff_lt]
  constructor
  · intro h
    have := h ⟨10.00, "Sieg"⟩ (by simp [POSSIBLE_RESULTS]) ⟨10.00, "Sieg"⟩
      (by simp [POSSIBLE_RESULTS])
    norm_num at this
    exact this
  · intro h r1 hr1 r2 hr2
    have h1 := (POSSIBLE_RESULTS_bounds r1 hr1).2
    have h2 := (POSSIBLE_RESULTS_bounds r2 hr2).2
    linarith

/-- C5. Two-round calculator: with `needed = target - currentScore`, the result is
"unreachable" exactly when `needed > 20.00`; otherwise it is the first pair, in the
enumeration first outcome outer and second outcome inner, whose scores add up to at least
`needed`: the first outcome is the lowest one for which some second outcome reaches `needed`,
the second is the lowest one reaching `needed` together with it. For `needed ≤ 0` the pair is
(8.50 loss, 8.50 loss). -/
theorem C5_two_rounds (currentScore targetScore : ℚ) :
    (getNeededResultForTwoRounds currentScore targetScore = none ↔
      targetScore - currentScore > 20) ∧
    (targetScore - currentScore ≤ 20 →
      ∃ r1 r2, getNeededResultForTwoRounds currentScore targetScore = some (r1, r2) ∧
        r1 ∈ POSSIBLE_RESULTS ∧ r2 ∈ POSSIBLE_RESULTS ∧
        targetScore - currentScore ≤ r1.score + r2.score ∧
        (∀ q1 ∈ POSSIBLE_RESULTS,
          (∃ q2 ∈ POSSIBLE_RESULTS, targetScore - currentScore ≤ q1.score + q2.score) →
            r1.score ≤ q1.score) ∧
        (∀ q2 ∈ POSSIBLE_RESULTS, targetScore - currentScore ≤ r1.score + q2.score →
          r2.score ≤ q2.score)) ∧
    getNeededResultForTwoRounds currentScore targetScore =
      resultPairs.find? (fun p => decide (p.1.score + p.2.score ≥ targetScore - currentScore)) ∧
    (targetScore - currentScore ≤ 0 →
      getNeededResultForTwoRounds currentScore targetScore =
        some (⟨8.50, "Niederlage"⟩, ⟨8.50, "Niederlage"⟩)) := by
  refine ⟨getNeededResultForTwoRounds_eq_none _ _, ?_, ?_, ?_⟩
  · intro h
    cases hres : getNeededResultForTwoRounds currentScore targetScore with
    | none =>
      have := (getNeededResultForTwoRounds_eq_none _ _).1 hres
      exact absurd h (not_le.2 this)
    | some pr =>
      simp only [getNeededResultForTwoRounds] at hres
      have houter := findSome?_lowest
        (fun r1 => (POSSIBLE_RESULTS.find? (fun r2 =>
          decide (r1.score + r2.score ≥ targetScore - currentScore))).map (fun r2 => (r1, r2)))
        POSSIBLE_RESULTS POSSIBLE_RESULTS_sorted pr
      obtain ⟨r1, hm1, hf, hlow1⟩ := houter hres
      simp only [Option.map_eq_some'] at hf
      obtain ⟨r2, hfind, rfl⟩ := hf
      have hinner := find?_lowest
        (fun r2 => decide (r1.score + r2.score ≥ targetScore - currentScore))
        POSSIBLE_RESULTS POSSIBLE_RESULTS_sorted r2
      obtain ⟨hm2, hp2, hlow2⟩ := hinner hfind
      simp only [decide_eq_true_eq, ge_iff_le] at hp2 hlow2
      refine ⟨r1, r2, rfl, hm1, hm2, hp2, ?_, hlow2⟩
      intro q1 hq1 ⟨q2, hq2, hq⟩
      apply hlow1 q1 hq1
      cases hq1f : POSSIBLE_RESULTS.find? (fun r2 =>
          decide (q1.score + r2.score ≥ targetScore - currentScore)) with
      | some _ => simp
      | none =>
        rw [List.find?_eq_none] at hq1f
        have := hq1f q2 hq2
        simp only [decide_eq_true_eq, ge_iff_le] at this
        exact absurd hq this
  · have hpairs := findSome?_find?_eq_find?_pairs
      (fun a b : PossibleResult => decide (a.score + b.score ≥ targetScore - currentScore))
      POSSIBLE_RESULTS POSSIBLE_RESULTS
    simp only [getNeededResultForTwoRounds, resultPairs]
    beta_reduce at hpairs
    exact hpairs
  · intro h
    unfold getNeededResultForTwoRounds POSSIBLE_RESULTS
    rw [List.findSome?_cons, List.find?_cons]
    have : decide ((8.50 : ℚ) + 8.50 ≥ targetScore - currentScore) = true := by
      simp only [decide_eq_true_eq, ge_iff_le]
      linarith
    simp only [this, Option.map_some']
/-! ## C1: the total invariant -/

theorem recomputeTotal_eq (punkteBasis : ℚ) (punkteGaenge : List (Option Note)) :
    recomputeTotal punkteBasis punkteGaenge =
      punkteBasis + ((punkteGaenge.filterMap id).map Note.high).sum := by
  unfold recomputeTotal
  suffices h : ∀ (l : List (Option Note)) (a : ℚ),
      l.foldl (fun sum p => sum + (match p with | some note => note.high | none => 0)) a =
        a + ((l.filterMap id).map Note.high).sum by
    rw [h, zero_add]
  intro l
  induction l with
  | nil => intro a; simp
  | cons p l ih =>
    intro a
    cases p with
    | none => simp [ih]
    | some note => simp [ih, add_assoc]

theorem writeSlot_consistent (currentRound : Nat) (schwinger : Schwinger)
    (slot : Option Note) : Consistent (writeSlot currentRound schwinger slot) := by
  unfold Consistent writeSlot
  exact recomputeTotal_eq _ _

theorem newSchwinger_consistent (nummer name sterne : String) (punkte : ℚ) :
    Consistent (newSchwinger nummer name sterne punkte) := by
  simp [Consistent, newSchwinger, List.replicate]

theorem mem_mapSet {β : Type} (m : List (String × β)) (key : String) (value : β) :
    ∀ entry ∈ mapSet m key value, entry ∈ m ∨ entry = (key, value) := by
  induction m with
  | nil => intro entry h; simp [mapSet] at h; exact Or.inr h
  | cons kv rest ih =>
    obtain ⟨k, v⟩ := kv
    intro entry h
    unfold mapSet at h
    split_ifs at h with hk
    · rcases List.mem_cons.1 h with h | h
      · exact Or.inr h
      · exact Or.inl (List.mem_cons_of_mem _ h)
    · rcases List.mem_cons.1 h with h | h
      · exact Or.inl (h ▸ List.mem_cons_self _ _)
      · rcases ih entry h with h | h
        · exact Or.inl (List.mem_cons_of_mem _ h)
        · exact Or.inr h

theorem AllConsistent.afterSet {data : SchwingerData} (h : AllConsistent data) (key : String)
    {s : Schwinger} (hs : Consistent s) : AllConsistent (mapSet data key s) := by
  intro entry he
  rcases mem_mapSet data key s entry he with he | rfl
  · exact h entry he
  · exact hs

theorem processRangliste_consistent (nameToNummer : List (String × String)) :
    ∀ (lines : List (List Char)) (acc data : SchwingerData), AllConsistent acc →
      processRangliste nameToNummer lines acc = .ok data → AllConsistent data := by
  intro lines
  induction lines with
  | nil => intro acc data hacc h; simp [processRangliste] at h; exact h ▸ hacc
  | cons line rest ih =>
    intro acc data hacc h
    unfold processRangliste at h
    split_ifs at h with hblank
    · exact ih acc data hacc h
    · split at h
      · cases h
      · simp only at h
        split at h
        · cases h
        · split at h
          · cases h
          · exact ih _ data (hacc.afterSet _ (newSchwinger_consistent _ _ _ _)) h

theorem processStartliste_consistent :
    ∀ (lines : List (List Char)) (acc : SchwingerData), AllConsistent acc →
      AllConsistent (processStartliste lines acc) := by
  intro lines
  induction lines with
  | nil => intro acc hacc; exact hacc
  | cons line rest ih =>
    intro acc hacc
    unfold processStartliste
    split_ifs with hblank
    · exact ih acc hacc
    · exact ih _ (hacc.afterSet _ (newSchwinger_consistent _ _ _ _))

theorem handleProcess_consistent (startliste rangliste : String) (currentRound : Nat)
    (data : SchwingerData) (h : handleProcess startliste rangliste currentRound = .ok data) :
    AllConsistent data := by
  have hnil : AllConsistent [] := fun _ he => by simp at he
  unfold handleProcess at h
  split_ifs at h with h1 h2 h3
  · cases hb : buildNameToNummer (splitLines startliste.data) [] with
    | error message => rw [hb] at h; cases h
    | ok nameToNummer =>
      rw [hb] at h
      exact processRangliste_consistent _ _ _ _ hnil h
  · cases hb : buildNameToNummer (splitLines startliste.data) [] with
    | error message => rw [hb] at h; cases h
    | ok nameToNummer =>
      rw [hb] at h
      cases h
      exact processStartliste_consistent _ _ hnil
/-- What a successful `saveResult` has done: both updates went through, the collection before
the save is the new last history entry and the bout slot is cleared. -/
theorem saveResult_saved {currentRound : Nat} {st st' : AppState} {platzId : Nat}
    (h : saveResult currentRound st platzId = some (.saved, st')) :
    ∃ pairing data1 data2,
      st.pairings.find? (fun p => decide (p.id = platzId)) = some pairing ∧
      updateSchwinger currentRound st.schwingerData pairing.s1.nummer pairing.s1.note =
        .updated data1 ∧
      updateSchwinger currentRound data1 pairing.s2.nummer pairing.s2.note = .updated data2 ∧
      st'.schwingerData = data2 ∧
      st'.history = st.history ++ [st.schwingerData] ∧
      st'.lastAdded = [pairing.s1.nummer, pairing.s2.nummer] ∧
      st'.undoMessage = st.undoMessage := by
  unfold saveResult at h
  cases hp : st.pairings.find? (fun p => decide (p.id = platzId)) with
  | none => rw [hp] at h; simp at h
  | some pairing =>
    rw [hp] at h
    simp only at h
    split_ifs at h with h1 h2
    · simp at h
    · simp at h
    · cases hu1 : updateSchwinger currentRound st.schwingerData pairing.s1.nummer
          pairing.s1.note with
      | thrown => rw [hu1] at h; simp at h
      | notANumber => rw [hu1] at h; simp at h
      | updated data1 =>
        rw [hu1] at h
        simp only at h
        cases hu2 : updateSchwinger currentRound data1 pairing.s2.nummer pairing.s2.note with
        | thrown => rw [hu2] at h; simp at h
        | notANumber => rw [hu2] at h; simp at h
        | updated data2 =>
          rw [hu2] at h
          simp only [Option.some.injEq, Prod.mk.injEq, true_and] at h
          subst h
          exact ⟨pairing, data1, data2, rfl, hu1, hu2, rfl, rfl, rfl, rfl⟩

theorem updateSchwinger_consistent {currentRound : Nat} {data data' : SchwingerData}
    {nummer noteVal : String} (hdata : AllConsistent data)
    (h : updateSchwinger currentRound data nummer noteVal = .updated data') :
    AllConsistent data' := by
  unfold updateSchwinger at h
  split at h
  · cases h
  · split at h
    · cases h
    · cases h
      exact hdata.afterSet _ (writeSlot_consistent _ _ _)

theorem handleEditSave_consistent {currentRound : Nat} {st st' : AppState}
    {nummer newNote : String} (hdata : AllConsistent st.schwingerData)
    (h : handleEditSave currentRound st nummer newNote = some st') :
    AllConsistent st'.schwingerData := by
  unfold handleEditSave at h
  split at h
  · cases h; exact hdata
  · split at h
    · cases h
    · cases h
      exact hdata.afterSet _ (writeSlot_consistent _ _ _)

theorem handleDelete_consistent {currentRound : Nat} {st : AppState} {nummer : String}
    (hdata : AllConsistent st.schwingerData) :
    AllConsistent (handleDelete currentRound st nummer).schwingerData := by
  unfold handleDelete
  split
  · exact hdata
  · exact hdata.afterSet _ (writeSlot_consistent _ _ _)

/-- A call of `handleEditSave` with a note text that reads as a number has a result. -/
theorem handleEditSave_isSome (currentRound : Nat) (st : AppState) (nummer newNote : String)
    (note : Note) (hnote : parseNoteValue newNote = some note) :
    ∃ st', handleEditSave currentRound st nummer newNote = some st' := by
  unfold handleEditSave
  cases mapGet st.schwingerData nummer with
  | none => exact ⟨_, rfl⟩
  | some schwinger =>
    simp only [hnote]
    exact ⟨_, rfl⟩

/-- C1. Total invariant: every competitor built by `handleProcess` (roster seed of round 1 or
standing seed of a later round) is consistent, and from a collection whose competitors are
all consistent a successful `saveResult`, a `handleEditSave` with a note text that reads as a
number, and `handleDelete` each produce a collection whose competitors are all consistent.
The edit dialog can also pass a note text that does not read as a number: once the result of
competitor "1" has been edited to the blank note, the slot shows "-", the dialog starts with
that text and `handleEditSave` receives "-", for which `parseNoteValue` has no number. There
the model has no result; the source stores `NaN` as the total. -/
theorem C1_total_invariant :
    (∀ (startliste rangliste : String) (currentRound : Nat) (data : SchwingerData),
      handleProcess startliste rangliste currentRound = .ok data → AllConsistent data) ∧
    (∀ (currentRound : Nat) (st st' : AppState) (platzId : Nat),
      AllConsistent st.schwingerData →
      saveResult currentRound st platzId = some (.saved, st') →
      AllConsistent st'.schwingerData) ∧
    (∀ (currentRound : Nat) (st : AppState) (nummer newNote : String) (note : Note),
      AllConsistent st.schwingerData →
      parseNoteValue newNote = some note →
      ∃ st', handleEditSave currentRound st nummer newNote = some st' ∧
        AllConsistent st'.schwingerData) ∧
    (∀ (currentRound : Nat) (st : AppState) (nummer : String),
      AllConsistent st.schwingerData →
      AllConsistent (handleDelete currentRound st nummer).schwingerData) ∧
    (handleEditSave 1 sampleSavedState "1" "" = some sampleBlankEditState ∧
      (∃ s, mapGet sampleBlankEditState.schwingerData "1" = some s ∧
        editNoteInitial 1 s = "-") ∧
      parseNoteValue "-" = none ∧
      handleEditSave 1 sampleBlankEditState "1" "-" = none) := by
  refine ⟨handleProcess_consistent, ?_, ?_, ?_, ?_⟩
  · intro currentRound st st' platzId hdata h
    obtain ⟨pairing, data1, data2, _, hu1, hu2, hd, _⟩ := saveResult_saved h
    rw [hd]
    exact updateSchwinger_consistent (updateSchwinger_consistent hdata hu1) hu2
  · intro currentRound st nummer newNote note hdata hnote
    obtain ⟨st', h⟩ := handleEditSave_isSome currentRound st nummer newNote note hnote
    exact ⟨st', h, handleEditSave_consistent hdata h⟩
  · intro currentRound st nummer hdata
    exact handleDelete_consistent hdata
  · exact ⟨by decide!, ⟨_, rfl, rfl⟩, by decide!, by decide!⟩
theorem handleProcess_sample :
    handleProcess "1, Giger Samuel ***\n2, Orlik Armon *" "" 1 = .ok sampleRoster := by
  decide!

theorem sampleState_saved : saveResult 1 sampleState 0 = some (.saved, sampleSavedState) := by
  decide!

/-- C1 on the scenario roster: `handleProcess` builds the roster, the bout is saved and all
competitors are consistent before and after. -/
theorem C1_total_invariant_witness :
    handleProcess "1, Giger Samuel ***\n2, Orlik Armon *" "" 1 = .ok sampleRoster ∧
    saveResult 1 sampleState 0 = some (.saved, sampleSavedState) ∧
    AllConsistent sampleRoster ∧ AllConsistent sampleSavedState.schwingerData :=
  ⟨handleProcess_sample, sampleState_saved,
    C1_total_invariant.1 _ _ _ _ handleProcess_sample,
    C1_total_invariant.2.1 1 sampleState sampleSavedState 0
      (C1_total_invariant.1 _ _ _ _ handleProcess_sample) sampleState_saved⟩

/-! ## C10: undo after save -/

theorem undoLast_after_push (currentRound : Nat) (st : AppState) (history : List SchwingerData)
    (data : SchwingerData) (h : st.history = history ++ [data]) :
    (undoLast currentRound st).schwingerData = data ∧
    (undoLast currentRound st).history = history := by
  unfold undoLast
  rw [h, List.getLast?_append, List.getLast?_singleton]
  simp

theorem undoLast_congr (currentRound : Nat) (a b : AppState)
    (h : a.schwingerData = b.schwingerData ∧ a.history = b.history) :
    (undoLast currentRound a).schwingerData = (undoLast currentRound b).schwingerData ∧
    (undoLast currentRound a).history = (undoLast currentRound b).history := by
  unfold undoLast
  rw [h.2]
  cases hl : b.history.getLast? with
  | none => simpa using h
  | some lastState => simp [h.2]

theorem undoLast_iterate_congr (currentRound : Nat) (n : Nat) : ∀ (a b : AppState),
    a.schwingerData = b.schwingerData ∧ a.history = b.history →
    ((undoLast currentRound)^[n] a).schwingerData =
        ((undoLast currentRound)^[n] b).schwingerData ∧
    ((undoLast currentRound)^[n] a).history = ((undoLast currentRound)^[n] b).history := by
  induction n with
  | zero => intro a b h; exact h
  | succ n ih =>
    intro a b h
    rw [Function.iterate_succ_apply, Function.iterate_succ_apply]
    exact ih _ _ (undoLast_congr currentRound a b h)

theorem undoLast_after_save {currentRound : Nat} {st st' : AppState} {platzId : Nat}
    (h : saveResult currentRound st platzId = some (.saved, st')) :
    (undoLast currentRound st').schwingerData = st.schwingerData ∧
    (undoLast currentRound st').history = st.history := by
  obtain ⟨_, _, _, _, _, _, _, hh, _⟩ := saveResult_saved h
  exact undoLast_after_push currentRound st' st.history st.schwingerData hh

/-- C10. Undo round trip: after a successful `saveResult` from a state with collection `D` and
history `H`, `undoLast` yields exactly the collection `D` and exactly the history `H`; and
`n` successful saves followed by `n` undos return to `(D, H)`. -/
theorem C10_undo_round_trip :
    (∀ (currentRound : Nat) (st st' : AppState) (platzId : Nat),
      saveResult currentRound st platzId = some (.saved, st') →
      (undoLast currentRound st').schwingerData = st.schwingerData ∧
      (undoLast currentRound st').history = st.history) ∧
    (∀ (currentRound : Nat) (st st' : AppState) (n : Nat),
      SavedRun currentRound st n st' →
      ((undoLast currentRound)^[n] st').schwingerData = st.schwingerData ∧
      ((undoLast currentRound)^[n] st').history = st.history) := by
  refine ⟨fun _ _ _ _ h => undoLast_after_save h, ?_⟩
  intro currentRound st st' n hrun
  induction hrun with
  | start => exact ⟨rfl, rfl⟩
  | @save mid st2 n pairings platzId _ hsave ih =>
    rw [Function.iterate_succ_apply]
    have h1 := undoLast_after_save hsave
    simp only at h1
    have h2 := undoLast_iterate_congr currentRound n (undoLast currentRound st2) mid h1
    exact ⟨h2.1.trans ih.1, h2.2.trans ih.2⟩

/-- C10 on the scenario: the bout of `sampleState` is saved and one undo restores the roster
and the empty history. -/
theorem C10_undo_round_trip_witness :
    saveResult 1 sampleState 0 = some (.saved, sampleSavedState) ∧
    (undoLast 1 sampleSavedState).schwingerData = sampleState.schwingerData ∧
    (undoLast 1 sampleSavedState).history = sampleState.history :=
  ⟨sampleState_saved, C10_undo_round_trip.1 1 sampleState sampleSavedState 0 sampleState_saved⟩
/-! ## The standing: the stateful walk computes `tableRows` -/

theorem getDynamicRankDisplay_isSome (list : List Schwinger) :
    ∀ i, i < list.length → getDynamicRankDisplay list i = some (rankDisplayAt list i) := by
  intro i
  induction i with
  | zero => intro _; rfl
  | succ i ih =>
    intro hi
    have h0 : 0 < list.length := by omega
    have h1 : i < list.length := by omega
    have ih := ih h1
    unfold rankDisplayAt
    unfold getDynamicRankDisplay
    simp only [List.getElem?_eq_getElem h0, List.getElem?_eq_getElem h1,
      List.getElem?_eq_getElem hi, ih]
    split_ifs <;> rfl

theorem rank1Count_eq (list : List Schwinger) : rank1Count list = some (rank1CountOf list) := by
  unfold rank1Count rank1CountOf
  have : (List.range list.length).mapM (fun i => getDynamicRankDisplay list i) =
      some ((List.range list.length).map (rankDisplayAt list)) := by
    have hall : ∀ i ∈ List.range list.length,
        getDynamicRankDisplay list i = some (rankDisplayAt list i) :=
      fun i hi => getDynamicRankDisplay_isSome list i (List.mem_range.1 hi)
    generalize List.range list.length = idx at hall
    induction idx with
    | nil => rfl
    | cons a l ih =>
      rw [List.mapM_cons, hall a (by simp), ih (fun i hi => hall i (by simp [hi]))]
      rfl
  rw [this]
  simp [List.filter_map, Function.comp_def]
theorem Pushes.refl (st : RenderState) : Pushes st [] st :=
  ⟨by simp, rfl, id⟩

theorem Pushes.trans {st1 st2 st3 : RenderState} {rows1 rows2 : List Row}
    (h1 : Pushes st1 rows1 st2) (h2 : Pushes st2 rows2 st3) :
    Pushes st1 (rows1 ++ rows2) st3 :=
  ⟨by rw [h2.1, h1.1, List.append_assoc], h2.2.1.trans h1.2.1, fun h => h2.2.2 (h1.2.2 h)⟩

theorem hasLine_append (kind : LineKind) (rows1 rows2 : List Row) :
    hasLine kind (rows1 ++ rows2) = (hasLine kind rows1 || hasLine kind rows2) := by
  simp [hasLine, List.any_append]

theorem pushRow_schwinger (st : RenderState) (s : Schwinger) (display : String) :
    Pushes st [Row.schwinger s display] (pushRow st (.schwinger s display)) := by
  refine ⟨rfl, rfl, ?_⟩
  intro h
  simpa [FlagsMatch, pushRow, hasLine_append, hasLine, isLineOf] using h

theorem pushRow_empty (st : RenderState) (rank : String) :
    Pushes st [Row.empty rank] (pushRow st (.empty rank)) := by
  refine ⟨rfl, rfl, ?_⟩
  intro h
  simpa [FlagsMatch, pushRow, hasLine_append, hasLine, isLineOf] using h

theorem pushRow_schlussgang (st : RenderState) (text : String) :
    Pushes st [Row.line .schlussgang text] (pushRow st (.line .schlussgang text)) := by
  refine ⟨rfl, rfl, ?_⟩
  intro h
  simpa [FlagsMatch, pushRow, hasLine_append, hasLine, isLineOf] using h

theorem pushCutoffLines_pushes (v : RanglisteView) (st : RenderState) (s : Schwinger) :
    Pushes st (cutoffLines v st.lastTotal s.total) (pushCutoffLines v st s) := by
  unfold pushCutoffLines cutoffLines Pushes FlagsMatch
  cases (showAusstich v && crossesLine v.ausstichLinie st.lastTotal s.total) <;>
  cases (showKranzausstich v && crossesLine v.kranzausstichLinie st.lastTotal s.total) <;>
  cases (showKranz v && crossesLine v.kranzLinie st.lastTotal s.total) <;>
  (refine ⟨?_, ?_, ?_⟩ <;> simp +contextual [pushRow, hasLine_append, hasLine, isLineOf])

theorem pushCountLines_pushes (v : RanglisteView) (st : RenderState) (personIndex : Nat) :
    Pushes st (countLines v personIndex) (pushCountLines v st personIndex) := by
  unfold pushCountLines countLines Pushes FlagsMatch
  split_ifs <;>
  (refine ⟨?_, ?_, ?_⟩ <;> simp +contextual [pushRow, hasLine_append, hasLine, isLineOf])

theorem pushSchlussgangLine_pushes (v : RanglisteView) (st : RenderState) (rank : Nat)
    (isLast : Bool) :
    ∃ st', pushSchlussgangLine v st rank isLast = some st' ∧
      Pushes st (schlussgangLines v rank isLast) st' := by
  unfold pushSchlussgangLine schlussgangLines
  rw [rank1Count_eq]
  by_cases h0 : (showSchlussgang v && isLast) = true
  · rw [if_pos h0, if_pos h0]
    by_cases h1 : rank = 1 ∧ rank1CountOf (fullList v) ≥ 2
    · have h2 : ¬(rank = 2 ∧ rank1CountOf (fullList v) < 2) := by omega
      simp only [if_pos h1, if_neg h2, List.append_nil]
      exact ⟨_, rfl, pushRow_schlussgang _ _⟩
    · by_cases h2 : rank = 2 ∧ rank1CountOf (fullList v) < 2
      · simp only [if_neg h1, if_pos h2, List.nil_append]
        exact ⟨_, rfl, pushRow_schlussgang _ _⟩
      · simp only [if_neg h1, if_neg h2, List.append_nil]
        exact ⟨_, rfl, Pushes.refl _⟩
  · rw [if_neg h0, if_neg h0]
    exact ⟨_, rfl, Pushes.refl _⟩
theorem renderSchwingerRow_spec (v : RanglisteView) (isAnwaerter : Bool) (st : RenderState)
    (s : Schwinger) (index g : Nat)
    (hg : g = if isAnwaerter then index else (kranzAnwaerter v).length + index)
    (hvalid : g < (fullList v).length) (hlast : st.lastTotal = prevTotal (fullList v) g) :
    ∃ st', renderSchwingerRow v isAnwaerter st s index = some st' ∧
      st'.rows = st.rows ++ rowBlock v isAnwaerter g s ∧
      st'.lastTotal = some s.total ∧ (FlagsMatch st → FlagsMatch st') := by
  unfold renderSchwingerRow
  simp only [← hg, getDynamicRankDisplay_isSome (fullList v) g hvalid]
  have hcut := pushCutoffLines_pushes v st s
  have hrow := pushRow_schwinger (pushCutoffLines v st s) s (rankDisplayAt (fullList v) g).display
  obtain ⟨st2, hst2, hschluss⟩ := pushSchlussgangLine_pushes v
    (pushRow (pushCutoffLines v st s) (.schwinger s (rankDisplayAt (fullList v) g).display))
    (rankDisplayAt (fullList v) g).rank (isLastOfRank (fullList v) g s)
  have hlastDef : (match (fullList v)[g + 1]? with
      | none => true
      | some nextSchwinger => decide (nextSchwinger.total ≠ s.total)) =
      isLastOfRank (fullList v) g s := rfl
  simp only [hlastDef, hst2]
  have h12 := (hcut.trans hrow).trans hschluss
  by_cases hk : (showKranz v && isLastOfRank (fullList v) g s && isAnwaerter) = true
  · have h123 := h12.trans (pushCountLines_pushes v st2 (g + 1))
    refine ⟨_, by rw [if_pos hk], ?_, rfl, ?_⟩
    · rw [h123.1, rowBlock, if_pos hk, hlast]
    · exact h123.2.2
  · refine ⟨_, by rw [if_neg hk], ?_, rfl, ?_⟩
    · rw [h12.1, rowBlock, if_neg hk, hlast]
      simp only [List.append_assoc, List.append_nil]
    · exact h12.2.2

theorem renderSchwingerRowsFrom_spec (v : RanglisteView) (isAnwaerter : Bool) :
    ∀ (list : List Schwinger) (index g : Nat) (st : RenderState),
      g = (if isAnwaerter then index else (kranzAnwaerter v).length + index) →
      (∀ j, j < list.length → (fullList v)[g + j]? = list[j]?) →
      st.lastTotal = prevTotal (fullList v) g →
      ∃ st', renderSchwingerRowsFrom v isAnwaerter list index st = some st' ∧
        st'.rows = st.rows ++ walkRows v isAnwaerter list g ∧
        st'.lastTotal = prevTotal (fullList v) (g + list.length) ∧
        (FlagsMatch st → FlagsMatch st') := by
  intro list
  induction list with
  | nil =>
    intro index g st _ _ hlast
    exact ⟨st, rfl, by simp [walkRows], by simpa using hlast, id⟩
  | cons s list ih =>
    intro index g st hg hmem hlast
    have hs : (fullList v)[g]? = some s := by simpa using hmem 0 (by simp)
    have hvalid : g < (fullList v).length := by
      by_contra hcon
      rw [List.getElem?_eq_none (by omega)] at hs
      cases hs
    obtain ⟨st1, hst1, hrows1, hlast1, hflags1⟩ :=
      renderSchwingerRow_spec v isAnwaerter st s index g hg hvalid hlast
    have hg' : g + 1 = (if isAnwaerter then index + 1
        else (kranzAnwaerter v).length + (index + 1)) := by
      rw [hg]; split_ifs <;> omega
    have hmem' : ∀ j, j < list.length → (fullList v)[g + 1 + j]? = list[j]? := by
      intro j hj
      have := hmem (j + 1) (by simp; omega)
      rw [List.getElem?_cons_succ] at this
      rw [← this]
      congr 1
      omega
    have hlast' : st1.lastTotal = prevTotal (fullList v) (g + 1) := by
      rw [hlast1, prevTotal, hs]
      rfl
    obtain ⟨st2, hst2, hrows2, hlast2, hflags2⟩ := ih (index + 1) (g + 1) st1 hg' hmem' hlast'
    refine ⟨st2, ?_, ?_, ?_, fun h => hflags2 (hflags1 h)⟩
    · rw [renderSchwingerRowsFrom, hst1]
      exact hst2
    · rw [hrows2, hrows1, walkRows, List.append_assoc]
    · rw [hlast2]
      congr 1
      simp
      omega
theorem getDynamicRankDisplay_append (l1 l2 : List Schwinger) :
    ∀ i, i < l1.length → getDynamicRankDisplay (l1 ++ l2) i = getDynamicRankDisplay l1 i := by
  intro i
  induction i with
  | zero => intro _; rfl
  | succ i ih =>
    intro hi
    have ih := ih (by omega)
    unfold getDynamicRankDisplay
    rw [List.getElem?_append_left (by omega), List.getElem?_append_left (by omega),
      List.getElem?_append_left hi, ih]
    have : ∀ first, rankCounterLoop (l1 ++ l2) first (i + 1) = rankCounterLoop l1 first (i + 1) := by
      intro first
      unfold rankCounterLoop
      rw [List.take_append_of_le_length (by omega)]
    simp only [this]

theorem pushPlaceholdersFrom_pushes (v : RanglisteView) (lastRank : Nat) :
    ∀ (remaining i : Nat) (st : RenderState),
      Pushes st (placeholderRowsFrom v lastRank remaining i)
        (pushPlaceholdersFrom v lastRank remaining i st) := by
  intro remaining
  induction remaining with
  | zero => intro i st; exact Pushes.refl st
  | succ remaining ih =>
    intro i st
    unfold pushPlaceholdersFrom placeholderRowsFrom
    have h := ((pushRow_empty st (Nat.repr (lastRank + i + 1) ++ "a")).trans
      (pushCountLines_pushes v _ ((kranzAnwaerter v).length + i + 1))).trans
      (ih (i + 1) _)
    simpa using h

theorem pushPlaceholders_pushes (v : RanglisteView) (st : RenderState) :
    ∃ st', pushPlaceholders v st = some st' ∧ Pushes st (placeholderRows v) st' := by
  unfold pushPlaceholders placeholderRows
  by_cases hk : showKranz v = true
  · rw [if_pos hk, if_pos hk]
    by_cases hm : maxKranzRank v > (kranzAnwaerter v).length
    · rw [if_pos hm]
      have hrank : (if (kranzAnwaerter v).length > 0 then
            (getDynamicRankDisplay (kranzAnwaerter v) ((kranzAnwaerter v).length - 1)).map
              RankDisplay.rank
          else some 0) = some (lastCandidateRank v) := by
        unfold lastCandidateRank
        by_cases ha : (kranzAnwaerter v).length > 0
        · rw [if_pos ha, if_pos ha, getDynamicRankDisplay_isSome _ _ (by omega)]
          unfold rankDisplayAt fullList
          rw [getDynamicRankDisplay_append _ _ _ (by omega)]
          rfl
        · rw [if_neg ha, if_neg ha]
      simp only [hrank]
      exact ⟨_, rfl, pushPlaceholdersFrom_pushes v _ _ _ _⟩
    · rw [if_neg hm]
      have : maxKranzRank v - (kranzAnwaerter v).length = 0 := by omega
      rw [this]
      exact ⟨st, rfl, Pushes.refl st⟩
  · rw [if_neg hk, if_neg hk]
    exact ⟨st, rfl, Pushes.refl st⟩

theorem pushMissingLines_rows (v : RanglisteView) (st : RenderState) (h : FlagsMatch st) :
    (pushMissingLines v st).rows = st.rows ++ missingLines v st.rows := by
  obtain ⟨h1, h2, h3, h4, h5⟩ := h
  unfold pushMissingLines missingLines
  rw [h1, h2, h3, h4, h5]
  split_ifs <;> simp [pushRow]

/-- The stateful `renderTableRows` never throws and computes `tableRows`. -/
theorem renderTableRows_eq (v : RanglisteView) : renderTableRows v = some (tableRows v) := by
  unfold renderTableRows renderSchwingerRows
  have hflags0 : FlagsMatch ⟨[], none, ⟨false, false, false, false, false⟩⟩ := by
    simp [FlagsMatch, hasLine, isLineOf]
  obtain ⟨st1, hst1, hrows1, hlast1, hflags1⟩ := renderSchwingerRowsFrom_spec v true
    (kranzAnwaerter v) 0 0 ⟨[], none, ⟨false, false, false, false, false⟩⟩ rfl
    (fun j hj => by
      unfold fullList
      rw [Nat.zero_add, List.getElem?_append_left hj]) rfl
  obtain ⟨st2, hst2, hrows2, hlast2, hflags2⟩ := pushPlaceholders_pushes v st1
  obtain ⟨st3, hst3, hrows3, hlast3, hflags3⟩ := renderSchwingerRowsFrom_spec v false
    (rest v) 0 (kranzAnwaerter v).length st2 rfl
    (fun j hj => by
      unfold fullList
      rw [List.getElem?_append_right (by omega)]
      congr 1
      omega)
    (by rw [hlast2, hlast1, Nat.zero_add])
  simp only [hst1, hst2, hst3]
  rw [pushMissingLines_rows v st3 (hflags3 (hflags2 (hflags1 hflags0)))]
  have hbody : st3.rows = bodyRows v := by
    rw [hrows3, hrows2, hrows1, bodyRows]
    simp
  rw [hbody, tableRows]

/-! ## C8: qualification bounds -/

theorem roundHalfEven_near (m : ℚ) : |(roundHalfEven m : ℚ) - m| ≤ 1 / 2 := by
  have hf1 : (⌊m⌋ : ℚ) ≤ m := Int.floor_le m
  have hf2 : m < ⌊m⌋ + 1 := Int.lt_floor_add_one m
  unfold roundHalfEven
  split_ifs with ha hb hc
  · rw [abs_le]; constructor <;> linarith
  · push_cast; rw [abs_le]; constructor <;> linarith
  · rw [abs_le]; constructor <;> linarith
  · push_cast; rw [abs_le]; constructor <;> linarith

theorem roundToDouble_spec (q : ℚ) (hq : 0 < q) :
    ∃ (e n : ℤ), (2 : ℚ) ^ e ≤ q ∧ q < 2 ^ (e + 1) ∧
      roundToDouble q = n * 2 ^ (e - 52) ∧ |(n : ℚ) * 2 ^ (e - 52) - q| ≤ 2 ^ (e - 52) / 2 := by
  have h1 : (2 : ℚ) ^ Int.log 2 q ≤ q := by
    have := Int.zpow_log_le_self (b := 2) (by norm_num) hq
    simpa using this
  have h2 : q < (2 : ℚ) ^ (Int.log 2 q + 1) := by
    have := Int.lt_zpow_succ_log_self (b := 2) (by norm_num) q
    simpa using this
  have hu : (0 : ℚ) < 2 ^ (Int.log 2 q - 52) := by positivity
  refine ⟨Int.log 2 q, roundHalfEven (q / 2 ^ (Int.log 2 q - 52)), h1, h2, ?_, ?_⟩
  · unfold roundToDouble
    rw [if_neg (not_le.2 hq)]
  · have hnear := roundHalfEven_near (q / 2 ^ (Int.log 2 q - 52))
    generalize (2 : ℚ) ^ (Int.log 2 q - 52) = u at hu hnear ⊢
    generalize (roundHalfEven (q / u) : ℚ) = n at hnear ⊢
    have : n * u - q = (n - q / u) * u := by field_simp
    rw [this, abs_mul, abs_of_pos hu]
    calc _ ≤ 1 / 2 * u := mul_le_mul_of_nonneg_right hnear hu.le
      _ = u / 2 := by ring

theorem roundToDouble_rel (q : ℚ) (hq : 0 < q) :
    |roundToDouble q - q| ≤ q / 2 ^ 53 := by
  obtain ⟨e, n, he1, _, hround, hnear⟩ := roundToDouble_spec q hq
  rw [hround]
  have hu1 : (2 : ℚ) ^ (e - 52) * 2 ^ 52 = 2 ^ e := by
    rw [← zpow_natCast, ← zpow_add₀ (by norm_num : (2 : ℚ) ≠ 0)]
    congr 1
    omega
  have hu : (0 : ℚ) < 2 ^ (e - 52) := by positivity
  generalize (2 : ℚ) ^ (e - 52) = u at hu hu1 hnear ⊢
  have h1 : u * 2 ^ 52 ≤ q := by rw [hu1]; exact he1
  have h2 : u / 2 ≤ q / 2 ^ 53 := by
    rw [div_le_div_iff₀ (by norm_num) (by positivity)]
    nlinarith
  exact hnear.trans h2

/-- A positive rational just below a natural number `k < 2 ^ 32`, closer to it than a
quarter of its own last binary64 digit, rounds to `k`. -/
theorem roundToDouble_exact (k : ℕ) (q : ℚ) (hq : 0 < q) (hqk : q ≤ k)
    (hk : (k : ℚ) < 2 ^ 32) (hclose : ((k : ℚ) - q) * 2 ^ 54 ≤ q) :
    roundToDouble q = k := by
  obtain ⟨e, n, he1, he2, hround, hnear⟩ := roundToDouble_spec q hq
  rw [hround]
  have hu2 : (2 : ℚ) ^ (e - 52) * 2 ^ 53 = 2 ^ (e + 1) := by
    rw [← zpow_natCast, ← zpow_add₀ (by norm_num : (2 : ℚ) ≠ 0)]
    congr 1
    omega
  have he : e < 32 := by
    have h1 : (2 : ℚ) ^ e < 2 ^ (32 : ℤ) := by
      calc (2 : ℚ) ^ e ≤ q := he1
        _ ≤ k := hqk
        _ < 2 ^ 32 := hk
        _ = 2 ^ (32 : ℤ) := by norm_num
    exact (zpow_lt_zpow_iff_right₀ (by norm_num : (1 : ℚ) < 2)).1 h1
  obtain ⟨j, hj⟩ : ∃ j : ℕ, (j : ℤ) = 52 - e := ⟨(52 - e).toNat, by omega⟩
  have huj : (2 : ℚ) ^ (e - 52) * 2 ^ j = 1 := by
    rw [← zpow_natCast, ← zpow_add₀ (by norm_num : (2 : ℚ) ≠ 0), hj]
    simp
  have hu : (0 : ℚ) < 2 ^ (e - 52) := by positivity
  generalize (2 : ℚ) ^ (e - 52) = u at hu hu2 huj hnear ⊢
  have hKu : ((k : ℚ) * 2 ^ j) * u = k := by
    rw [mul_assoc, mul_comm _ u, huj, mul_one]
  have ht : (k : ℚ) - q < u / 2 := by
    have h2 : q < u * 2 ^ 53 := by rw [hu2]; exact he2
    nlinarith
  have hdist : |(n : ℚ) * u - k| < u := by
    have h2 : (n : ℚ) * u - k = ((n : ℚ) * u - q) - (k - q) := by ring
    rw [h2]
    have h3 := abs_sub ((n : ℚ) * u - q) (k - q)
    have h4 : |(k : ℚ) - q| = k - q := abs_of_nonneg (by linarith)
    linarith
  have hlt1 : |(n : ℚ) - (k : ℚ) * 2 ^ j| < 1 := by
    have h1 : |(n : ℚ) - (k : ℚ) * 2 ^ j| * u = |(n : ℚ) * u - k| := by
      rw [← abs_of_pos hu, ← abs_mul, abs_of_pos hu, sub_mul, hKu]
    have h2 : |(n : ℚ) - (k : ℚ) * 2 ^ j| * u < 1 * u := by rw [h1, one_mul]; exact hdist
    exact lt_of_mul_lt_mul_right h2 hu.le
  have hnK : n = (k : ℤ) * 2 ^ j := by
    have h5 : |n - (k : ℤ) * 2 ^ j| < 1 := by
      have : ((|n - (k : ℤ) * 2 ^ j| : ℤ) : ℚ) < 1 := by
        push_cast
        exact hlt1
      exact_mod_cast this
    have := Int.abs_lt_one_iff.1 h5
    omega
  rw [hnK]
  push_cast
  exact hKu

/-- The product `N * d` of a natural number below `2 ^ 32` with a binary64 constant `d` just
below the fraction `p / D`, rounded to binary64, has the same ceiling as `p * N / D`. -/
theorem ceil_roundToDouble_mul (p D N : ℕ) (d : ℚ) (hD : 0 < D) (hpD : p ≤ D) (hd : 0 < d)
    (hle : d ≤ (p : ℚ) / D) (hdelta : ((p : ℚ) / D - d) * 2 ^ 54 ≤ d)
    (hsmall : (((p : ℚ) / D - d) + (p : ℚ) / D / 2 ^ 53) * 2 ^ 32 * D < 1)
    (hN : N < 2 ^ 32) :
    ⌈roundToDouble ((N : ℚ) * d)⌉₊ = ⌈((p : ℚ) * N) / D⌉₊ := by
  rcases Nat.eq_zero_or_pos N with rfl | hNpos
  · simp [roundToDouble]
  have hDq : (0 : ℚ) < D := by exact_mod_cast hD
  have hNq : (1 : ℚ) ≤ N := by exact_mod_cast hNpos
  have hNlt : (N : ℚ) < 2 ^ 32 := by exact_mod_cast hN
  have hq : (0 : ℚ) < N * d := by positivity
  have hδ0 : 0 ≤ (p : ℚ) / D - d := by linarith
  have hqx : (N : ℚ) * d = (p : ℚ) * N / D - N * ((p : ℚ) / D - d) := by
    field_simp
    ring
  have hqlex : (N : ℚ) * d ≤ (p : ℚ) * N / D := by
    rw [hqx]
    have : 0 ≤ (N : ℚ) * ((p : ℚ) / D - d) := by positivity
    linarith
  by_cases hdvd : D ∣ p * N
  · obtain ⟨k, hk⟩ := hdvd
    have hxk : (p : ℚ) * N / D = k := by
      rw [div_eq_iff hDq.ne']
      have : ((p * N : ℕ) : ℚ) = ((D * k : ℕ) : ℚ) := by rw [hk]
      push_cast at this
      linarith
    have hkN : (k : ℚ) ≤ N := by
      have h1 : D * k ≤ D * N := by
        rw [← hk]; exact Nat.mul_le_mul_right N hpD
      have := Nat.le_of_mul_le_mul_left h1 hD
      exact_mod_cast this
    have hexact := roundToDouble_exact k (N * d) hq (hxk ▸ hqlex) (lt_of_le_of_lt hkN hNlt)
      (by
        have h1 : (k : ℚ) - N * d = N * ((p : ℚ) / D - d) := by rw [← hxk, hqx]; ring
        rw [h1]
        have := mul_le_mul_of_nonneg_left hdelta (by positivity : (0 : ℚ) ≤ N)
        linarith)
    rw [hexact, hxk]
  · have hB : (N : ℚ) * (((p : ℚ) / D - d) + (p : ℚ) / D / 2 ^ 53) < 1 / D := by
      have h0 : 0 ≤ ((p : ℚ) / D - d) + (p : ℚ) / D / 2 ^ 53 := by positivity
      rw [lt_div_iff₀ hDq]
      calc (N : ℚ) * (((p : ℚ) / D - d) + (p : ℚ) / D / 2 ^ 53) * D
          ≤ 2 ^ 32 * (((p : ℚ) / D - d) + (p : ℚ) / D / 2 ^ 53) * D := by
            apply mul_le_mul_of_nonneg_right _ hDq.le
            exact mul_le_mul_of_nonneg_right hNlt.le h0
        _ = (((p : ℚ) / D - d) + (p : ℚ) / D / 2 ^ 53) * 2 ^ 32 * D := by ring
        _ < 1 := hsmall
    have hrel := abs_le.1 (roundToDouble_rel _ hq)
    have h2 : (N : ℚ) * d / 2 ^ 53 ≤ (p : ℚ) * N / D / 2 ^ 53 :=
      div_le_div_of_nonneg_right hqlex (by positivity)
    have h3 : (N : ℚ) * (((p : ℚ) / D - d) + (p : ℚ) / D / 2 ^ 53) =
        N * ((p : ℚ) / D - d) + (p : ℚ) * N / D / 2 ^ 53 := by ring
    have h4 : 0 ≤ (N : ℚ) * ((p : ℚ) / D - d) := by positivity
    have h5 : (0 : ℚ) ≤ (p : ℚ) * N / D / 2 ^ 53 := by positivity
    -- the exact product lies strictly between two consecutive integers, `1 / D` away from both
    have hk1 : (p * N / D) * D < p * N := by
      have := Nat.div_mul_le_self (p * N) D
      rcases Nat.lt_or_eq_of_le this with h | h
      · exact h
      · exact absurd (Dvd.intro_left _ h) hdvd
    have hk2 : p * N < (p * N / D + 1) * D := by
      have := Nat.lt_div_mul_add hD (a := p * N)
      linarith [Nat.add_mul (p * N / D) 1 D]
    have hx1 : ((p * N / D : ℕ) : ℚ) + 1 / D ≤ (p : ℚ) * N / D := by
      rw [← sub_nonneg]
      have h : ((p * N / D * D + 1 : ℕ) : ℚ) ≤ ((p * N : ℕ) : ℚ) := by exact_mod_cast hk1
      push_cast at h
      have : (p : ℚ) * N / D - (((p * N / D : ℕ) : ℚ) + 1 / D) =
          ((p : ℚ) * N - (((p * N / D : ℕ) : ℚ) * D + 1)) / D := by field_simp
      rw [this]
      apply div_nonneg _ hDq.le
      linarith
    have hx2 : (p : ℚ) * N / D + 1 / D ≤ ((p * N / D : ℕ) : ℚ) + 1 := by
      rw [← sub_nonneg]
      have h : ((p * N + 1 : ℕ) : ℚ) ≤ (((p * N / D + 1) * D : ℕ) : ℚ) := by exact_mod_cast hk2
      push_cast at h
      have : ((p * N / D : ℕ) : ℚ) + 1 - ((p : ℚ) * N / D + 1 / D) =
          ((((p * N / D : ℕ) : ℚ) + 1) * D - ((p : ℚ) * N + 1)) / D := by field_simp
      rw [this]
      apply div_nonneg _ hDq.le
      linarith
    have hceil1 : ⌈(p : ℚ) * N / D⌉₊ = p * N / D + 1 := by
      rw [Nat.ceil_eq_iff (Nat.succ_ne_zero _)]
      have : (0 : ℚ) < 1 / D := by positivity
      constructor
      · rw [Nat.succ_sub_one]; linarith
      · push_cast; linarith
    have hceil2 : ⌈roundToDouble ((N : ℚ) * d)⌉₊ = p * N / D + 1 := by
      rw [Nat.ceil_eq_iff (Nat.succ_ne_zero _)]
      constructor
      · rw [Nat.succ_sub_one]; linarith [hrel.1]
      · push_cast; linarith [hrel.2]
    rw [hceil1, hceil2]

theorem double015_eq : double015 = 5404319552844595 / 2 ^ 55 := by decide!
theorem double018_eq : double018 = 6485183463413514 / 2 ^ 55 := by decide!

theorem ceil_double015 (N : ℕ) (hN : N < 2 ^ 32) :
    ⌈roundToDouble ((N : ℚ) * double015)⌉₊ = ⌈((15 : ℚ) * N) / 100⌉₊ := by
  have h := ceil_roundToDouble_mul 3 20 N double015 (by norm_num) (by norm_num)
    (by rw [double015_eq]; norm_num) (by rw [double015_eq]; norm_num)
    (by rw [double015_eq]; norm_num) (by rw [double015_eq]; norm_num) hN
  rw [h]
  congr 1
  push_cast
  ring

theorem ceil_double018 (N : ℕ) (hN : N < 2 ^ 32) :
    ⌈roundToDouble ((N : ℚ) * double018)⌉₊ = ⌈((18 : ℚ) * N) / 100⌉₊ := by
  have h := ceil_roundToDouble_mul 9 50 N double018 (by norm_num) (by norm_num)
    (by rw [double018_eq]; norm_num) (by rw [double018_eq]; norm_num)
    (by rw [double018_eq]; norm_num) (by rw [double018_eq]; norm_num) hN
  rw [h]
  congr 1
  push_cast
  ring

/-- C8. Qualification bounds: in the final-round Kranz view (normal round 6, esaf round 8)
`minKranzRank` is the ceiling of `15 * N / 100` and `maxKranzRank` the ceiling of
`18 * N / 100` for a collection of `N` competitors (`N` below `2 ^ 32`, as the size of every
collection is), and `minKranzRank ≤ maxKranzRank`; in any other round both are 0. -/
theorem C8_qualification_bounds (v : RanglisteView) (hsize : v.size < 2 ^ 32) :
    ((v.festivalType = .normal ∧ v.currentRound = 6) ∨
        (v.festivalType = .esaf ∧ v.currentRound = 8) →
      minKranzRank v = ⌈(15 * v.size : ℚ) / 100⌉₊ ∧
      maxKranzRank v = ⌈(18 * v.size : ℚ) / 100⌉₊ ∧
      minKranzRank v ≤ maxKranzRank v) ∧
    (¬((v.festivalType = .normal ∧ v.currentRound = 6) ∨
        (v.festivalType = .esaf ∧ v.currentRound = 8)) →
      minKranzRank v = 0 ∧ maxKranzRank v = 0) := by
  have hshow : showKranz v = true ↔ ((v.festivalType = .normal ∧ v.currentRound = 6) ∨
      (v.festivalType = .esaf ∧ v.currentRound = 8)) := by
    simp [showKranz]
  constructor
  · intro h
    have hk := hshow.2 h
    have hmin : minKranzRank v = ⌈(15 * v.size : ℚ) / 100⌉₊ := by
      rw [minKranzRank, if_pos hk, ceil_double015 v.size hsize]
    have hmax : maxKranzRank v = ⌈(18 * v.size : ℚ) / 100⌉₊ := by
      rw [maxKranzRank, if_pos hk, ceil_double018 v.size hsize]
    refine ⟨hmin, hmax, ?_⟩
    rw [hmin, hmax]
    apply Nat.ceil_mono
    have : (0 : ℚ) ≤ v.size := Nat.cast_nonneg _
    linarith
  · intro h
    have hk : ¬(showKranz v = true) := fun hc => h (hshow.1 hc)
    unfold minKranzRank maxKranzRank
    rw [if_neg hk, if_neg hk]
    exact ⟨rfl, rfl⟩

/-- C8 at a field of 40: between 6 and 8 qualifiers. -/
theorem C8_qualification_bounds_witness :
    sampleKranzView.size < 2 ^ 32 ∧
    minKranzRank sampleKranzView = 6 ∧ maxKranzRank sampleKranzView = 8 ∧
    minKranzRank sampleKranzView ≤ maxKranzRank sampleKranzView := by
  obtain ⟨h1, h2, h3⟩ := (C8_qualification_bounds sampleKranzView (by decide)).1
    (Or.inl ⟨rfl, rfl⟩)
  exact ⟨by decide, by decide!, by decide!, h3⟩

/-! ## C7: the qualification-count dividers appear exactly once -/

theorem lineCount_append (kind : LineKind) (rows1 rows2 : List Row) :
    lineCount kind (rows1 ++ rows2) = lineCount kind rows1 + lineCount kind rows2 := by
  simp [lineCount, List.countP_append]

theorem hasLine_eq_decide (kind : LineKind) (rows : List Row) :
    hasLine kind rows = decide (0 < lineCount kind rows) := by
  unfold hasLine lineCount
  induction rows with
  | nil => simp
  | cons r rows ih =>
    rw [List.any_cons, ih, List.countP_cons]
    cases isLineOf kind r <;> simp

theorem lineCount_cutoffLines (v : RanglisteView) (kind : LineKind)
    (hk : kind = .minKranz ∨ kind = .maxKranz) (lastTotal : Option ℚ) (total : ℚ) :
    lineCount kind (cutoffLines v lastTotal total) = 0 := by
  unfold cutoffLines
  rcases hk with rfl | rfl <;> split_ifs <;> simp [lineCount, isLineOf]

theorem lineCount_schlussgangLines (v : RanglisteView) (kind : LineKind)
    (hk : kind = .minKranz ∨ kind = .maxKranz) (rank : Nat) (isLast : Bool) :
    lineCount kind (schlussgangLines v rank isLast) = 0 := by
  unfold schlussgangLines
  rcases hk with rfl | rfl <;> split_ifs <;> simp [lineCount, isLineOf]

theorem lineCount_countLines (v : RanglisteView) (kind : LineKind)
    (hk : kind = .minKranz ∨ kind = .maxKranz) (personIndex : Nat) :
    lineCount kind (countLines v personIndex) =
      if personIndex = countTarget v kind then 1 else 0 := by
  unfold countLines
  rcases hk with rfl | rfl <;> simp only [countTarget] <;> split_ifs <;>
    simp [lineCount, isLineOf]

theorem lineCount_rowBlock_le (v : RanglisteView) (kind : LineKind)
    (hk : kind = .minKranz ∨ kind = .maxKranz) (isAnwaerter : Bool) (g : Nat)
    (s : Schwinger) :
    lineCount kind (rowBlock v isAnwaerter g s) ≤
      if isAnwaerter = true ∧ g + 1 = countTarget v kind then 1 else 0 := by
  unfold rowBlock
  rw [lineCount_append, lineCount_append, lineCount_append, lineCount_cutoffLines v kind hk,
    lineCount_schlussgangLines v kind hk]
  have hrow : lineCount kind [Row.schwinger s (rankDisplayAt (fullList v) g).display] = 0 := by
    simp [lineCount, isLineOf]
  rw [hrow]
  by_cases hc : (showKranz v && isLastOfRank (fullList v) g s && isAnwaerter) = true
  · rw [if_pos hc, lineCount_countLines v kind hk]
    have ha : isAnwaerter = true := by
      simp only [Bool.and_eq_true] at hc
      exact hc.2
    split_ifs <;> simp_all
  · rw [if_neg hc]
    simp [lineCount]

theorem lineCount_walkRows_le (v : RanglisteView) (kind : LineKind)
    (hk : kind = .minKranz ∨ kind = .maxKranz) (isAnwaerter : Bool) :
    ∀ (list : List Schwinger) (g : Nat),
      lineCount kind (walkRows v isAnwaerter list g) ≤
        if isAnwaerter = true ∧ g < countTarget v kind ∧ countTarget v kind ≤ g + list.length
        then 1 else 0 := by
  intro list
  induction list with
  | nil => intro g; simp [walkRows, lineCount]
  | cons s list ih =>
    intro g
    rw [walkRows, lineCount_append]
    have h1 := lineCount_rowBlock_le v kind hk isAnwaerter g s
    have h2 := ih (g + 1)
    simp only [List.length_cons]
    cases isAnwaerter
    · simp only [Bool.false_eq_true, false_and, if_false] at h1 h2 ⊢
      omega
    · simp only [true_and] at h1 h2 ⊢
      split_ifs at h1 h2 ⊢ <;> omega

theorem lineCount_placeholderRowsFrom_le (v : RanglisteView) (kind : LineKind)
    (hk : kind = .minKranz ∨ kind = .maxKranz) (lastRank : Nat) :
    ∀ (remaining i : Nat),
      lineCount kind (placeholderRowsFrom v lastRank remaining i) ≤
        if (kranzAnwaerter v).length + i < countTarget v kind ∧
            countTarget v kind ≤ (kranzAnwaerter v).length + i + remaining
        then 1 else 0 := by
  intro remaining
  induction remaining with
  | zero => intro i; simp [placeholderRowsFrom, lineCount]
  | succ remaining ih =>
    intro i
    have h2 := ih (i + 1)
    have h1 := lineCount_countLines v kind hk ((kranzAnwaerter v).length + i + 1)
    rw [placeholderRowsFrom, ← List.singleton_append, lineCount_append, lineCount_append, h1]
    have h0 : lineCount kind [Row.empty (Nat.repr (lastRank + i + 1) ++ "a")] = 0 := by
      simp [lineCount, isLineOf]
    rw [h0]
    split_ifs at h2 ⊢ <;> omega

theorem lineCount_bodyRows_le (v : RanglisteView) (kind : LineKind)
    (hk : kind = .minKranz ∨ kind = .maxKranz) : lineCount kind (bodyRows v) ≤ 1 := by
  unfold bodyRows placeholderRows
  rw [lineCount_append, lineCount_append]
  have h1 := lineCount_walkRows_le v kind hk true (kranzAnwaerter v) 0
  have h3 := lineCount_walkRows_le v kind hk false (rest v) (kranzAnwaerter v).length
  have h2 := lineCount_placeholderRowsFrom_le v kind hk (lastCandidateRank v)
    (maxKranzRank v - (kranzAnwaerter v).length) 0
  have h3 : lineCount kind (walkRows v false (rest v) (kranzAnwaerter v).length) = 0 := by
    simpa using h3
  rw [h3]
  by_cases hs : showKranz v = true
  · rw [if_pos hs]
    split_ifs at h1 h2 <;> omega
  · rw [if_neg hs]
    have : lineCount kind ([] : List Row) = 0 := rfl
    rw [this]
    split_ifs at h1 <;> omega

theorem lineCount_missingLines (v : RanglisteView) (kind : LineKind)
    (hk : kind = .minKranz ∨ kind = .maxKranz) (body : List Row) :
    lineCount kind (missingLines v body) =
      if showKranz v && !hasLine kind body then 1 else 0 := by
  unfold missingLines
  rcases hk with rfl | rfl <;>
  (simp only [lineCount_append]
   split_ifs <;> simp_all [lineCount, isLineOf])

theorem lineCount_tableRows (v : RanglisteView) (kind : LineKind)
    (hk : kind = .minKranz ∨ kind = .maxKranz) (hs : showKranz v = true) :
    lineCount kind (tableRows v) = 1 := by
  unfold tableRows
  rw [lineCount_append, lineCount_missingLines v kind hk, hs, hasLine_eq_decide]
  have := lineCount_bodyRows_le v kind hk
  by_cases h0 : 0 < lineCount kind (bodyRows v)
  · simp [h0]; omega
  · simp [h0]; omega

/-- C7. In the final-round Kranz view (normal round 6, esaf round 8), for a collection of any
size and any competed list, the row sequence built by `renderTableRows` contains exactly one
"Min. Kränze" divider and exactly one "Max. Kränze" divider. -/
theorem C7_count_dividers_once (v : RanglisteView)
    (hfinal : (v.festivalType = .normal ∧ v.currentRound = 6) ∨
      (v.festivalType = .esaf ∧ v.currentRound = 8)) :
    ∃ rows, renderTableRows v = some rows ∧
      lineCount .minKranz rows = 1 ∧ lineCount .maxKranz rows = 1 := by
  have hs : showKranz v = true := by simpa [showKranz] using hfinal
  exact ⟨tableRows v, renderTableRows_eq v, lineCount_tableRows v _ (Or.inl rfl) hs,
    lineCount_tableRows v _ (Or.inr rfl) hs⟩
/-- C7 at the sample final-round view. -/
theorem C7_count_dividers_once_witness :
    ((sampleKranzView.festivalType = .normal ∧ sampleKranzView.currentRound = 6) ∨
      (sampleKranzView.festivalType = .esaf ∧ sampleKranzView.currentRound = 8)) ∧
    ∃ rows, renderTableRows sampleKranzView = some rows ∧
      lineCount .minKranz rows = 1 ∧ lineCount .maxKranz rows = 1 :=
  ⟨Or.inl ⟨rfl, rfl⟩, C7_count_dividers_once sampleKranzView (Or.inl ⟨rfl, rfl⟩)⟩

theorem sampleKranzView_rows :
    renderTableRows sampleKranzView = some
      [.schwinger (sampleSchwinger "1" 58) "1a", .schwinger (sampleSchwinger "2" 57) "2a",
       .empty "3a", .empty "4a", .empty "5a", .empty "6a",
       .line .minKranz "--- Min. Kränze (6) ---",
       .empty "7a", .empty "8a",
       .line .maxKranz "--- Max. Kränze (8) ---",
       .line .kranz "--- Kranzlinie (56.50) ---",
       .schwinger (sampleSchwinger "3" 55) "3a"] := by
  decide!
/-! ## C9: placeholder rows -/

theorem entries_cutoffLines (v : RanglisteView) (lastTotal : Option ℚ) (total : ℚ) :
    (cutoffLines v lastTotal total).filterMap Row.entry = [] := by
  unfold cutoffLines
  split_ifs <;> simp [Row.entry]

theorem entries_schlussgangLines (v : RanglisteView) (rank : Nat) (isLast : Bool) :
    (schlussgangLines v rank isLast).filterMap Row.entry = [] := by
  unfold schlussgangLines
  split_ifs <;> simp [Row.entry]

theorem entries_countLines (v : RanglisteView) (personIndex : Nat) :
    (countLines v personIndex).filterMap Row.entry = [] := by
  unfold countLines
  split_ifs <;> simp [Row.entry]

theorem entries_missingLines (v : RanglisteView) (body : List Row) :
    (missingLines v body).filterMap Row.entry = [] := by
  unfold missingLines
  simp only [List.filterMap_append]
  split_ifs <;> simp [Row.entry]

theorem entries_rowBlock (v : RanglisteView) (isAnwaerter : Bool) (g : Nat) (s : Schwinger) :
    (rowBlock v isAnwaerter g s).filterMap Row.entry = [Sum.inl s] := by
  unfold rowBlock
  simp only [List.filterMap_append, entries_cutoffLines, entries_schlussgangLines]
  split_ifs <;> simp [Row.entry, entries_countLines]

theorem entries_walkRows (v : RanglisteView) (isAnwaerter : Bool) :
    ∀ (list : List Schwinger) (g : Nat),
      (walkRows v isAnwaerter list g).filterMap Row.entry = list.map Sum.inl := by
  intro list
  induction list with
  | nil => intro g; rfl
  | cons s list ih =>
    intro g
    rw [walkRows, List.filterMap_append, entries_rowBlock, ih]
    rfl

theorem entries_placeholderRowsFrom (v : RanglisteView) (lastRank : Nat) :
    ∀ (remaining i : Nat),
      (placeholderRowsFrom v lastRank remaining i).filterMap Row.entry =
        (List.range remaining).map
          (fun k => Sum.inr (Nat.repr (lastRank + (i + k) + 1) ++ "a")) := by
  intro remaining
  induction remaining with
  | zero => intro i; rfl
  | succ remaining ih =>
    intro i
    rw [placeholderRowsFrom, List.filterMap_cons_some (by rfl : Row.entry (Row.empty _) = _),
      List.filterMap_append, entries_countLines, List.nil_append, ih, List.range_succ_eq_map,
      List.map_cons, List.map_map]
    congr 1
    apply List.map_congr_left
    intro k _
    simp only [Function.comp_apply]
    congr 3
    omega

theorem countP_isPlaceholder (rows : List Row) :
    rows.countP isPlaceholder = ((rows.filterMap Row.entry).filter Sum.isRight).length := by
  induction rows with
  | nil => rfl
  | cons r rows ih =>
    cases r <;> simp [List.countP_cons, isPlaceholder, Row.entry, ih]

/-- C9. Placeholder synthesis: in the final-round Kranz view, with `A` the number of competed
competitors whose total is strictly above the candidate threshold (55.75 normal, 74.25 esaf),
the competitor and placeholder rows of `renderTableRows` are, in this order, the candidate
rows, then `maxKranzRank - A` placeholder rows (none unless `A < maxKranzRank`), then the
remaining competitor rows; placeholder `i` (0-based) carries the label `r + i + 1` followed
by "a", where `r` is the rank of the last candidate, 0 without candidates. -/
theorem C9_placeholder_rows (v : RanglisteView)
    (hfinal : (v.festivalType = .normal ∧ v.currentRound = 6) ∨
      (v.festivalType = .esaf ∧ v.currentRound = 8)) :
    ∃ rows, renderTableRows v = some rows ∧
      rows.filterMap Row.entry =
        (v.competedSchwinger.filter
            (fun s => decide (s.total > kranzScoreThreshold v))).map Sum.inl ++
          (List.range (maxKranzRank v - v.competedSchwinger.countP
              (fun s => decide (s.total > kranzScoreThreshold v)))).map
            (fun i => Sum.inr (Nat.repr (lastCandidateRank v + i + 1) ++ "a")) ++
          (v.competedSchwinger.filter
            (fun s => decide (s.total ≤ kranzScoreThreshold v))).map Sum.inl ∧
      rows.countP isPlaceholder = maxKranzRank v - v.competedSchwinger.countP
        (fun s => decide (s.total > kranzScoreThreshold v)) ∧
      ((∃ label, Row.empty label ∈ rows) ↔
        v.competedSchwinger.countP (fun s => decide (s.total > kranzScoreThreshold v))
          < maxKranzRank v) ∧
      kranzScoreThreshold v = (if v.festivalType = .normal then 55.75 else 74.25) := by
  have hs : showKranz v = true := by simpa [showKranz] using hfinal
  have hA : (kranzAnwaerter v).length = v.competedSchwinger.countP
      (fun s => decide (s.total > kranzScoreThreshold v)) := by
    rw [kranzAnwaerter, if_pos hs, List.countP_eq_length_filter]
  have hentries : (tableRows v).filterMap Row.entry =
      (v.competedSchwinger.filter
          (fun s => decide (s.total > kranzScoreThreshold v))).map Sum.inl ++
        (List.range (maxKranzRank v - v.competedSchwinger.countP
            (fun s => decide (s.total > kranzScoreThreshold v)))).map
          (fun i => Sum.inr (Nat.repr (lastCandidateRank v + i + 1) ++ "a")) ++
        (v.competedSchwinger.filter
          (fun s => decide (s.total ≤ kranzScoreThreshold v))).map Sum.inl := by
    unfold tableRows bodyRows placeholderRows
    rw [if_pos hs]
    simp only [List.filterMap_append, entries_walkRows, entries_missingLines,
      entries_placeholderRowsFrom, List.append_nil, Nat.zero_add, hA]
    rw [kranzAnwaerter, rest, if_pos hs, if_pos hs]
  have hcount : (tableRows v).countP isPlaceholder =
      maxKranzRank v - v.competedSchwinger.countP
        (fun s => decide (s.total > kranzScoreThreshold v)) := by
    rw [countP_isPlaceholder, hentries]
    simp [List.filter_append, List.filter_map, Function.comp_def]
  refine ⟨tableRows v, renderTableRows_eq v, hentries, hcount, ?_, ?_⟩
  · have hiff : 0 < (tableRows v).countP isPlaceholder ↔
        v.competedSchwinger.countP (fun s => decide (s.total > kranzScoreThreshold v))
          < maxKranzRank v := by
      rw [hcount]; omega
    rw [← hiff]
    constructor
    · rintro ⟨label, hmem⟩
      exact List.countP_pos_iff.2 ⟨_, hmem, rfl⟩
    · intro hpos
      obtain ⟨row, hmem, hrow⟩ := List.countP_pos_iff.1 hpos
      cases row with
      | empty label => exact ⟨label, hmem⟩
      | line k t => cases hrow
      | schwinger s d => cases hrow
  · unfold kranzScoreThreshold
    cases v.festivalType <;> simp

/-- C9 at the sample final-round view: two candidates, six placeholders "3a" to "8a". -/
theorem C9_placeholder_rows_witness :
    ((sampleKranzView.festivalType = .normal ∧ sampleKranzView.currentRound = 6) ∨
      (sampleKranzView.festivalType = .esaf ∧ sampleKranzView.currentRound = 8)) ∧
    ∃ rows, renderTableRows sampleKranzView = some rows ∧
      rows.countP isPlaceholder = maxKranzRank sampleKranzView -
        sampleKranzView.competedSchwinger.countP
          (fun s => decide (s.total > kranzScoreThreshold sampleKranzView)) := by
  obtain ⟨rows, h1, _, h3, _⟩ := C9_placeholder_rows sampleKranzView (Or.inl ⟨rfl, rfl⟩)
  exact ⟨Or.inl ⟨rfl, rfl⟩, rows, h1, h3⟩
/-! ## C6: cutoff dividers -/

theorem AllAbove.join {kind : LineKind} {x : ℚ} {rows1 rows2 : List Row}
    (h1 : AllAbove kind x rows1) (h2 : AllAbove kind x rows2) :
    AllAbove kind x (rows1 ++ rows2) := by
  refine ⟨by rw [hasLine_append, h1.1, h2.1]; rfl, ?_⟩
  intro s d hmem
  rcases List.mem_append.1 hmem with h | h
  · exact h1.2 s d h
  · exact h2.2 s d h

theorem AllBelow.concat {kind : LineKind} {x : ℚ} {rows1 rows2 : List Row}
    (h1 : AllBelow kind x rows1) (h2 : AllBelow kind x rows2) :
    AllBelow kind x (rows1 ++ rows2) := by
  refine ⟨by rw [hasLine_append, h1.1, h2.1]; rfl, ?_⟩
  intro s d hmem
  rcases List.mem_append.1 hmem with h | h
  · exact h1.2 s d h
  · exact h2.2 s d h

theorem PlacedBefore.append_below {kind : LineKind} {x : ℚ} {rows1 rows2 : List Row}
    (h1 : PlacedBefore kind x rows1) (h2 : AllBelow kind x rows2) :
    PlacedBefore kind x (rows1 ++ rows2) := by
  obtain ⟨before, text, s, d, tail, hrows, habove, hbelow⟩ := h1
  refine ⟨before, text, s, d, tail ++ rows2, by rw [hrows]; simp, habove, ?_⟩
  have := hbelow.concat h2
  simpa using this

theorem PlacedBefore.above_append {kind : LineKind} {x : ℚ} {rows1 rows2 : List Row}
    (h1 : AllAbove kind x rows1) (h2 : PlacedBefore kind x rows2) :
    PlacedBefore kind x (rows1 ++ rows2) := by
  obtain ⟨before, text, s, d, tail, hrows, habove, hbelow⟩ := h2
  exact ⟨rows1 ++ before, text, s, d, tail, by rw [hrows]; simp, h1.join habove, hbelow⟩

theorem PlacedBefore.has_divider {kind : LineKind} {x : ℚ} {rows : List Row}
    (h : PlacedBefore kind x rows) : hasLine kind rows = true := by
  obtain ⟨before, text, s, d, tail, hrows, _, _⟩ := h
  rw [hrows, hasLine_append]
  simp [hasLine, isLineOf]

theorem PlacedBefore.dividerPlaced {kind : LineKind} {x : ℚ} {rows : List Row}
    (h : PlacedBefore kind x rows) : DividerPlaced kind x rows := by
  obtain ⟨before, text, s, d, tail, hrows, habove, hbelow⟩ := h
  exact ⟨before, text, _, hrows, habove, hbelow, Or.inl ⟨s, d, tail, rfl⟩⟩
theorem NeutralFor.allAbove {kind : LineKind} {rows : List Row} (h : NeutralFor kind rows)
    (x : ℚ) : AllAbove kind x rows := by
  refine ⟨?_, fun s d hmem => absurd rfl ((h _ hmem).2 s d)⟩
  unfold hasLine
  rw [List.any_eq_false]
  intro row hmem
  simp [(h row hmem).1]

theorem NeutralFor.allBelow {kind : LineKind} {rows : List Row} (h : NeutralFor kind rows)
    (x : ℚ) : AllBelow kind x rows := by
  refine ⟨(h.allAbove x).1, fun s d hmem => absurd rfl ((h _ hmem).2 s d)⟩

theorem NeutralFor.both {kind : LineKind} {rows1 rows2 : List Row}
    (h1 : NeutralFor kind rows1) (h2 : NeutralFor kind rows2) :
    NeutralFor kind (rows1 ++ rows2) := by
  intro row hmem
  rcases List.mem_append.1 hmem with h | h
  · exact h1 row h
  · exact h2 row h

theorem neutralFor_nil (kind : LineKind) : NeutralFor kind [] := by
  intro row hmem
  cases hmem

theorem cutoffShown_cases {v : RanglisteView} {kind : LineKind}
    (h : cutoffShown v kind = true) :
    kind = .ausstich ∨ kind = .kranzausstich ∨ kind = .kranz := by
  cases kind <;> simp [cutoffShown] at h ⊢

theorem neutralFor_schlussgangLines (v : RanglisteView) {kind : LineKind}
    (hk : kind = .ausstich ∨ kind = .kranzausstich ∨ kind = .kranz) (rank : Nat)
    (isLast : Bool) : NeutralFor kind (schlussgangLines v rank isLast) := by
  unfold schlussgangLines
  intro row hmem
  rcases hk with rfl | rfl | rfl <;> split_ifs at hmem <;> simp_all [isLineOf]

theorem neutralFor_countLines (v : RanglisteView) {kind : LineKind}
    (hk : kind = .ausstich ∨ kind = .kranzausstich ∨ kind = .kranz) (personIndex : Nat) :
    NeutralFor kind (countLines v personIndex) := by
  unfold countLines
  intro row hmem
  rcases hk with rfl | rfl | rfl <;> split_ifs at hmem <;> simp at hmem <;>
    (try rcases hmem with hmem | hmem) <;> simp_all [isLineOf]

theorem neutralFor_placeholderRowsFrom (v : RanglisteView) {kind : LineKind}
    (hk : kind = .ausstich ∨ kind = .kranzausstich ∨ kind = .kranz) (lastRank : Nat) :
    ∀ remaining i, NeutralFor kind (placeholderRowsFrom v lastRank remaining i) := by
  intro remaining
  induction remaining with
  | zero => intro i; exact neutralFor_nil kind
  | succ remaining ih =>
    intro i
    rw [placeholderRowsFrom, ← List.singleton_append]
    refine NeutralFor.both ?_ ((neutralFor_countLines v hk _).both (ih (i + 1)))
    intro row hmem
    simp at hmem
    simp [hmem, isLineOf]

theorem neutralFor_placeholderRows (v : RanglisteView) {kind : LineKind}
    (hk : kind = .ausstich ∨ kind = .kranzausstich ∨ kind = .kranz) :
    NeutralFor kind (placeholderRows v) := by
  unfold placeholderRows
  split_ifs
  · exact neutralFor_placeholderRowsFrom v hk _ _ _
  · exact neutralFor_nil kind

theorem show_exclusive (v : RanglisteView) :
    (showAusstich v = true → showKranzausstich v = false ∧ showKranz v = false) ∧
    (showKranzausstich v = true → showAusstich v = false ∧ showKranz v = false) ∧
    (showKranz v = true → showAusstich v = false ∧ showKranzausstich v = false) := by
  simp only [showAusstich, showKranzausstich, showKranz]
  cases v.festivalType <;> simp <;> omega

theorem cutoffLines_eq (v : RanglisteView) (kind : LineKind)
    (hshown : cutoffShown v kind = true) (lastTotal : Option ℚ) (total : ℚ) :
    cutoffLines v lastTotal total =
      if crossesLine (cutoffLinie v kind) lastTotal total then
        [Row.line kind (cutoffText (cutoffLabel kind) (cutoffLinie v kind))]
      else [] := by
  unfold cutoffLines
  obtain ⟨e1, e2, e3⟩ := show_exclusive v
  cases kind <;> simp only [cutoffShown, Bool.false_eq_true] at hshown
  · simp [hshown, (e1 hshown).1, (e1 hshown).2, cutoffLinie, cutoffLabel]
  · simp [hshown, (e2 hshown).1, (e2 hshown).2, cutoffLinie, cutoffLabel]
  · simp [hshown, (e3 hshown).1, (e3 hshown).2, cutoffLinie, cutoffLabel]

theorem crossesLine_iff {linie : String} {x : ℚ} (hlinie : linie ≠ "0")
    (hparse : parseFloat linie = some x) (lastTotal : Option ℚ) (total : ℚ) :
    crossesLine linie lastTotal total = true ↔ LastAbove x lastTotal ∧ total < x := by
  unfold crossesLine LastAbove
  rw [hparse]
  cases lastTotal with
  | none => simp [hlinie]
  | some last => simp [hlinie]
theorem fullList_sorted (v : RanglisteView) (h : SortedByTotal v.competedSchwinger) :
    SortedByTotal (fullList v) := by
  unfold fullList kranzAnwaerter rest
  by_cases hs : showKranz v = true
  · rw [if_pos hs, if_pos hs]
    unfold SortedByTotal at h ⊢
    rw [List.pairwise_append]
    refine ⟨h.sublist (List.filter_sublist _), h.sublist (List.filter_sublist _), ?_⟩
    intro a ha b hb
    have ha := (List.mem_filter.1 ha).2
    have hb := (List.mem_filter.1 hb).2
    simp only [decide_eq_true_eq] at ha hb
    exact le_of_lt (lt_of_le_of_lt hb ha)
  · rw [if_neg hs, if_neg hs, List.append_nil]
    exact h

theorem neutralFor_post (v : RanglisteView) {kind : LineKind}
    (hk : kind = .ausstich ∨ kind = .kranzausstich ∨ kind = .kranz) (isAnwaerter : Bool)
    (g : Nat) (s : Schwinger) :
    NeutralFor kind
      (schlussgangLines v (rankDisplayAt (fullList v) g).rank (isLastOfRank (fullList v) g s) ++
        (if showKranz v && isLastOfRank (fullList v) g s && isAnwaerter then
          countLines v (g + 1) else [])) := by
  refine (neutralFor_schlussgangLines v hk _ _).both ?_
  split_ifs
  · exact neutralFor_countLines v hk _
  · exact neutralFor_nil kind

theorem allAbove_row (kind : LineKind) (x : ℚ) (s : Schwinger) (d : String)
    (h : x ≤ s.total) : AllAbove kind x [Row.schwinger s d] := by
  refine ⟨by simp [hasLine, isLineOf], ?_⟩
  intro s' d' hmem
  simp at hmem
  rw [hmem.1]
  exact h

theorem allBelow_row (kind : LineKind) (x : ℚ) (s : Schwinger) (d : String)
    (h : s.total < x) : AllBelow kind x [Row.schwinger s d] := by
  refine ⟨by simp [hasLine, isLineOf], ?_⟩
  intro s' d' hmem
  simp at hmem
  rw [hmem.1]
  exact h

theorem rowBlock_above {v : RanglisteView} {kind : LineKind} {x : ℚ}
    (hc : CutoffSetting v kind x) (isAnwaerter : Bool) (g : Nat) (s : Schwinger)
    (hs : x ≤ s.total) : AllAbove kind x (rowBlock v isAnwaerter g s) := by
  have hk := cutoffShown_cases hc.shown
  have hno : crossesLine (cutoffLinie v kind) (prevTotal (fullList v) g) s.total = false := by
    rw [Bool.eq_false_iff]
    intro h
    exact absurd ((crossesLine_iff hc.selected hc.value _ _).1 h).2 (not_lt.2 hs)
  unfold rowBlock
  rw [cutoffLines_eq v kind hc.shown, hno, List.append_assoc]
  simp only [Bool.false_eq_true, if_false, List.nil_append]
  exact (allAbove_row kind x s _ hs).join ((neutralFor_post v hk isAnwaerter g s).allAbove x)

theorem rowBlock_below {v : RanglisteView} {kind : LineKind} {x : ℚ}
    (hc : CutoffSetting v kind x) (isAnwaerter : Bool) (g : Nat) (s : Schwinger)
    (hlast : LastBelow x (prevTotal (fullList v) g)) (hs : s.total < x) :
    AllBelow kind x (rowBlock v isAnwaerter g s) := by
  have hk := cutoffShown_cases hc.shown
  have hno : crossesLine (cutoffLinie v kind) (prevTotal (fullList v) g) s.total = false := by
    rw [Bool.eq_false_iff]
    intro h
    obtain ⟨last, hl, hlt⟩ := hlast
    rcases ((crossesLine_iff hc.selected hc.value _ _).1 h).1 with hn | ⟨l, hl2, hle⟩
    · rw [hl] at hn; cases hn
    · rw [hl] at hl2
      cases hl2
      exact absurd hlt (not_lt.2 hle)
  unfold rowBlock
  rw [cutoffLines_eq v kind hc.shown, hno, List.append_assoc]
  simp only [Bool.false_eq_true, if_false, List.nil_append]
  exact (allBelow_row kind x s _ hs).concat ((neutralFor_post v hk isAnwaerter g s).allBelow x)

theorem rowBlock_crossing {v : RanglisteView} {kind : LineKind} {x : ℚ}
    (hc : CutoffSetting v kind x) (isAnwaerter : Bool) (g : Nat) (s : Schwinger)
    (hlast : LastAbove x (prevTotal (fullList v) g)) (hs : s.total < x) :
    PlacedBefore kind x (rowBlock v isAnwaerter g s) := by
  have hk := cutoffShown_cases hc.shown
  have hyes : crossesLine (cutoffLinie v kind) (prevTotal (fullList v) g) s.total = true :=
    (crossesLine_iff hc.selected hc.value _ _).2 ⟨hlast, hs⟩
  unfold rowBlock
  rw [cutoffLines_eq v kind hc.shown, hyes, List.append_assoc, List.append_assoc]
  simp only [if_true, List.singleton_append]
  refine ⟨[], _, s, _, _, rfl, (neutralFor_nil kind).allAbove x, ?_⟩
  have := (allBelow_row kind x s (rankDisplayAt (fullList v) g).display hs).concat
    ((neutralFor_post v hk isAnwaerter g s).allBelow x)
  simpa using this
theorem prevTotal_succ_of_getElem? {list : List Schwinger} {g : Nat} {s : Schwinger}
    (h : list[g]? = some s) : prevTotal list (g + 1) = some s.total := by
  rw [prevTotal, h]
  rfl

theorem total_lt_of_lastBelow {list : List Schwinger} (hsorted : SortedByTotal list) {x : ℚ}
    {g : Nat} {s : Schwinger} (hs : list[g]? = some s)
    (hlast : LastBelow x (prevTotal list g)) : s.total < x := by
  obtain ⟨last, hl, hlt⟩ := hlast
  cases g with
  | zero => simp [prevTotal] at hl
  | succ g =>
    have hg : g + 1 < list.length := by
      by_contra hcon
      rw [List.getElem?_eq_none (by omega)] at hs
      cases hs
    rw [prevTotal, List.getElem?_eq_getElem (by omega)] at hl
    rw [List.getElem?_eq_getElem hg] at hs
    simp only [Option.map_some', Option.some.injEq] at hl hs
    have := hsorted.le_of_le (i := g) (j := g + 1) (by omega) (by omega) hg
    rw [hs, hl] at this
    exact lt_of_le_of_lt this hlt

theorem walkRows_below {v : RanglisteView} {kind : LineKind} {x : ℚ}
    (hc : CutoffSetting v kind x) (isAnwaerter : Bool) :
    ∀ (list : List Schwinger) (g : Nat),
      (∀ j, j < list.length → (fullList v)[g + j]? = list[j]?) →
      LastBelow x (prevTotal (fullList v) g) →
      AllBelow kind x (walkRows v isAnwaerter list g) := by
  intro list
  induction list with
  | nil => intro g _ _; exact (neutralFor_nil kind).allBelow x
  | cons s list ih =>
    intro g hseg hlast
    have hs : (fullList v)[g]? = some s := by simpa using hseg 0 (by simp)
    have hlt := total_lt_of_lastBelow (fullList_sorted v hc.sorted) hs hlast
    have hseg' : ∀ j, j < list.length → (fullList v)[g + 1 + j]? = list[j]? := by
      intro j hj
      have := hseg (j + 1) (by simp; omega)
      rw [List.getElem?_cons_succ] at this
      rw [← this]
      congr 1
      omega
    rw [walkRows]
    exact (rowBlock_below hc isAnwaerter g s hlast hlt).concat
      (ih (g + 1) hseg' ⟨s.total, prevTotal_succ_of_getElem? hs, hlt⟩)

theorem walkRows_above {v : RanglisteView} {kind : LineKind} {x : ℚ}
    (hc : CutoffSetting v kind x) (isAnwaerter : Bool) :
    ∀ (list : List Schwinger) (g : Nat),
      (∀ j, j < list.length → (fullList v)[g + j]? = list[j]?) →
      LastAbove x (prevTotal (fullList v) g) →
      (AllAbove kind x (walkRows v isAnwaerter list g) ∧
        LastAbove x (prevTotal (fullList v) (g + list.length))) ∨
      (PlacedBefore kind x (walkRows v isAnwaerter list g) ∧
        LastBelow x (prevTotal (fullList v) (g + list.length))) := by
  intro list
  induction list with
  | nil =>
    intro g _ hlast
    exact Or.inl ⟨(neutralFor_nil kind).allAbove x, by simpa using hlast⟩
  | cons s list ih =>
    intro g hseg hlast
    have hs : (fullList v)[g]? = some s := by simpa using hseg 0 (by simp)
    have hseg' : ∀ j, j < list.length → (fullList v)[g + 1 + j]? = list[j]? := by
      intro j hj
      have := hseg (j + 1) (by simp; omega)
      rw [List.getElem?_cons_succ] at this
      rw [← this]
      congr 1
      omega
    have hlen : g + (s :: list).length = g + 1 + list.length := by simp; omega
    rw [walkRows, hlen]
    by_cases hx : x ≤ s.total
    · rcases ih (g + 1) hseg' (Or.inr ⟨s.total, prevTotal_succ_of_getElem? hs, hx⟩) with
        ⟨h1, h2⟩ | ⟨h1, h2⟩
      · exact Or.inl ⟨(rowBlock_above hc isAnwaerter g s hx).join h1, h2⟩
      · exact Or.inr ⟨PlacedBefore.above_append (rowBlock_above hc isAnwaerter g s hx) h1, h2⟩
    · have hlt : s.total < x := not_le.1 hx
      have hbelow : LastBelow x (prevTotal (fullList v) (g + 1)) :=
        ⟨s.total, prevTotal_succ_of_getElem? hs, hlt⟩
      have htail := walkRows_below hc isAnwaerter list (g + 1) hseg' hbelow
      refine Or.inr ⟨(rowBlock_crossing hc isAnwaerter g s hlast hlt).append_below htail, ?_⟩
      clear htail ih
      -- the last total stays below `x` to the end of a sorted list
      have hsorted := fullList_sorted v hc.sorted
      cases hl : list.length with
      | zero => simpa using hbelow
      | succ n =>
        have hlastElem := hseg' n (by omega)
        have hn : n < list.length := by omega
        rw [List.getElem?_eq_getElem hn] at hlastElem
        have hidx : g + 1 + n < (fullList v).length := by
          by_contra hcon
          rw [List.getElem?_eq_none (by omega)] at hlastElem
          cases hlastElem
        have hg : g < (fullList v).length := by omega
        rw [List.getElem?_eq_getElem hg] at hs
        simp only [Option.some.injEq] at hs
        refine ⟨(fullList v)[g + 1 + n].total, ?_, ?_⟩
        · rw [show g + 1 + (n + 1) = (g + 1 + n) + 1 by omega, prevTotal,
            List.getElem?_eq_getElem hidx]
          rfl
        · have := hsorted.le_of_le (i := g) (j := g + 1 + n) (by omega) hg hidx
          rw [hs] at this
          exact lt_of_le_of_lt this hlt
theorem missingLines_of_placed {v : RanglisteView} {kind : LineKind} {x : ℚ}
    (hc : CutoffSetting v kind x) (body : List Row) (hbody : hasLine kind body = true) :
    NeutralFor kind (missingLines v body) := by
  obtain ⟨e1, e2, e3⟩ := show_exclusive v
  have hshown := hc.shown
  unfold missingLines
  intro row hmem
  cases kind <;> simp only [cutoffShown, Bool.false_eq_true] at hshown
  · simp [hshown, (e1 hshown).1, (e1 hshown).2, hbody] at hmem
  · simp [hshown, (e2 hshown).1, (e2 hshown).2, hbody] at hmem
  · simp only [hshown, (e3 hshown).1, (e3 hshown).2, hbody, Bool.false_and, Bool.true_and,
      Bool.not_true, Bool.and_false, Bool.false_eq_true, if_false, List.nil_append,
      List.mem_append] at hmem
    rcases hmem with hmem | hmem <;> split_ifs at hmem <;> simp_all [isLineOf]

theorem missingLines_of_pending {v : RanglisteView} {kind : LineKind} {x : ℚ}
    (hc : CutoffSetting v kind x) (body : List Row) (hbody : hasLine kind body = false) :
    ∃ others, missingLines v body =
        Row.line kind (cutoffText (cutoffLabel kind) (cutoffLinie v kind)) :: others ∧
      NeutralFor kind others ∧
      (∀ row ∈ others, ∃ t, row = Row.line .minKranz t ∨ row = Row.line .maxKranz t) ∧
      (kind ≠ .kranz → others = []) := by
  obtain ⟨e1, e2, e3⟩ := show_exclusive v
  have hshown := hc.shown
  have hsel := hc.selected
  unfold missingLines
  cases kind <;> simp only [cutoffShown, Bool.false_eq_true] at hshown
  · refine ⟨[], ?_, neutralFor_nil _, by simp, fun _ => rfl⟩
    simp only [cutoffLinie] at hsel
    simp [hshown, (e1 hshown).1, (e1 hshown).2, hbody, hsel, cutoffLinie, cutoffLabel]
  · refine ⟨[], ?_, neutralFor_nil _, by simp, fun _ => rfl⟩
    simp only [cutoffLinie] at hsel
    simp [hshown, (e2 hshown).1, (e2 hshown).2, hbody, hsel, cutoffLinie, cutoffLabel]
  · simp only [cutoffLinie] at hsel
    refine ⟨(if showKranz v && !hasLine .maxKranz body then
          [Row.line .maxKranz (countText "Max. Kränze" (maxKranzRank v))] else []) ++
        (if showKranz v && !hasLine .minKranz body then
          [Row.line .minKranz (countText "Min. Kränze" (minKranzRank v))] else []),
        ?_, ?_, ?_, fun h => absurd rfl h⟩
    · simp [hshown, (e3 hshown).1, (e3 hshown).2, hbody, hsel, cutoffLinie, cutoffLabel]
    · intro row hmem
      rcases List.mem_append.1 hmem with hmem | hmem <;> split_ifs at hmem <;>
        simp_all [isLineOf]
    · intro row hmem
      rcases List.mem_append.1 hmem with hmem | hmem <;> split_ifs at hmem <;>
        simp_all

theorem tableRows_dividerPlaced {v : RanglisteView} {kind : LineKind} {x : ℚ}
    (hc : CutoffSetting v kind x) : DividerPlaced kind x (tableRows v) := by
  have hk := cutoffShown_cases hc.shown
  have hanw := walkRows_above hc true (kranzAnwaerter v) 0
    (fun j hj => by
      unfold fullList
      rw [Nat.zero_add, List.getElem?_append_left hj]) (Or.inl rfl)
  have hsegRest : ∀ j, j < (rest v).length →
      (fullList v)[(kranzAnwaerter v).length + j]? = (rest v)[j]? := by
    intro j hj
    unfold fullList
    rw [List.getElem?_append_right (by omega)]
    congr 1
    omega
  have hph := neutralFor_placeholderRows v hk
  rw [Nat.zero_add] at hanw
  have hbody : AllAbove kind x (bodyRows v) ∨ PlacedBefore kind x (bodyRows v) := by
    unfold bodyRows
    rcases hanw with ⟨h1, h2⟩ | ⟨h1, h2⟩
    · rcases walkRows_above hc false (rest v) _ hsegRest h2 with ⟨h3, _⟩ | ⟨h3, _⟩
      · exact Or.inl ((h1.join (hph.allAbove x)).join h3)
      · exact Or.inr (PlacedBefore.above_append (h1.join (hph.allAbove x)) h3)
    · have h3 := walkRows_below hc false (rest v) _ hsegRest h2
      exact Or.inr ((h1.append_below (hph.allBelow x)).append_below h3)
  unfold tableRows
  rcases hbody with habove | hplaced
  · obtain ⟨others, hmissing, hneutral, hlines, hlast⟩ :=
      missingLines_of_pending hc _ habove.1
    rw [hmissing]
    exact ⟨bodyRows v, _, others, rfl, habove, hneutral.allBelow x, Or.inr ⟨hlines, hlast⟩⟩
  · exact (hplaced.append_below
      ((missingLines_of_placed hc _ hplaced.has_divider).allBelow x)).dividerPlaced

theorem DividerPlaced.lineCount_eq_one {kind : LineKind} {x : ℚ} {rows : List Row}
    (h : DividerPlaced kind x rows) : lineCount kind rows = 1 := by
  obtain ⟨before, text, after, hrows, habove, hbelow, _⟩ := h
  have h1 := habove.1
  have h2 := hbelow.1
  rw [hasLine_eq_decide] at h1 h2
  simp only [decide_eq_false_iff_not, not_lt, Nat.le_zero] at h1 h2
  rw [hrows, lineCount_append, ← List.singleton_append, lineCount_append, h1, h2]
  simp [lineCount, isLineOf]

/-- C6 (amended). Cutoff divider placement: for each of the cutoffs Ausstich, Kranzausstich
and Kranz, when the cutoff is active for the festival type and round and its selected value is
not "0" and reads as the number `x`, then for every competed list sorted by total in
non-increasing order the rows built by `renderTableRows` contain the divider of that cutoff
exactly once: all competitor rows before it have a total of at least `x`, all competitor rows
after it a total below `x`, and it stands directly before a competitor row or, when no total
is below `x`, after all competitor and placeholder rows; there it is the last row for
Ausstich and Kranzausstich, and for Kranz only "Max. Kränze" and "Min. Kränze" dividers can
follow it. -/
theorem C6_cutoff_divider (v : RanglisteView) (kind : LineKind) (x : ℚ)
    (hshown : cutoffShown v kind = true) (hselected : cutoffLinie v kind ≠ "0")
    (hvalue : parseFloat (cutoffLinie v kind) = some x)
    (hsorted : SortedByTotal v.competedSchwinger) :
    ∃ rows, renderTableRows v = some rows ∧ DividerPlaced kind x rows ∧
      lineCount kind rows = 1 := by
  have hplaced := tableRows_dividerPlaced
    (CutoffSetting.mk hshown hselected hvalue hsorted : CutoffSetting v kind x)
  exact ⟨tableRows v, renderTableRows_eq v, hplaced, hplaced.lineCount_eq_one⟩

theorem sampleAusstichView_sorted : SortedByTotal sampleAusstichView.competedSchwinger := by
  unfold SortedByTotal sampleAusstichView sampleSchwinger
  simp only [List.pairwise_cons, List.mem_cons, List.mem_singleton, List.not_mem_nil,
    forall_eq_or_imp, forall_eq, List.Pairwise.nil, and_true]
  norm_num

/-- C6 at the sample round-4 view with the cutoff 35.75. -/
theorem C6_cutoff_divider_witness :
    cutoffShown sampleAusstichView .ausstich = true ∧
    cutoffLinie sampleAusstichView .ausstich ≠ "0" ∧
    parseFloat (cutoffLinie sampleAusstichView .ausstich) = some 35.75 ∧
    SortedByTotal sampleAusstichView.competedSchwinger ∧
    ∃ rows, renderTableRows sampleAusstichView = some rows ∧
      DividerPlaced .ausstich 35.75 rows ∧ lineCount .ausstich rows = 1 :=
  ⟨by decide, by decide, by decide!, sampleAusstichView_sorted,
    C6_cutoff_divider sampleAusstichView .ausstich 35.75 (by decide) (by decide) (by decide!)
      sampleAusstichView_sorted⟩

theorem sampleAusstichView_rows :
    renderTableRows sampleAusstichView = some
      [.schwinger (sampleSchwinger "1" 38) "1a", .schwinger (sampleSchwinger "2" 36) "2a",
       .schwinger (sampleSchwinger "3" 35.75) "3a",
       .line .ausstich "--- Ausstichlinie (35.75) ---",
       .schwinger (sampleSchwinger "4" 35.50) "4a", .schwinger (sampleSchwinger "5" 30) "5a"] := by
  decide!
theorem sampleTiedKranzView_sorted : SortedByTotal sampleTiedKranzView.competedSchwinger := by
  unfold SortedByTotal sampleTiedKranzView sampleSchwinger
  simp only [List.pairwise_cons, List.mem_cons, List.mem_singleton, List.not_mem_nil,
    forall_eq_or_imp, forall_eq, List.Pairwise.nil, and_true]
  norm_num

theorem dropWhile_not_isLineOf (kind : LineKind) (text : String) (after : List Row) :
    ∀ before : List Row, hasLine kind before = false →
      (before ++ Row.line kind text :: after).dropWhile (fun row => !isLineOf kind row) =
        Row.line kind text :: after := by
  intro before
  induction before with
  | nil => intro _; simp [isLineOf]
  | cons b before ih =>
    intro h
    unfold hasLine at h
    rw [List.any_cons, Bool.or_eq_false_iff] at h
    rw [List.cons_append, List.dropWhile_cons]
    simp only [h.1, Bool.not_false, if_true]
    exact ih h.2

/-- C6 as stated fails in the Kranz view: with 20 competitors and four results, all at least
56.50 and the last three tied, no competitor is below the cutoff, yet the Kranz divider is
not after all rows: the "Min. Kränze" divider follows it. -/
theorem C6_cutoff_divider_counterexample :
    cutoffShown sampleTiedKranzView .kranz = true ∧
    cutoffLinie sampleTiedKranzView .kranz ≠ "0" ∧
    parseFloat (cutoffLinie sampleTiedKranzView .kranz) = some 56.50 ∧
    SortedByTotal sampleTiedKranzView.competedSchwinger ∧
    renderTableRows sampleTiedKranzView = some
      [.schwinger (sampleSchwinger "1" 58) "1a", .schwinger (sampleSchwinger "2" 57) "2a",
       .schwinger (sampleSchwinger "3" 57) "2b", .schwinger (sampleSchwinger "4" 57) "2c",
       .line .maxKranz "--- Max. Kränze (4) ---",
       .line .kranz "--- Kranzlinie (56.50) ---",
       .line .minKranz "--- Min. Kränze (3) ---"] ∧
    ¬DividerPlacedLast .kranz 56.50
      [.schwinger (sampleSchwinger "1" 58) "1a", .schwinger (sampleSchwinger "2" 57) "2a",
       .schwinger (sampleSchwinger "3" 57) "2b", .schwinger (sampleSchwinger "4" 57) "2c",
       .line .maxKranz "--- Max. Kränze (4) ---",
       .line .kranz "--- Kranzlinie (56.50) ---",
       .line .minKranz "--- Min. Kränze (3) ---"] := by
  refine ⟨by decide, by decide, by decide!, sampleTiedKranzView_sorted, by decide!, ?_⟩
  rintro ⟨before, text, after, hrows, habove, _, hcase⟩
  have hdrop := dropWhile_not_isLineOf .kranz text after before habove.1
  rw [← hrows] at hdrop
  have hafter : after = [Row.line .minKranz "--- Min. Kränze (3) ---"] := by
    simp [List.dropWhile, isLineOf] at hdrop
    exact hdrop.2.symm
  rw [hafter] at hcase
  rcases hcase with ⟨s, d, tail, h⟩ | h
  · cases h
  · cases h
/-! ## C11: when a save fails -/

theorem mapGet_mapSet {β : Type} (m : List (String × β)) (key key' : String) (value : β) :
    mapGet (mapSet m key value) key' = if key' = key then some value else mapGet m key' := by
  induction m with
  | nil =>
    by_cases h : key' = key
    · simp [mapSet, mapGet, h]
    · have h' : ¬key = key' := fun e => h e.symm
      simp [mapSet, mapGet, h, h']
  | cons kv rest ih =>
    obtain ⟨k, v⟩ := kv
    unfold mapSet
    by_cases hk : k = key
    · subst hk
      by_cases h : key' = k
      · subst h; simp [mapGet]
      · have h' : ¬k = key' := fun e => h e.symm
        simp [mapGet, h, h']
    · simp only [hk, if_false]
      unfold mapGet
      by_cases h : k = key'
      · subst h
        simp [hk]
      · simp only [h, if_false]
        exact ih

theorem arraySet_getElem?_self (array : List (Option Note)) (i : Nat) (value : Option Note) :
    (arraySet array i value)[i]? = some value := by
  unfold arraySet
  split_ifs with h
  · simp [List.getElem?_set, h]
  · have hlen : (array ++ List.replicate (i - array.length) none).length = i := by
      simp; omega
    rw [List.getElem?_append_right (by omega), hlen]
    simp

theorem arraySet_getElem?_ne (array : List (Option Note)) (i j : Nat) (value : Option Note)
    (hij : j ≠ i) (hj : j < array.length) : (arraySet array i value)[j]? = array[j]? := by
  unfold arraySet
  split_ifs with h
  · rw [List.getElem?_set_ne (fun e => hij e.symm)]
  · rw [List.append_assoc, List.getElem?_append_left hj]

theorem writeSlot_slot (currentRound : Nat) (schwinger : Schwinger) (slot : Option Note) :
    (writeSlot currentRound schwinger slot).punkteGaenge[currentRound - 1]? = some slot := by
  simp only [writeSlot]
  exact arraySet_getElem?_self _ _ _

theorem writeSlot_total (currentRound : Nat) (schwinger : Schwinger) (slot : Option Note) :
    (writeSlot currentRound schwinger slot).total =
      recomputeTotal (writeSlot currentRound schwinger slot).punkteBasis
        (writeSlot currentRound schwinger slot).punkteGaenge := rfl

theorem updateSchwinger_known {currentRound : Nat} {data : SchwingerData}
    {nummer noteVal : String} {schwinger : Schwinger} {note : Note}
    (hget : mapGet data nummer = some schwinger) (hnote : parseNoteValue noteVal = some note) :
    updateSchwinger currentRound data nummer noteVal =
      .updated (mapSet data nummer (writeSlot currentRound schwinger (some note))) := by
  simp [updateSchwinger, hget, hnote]

theorem updateSchwinger_unknown {currentRound : Nat} {data : SchwingerData}
    {nummer noteVal : String} (hget : mapGet data nummer = none) :
    updateSchwinger currentRound data nummer noteVal = .thrown := by
  simp [updateSchwinger, hget]

theorem slotFilled_iff (currentRound : Nat) (data : Option Schwinger) :
    slotFilled currentRound data = true ↔
      ∃ s note, data = some s ∧ s.punkteGaenge[currentRound - 1]? = some (some note) := by
  unfold slotFilled
  cases data with
  | none => simp
  | some s =>
    cases h : s.punkteGaenge[currentRound - 1]? with
    | none => simp [h]
    | some slot =>
      cases slot with
      | none => simp [h]
      | some note => simp [h]

/-- The paths of `saveResult` for a bout slot with all four fields filled and both notes
readable as numbers. -/
theorem saveResult_filled {currentRound : Nat} {st : AppState} {platzId : Nat}
    {pairing : Pairing} {note1 note2 : Note}
    (hfind : st.pairings.find? (fun p => decide (p.id = platzId)) = some pairing)
    (hfilled : pairing.s1.nummer ≠ "" ∧ pairing.s2.nummer ≠ "" ∧ pairing.s1.note ≠ "" ∧
      pairing.s2.note ≠ "")
    (hnote1 : parseNoteValue pairing.s1.note = some note1)
    (hnote2 : parseNoteValue pairing.s2.note = some note2) :
    ((slotFilled currentRound (mapGet st.schwingerData pairing.s1.nummer) = true ∨
        slotFilled currentRound (mapGet st.schwingerData pairing.s2.nummer) = true) ∧
      ∃ st', saveResult currentRound st platzId = some (.occupied, st') ∧
        st'.schwingerData = st.schwingerData ∧ st'.history = st.history) ∨
    ((slotFilled currentRound (mapGet st.schwingerData pairing.s1.nummer) = false ∧
        slotFilled currentRound (mapGet st.schwingerData pairing.s2.nummer) = false) ∧
      (mapGet st.schwingerData pairing.s1.nummer = none ∨
        mapGet st.schwingerData pairing.s2.nummer = none) ∧
      ∃ st', saveResult currentRound st platzId = some (.thrown, st') ∧
        st'.schwingerData = st.schwingerData ∧
        st'.history = st.history ++ [st.schwingerData]) ∨
    ((slotFilled currentRound (mapGet st.schwingerData pairing.s1.nummer) = false ∧
        slotFilled currentRound (mapGet st.schwingerData pairing.s2.nummer) = false) ∧
      ∃ s1 s2 st', mapGet st.schwingerData pairing.s1.nummer = some s1 ∧
        mapGet (mapSet st.schwingerData pairing.s1.nummer
          (writeSlot currentRound s1 (some note1))) pairing.s2.nummer = some s2 ∧
        (mapGet st.schwingerData pairing.s2.nummer).isSome = true ∧
        saveResult currentRound st platzId = some (.saved, st') ∧
        st'.schwingerData =
          mapSet (mapSet st.schwingerData pairing.s1.nummer
            (writeSlot currentRound s1 (some note1))) pairing.s2.nummer
            (writeSlot currentRound s2 (some note2)) ∧
        st'.history = st.history ++ [st.schwingerData]) := by
  obtain ⟨hf1, hf2, hf3, hf4⟩ := hfilled
  have hguard : ¬(pairing.s1.nummer = "" ∨ pairing.s2.nummer = "" ∨ pairing.s1.note = "" ∨
      pairing.s2.note = "") := by
    rintro (h | h | h | h)
    exacts [hf1 h, hf2 h, hf3 h, hf4 h]
  unfold saveResult
  rw [hfind]
  simp only [hguard, if_false]
  by_cases hocc : (slotFilled currentRound (mapGet st.schwingerData pairing.s1.nummer) ||
      slotFilled currentRound (mapGet st.schwingerData pairing.s2.nummer)) = true
  · left
    simp only [hocc, if_true]
    exact ⟨by simpa using hocc, _, rfl, rfl, rfl⟩
  · right
    simp only [hocc, if_false]
    have hfree : slotFilled currentRound (mapGet st.schwingerData pairing.s1.nummer) = false ∧
        slotFilled currentRound (mapGet st.schwingerData pairing.s2.nummer) = false := by
      simpa using hocc
    cases hg1 : mapGet st.schwingerData pairing.s1.nummer with
    | none =>
      left
      rw [updateSchwinger_unknown hg1]
      exact ⟨by simpa [hg1] using hfree, Or.inl rfl, _, rfl, rfl, rfl⟩
    | some s1 =>
      rw [updateSchwinger_known hg1 hnote1]
      simp only
      cases hg2 : mapGet (mapSet st.schwingerData pairing.s1.nummer
          (writeSlot currentRound s1 (some note1))) pairing.s2.nummer with
      | none =>
        left
        rw [updateSchwinger_unknown hg2]
        rw [mapGet_mapSet] at hg2
        split_ifs at hg2 with he
        refine ⟨by simpa [hg1] using hfree, Or.inr hg2, _, rfl, rfl, rfl⟩
      | some s2 =>
        right
        rw [updateSchwinger_known hg2 hnote2]
        refine ⟨by simpa [hg1] using hfree, s1, s2, _, rfl, hg2, ?_, rfl, rfl, rfl⟩
        rw [mapGet_mapSet] at hg2
        split_ifs at hg2 with he
        · rw [he, hg1]; rfl
        · rw [hg2]; rfl

/-- Every non-empty entry of `NOTE_OPTIONS`, the texts a bout slot and the edit dialog offer,
reads as a number. -/
theorem parseNoteValue_NOTE_OPTIONS :
    ∀ noteVal ∈ NOTE_OPTIONS, (parseNoteValue noteVal).isSome = true := by
  decide!

/-- C11. Save fails exactly on an occupied slot or an unknown number: for a bout slot whose
four fields are filled (the note texts readable as numbers, as every entry of `NOTE_OPTIONS`
is), `saveResult` leaves the collection unchanged if and only if one of the two numbers is
not in the collection or one of the two competitors has a non-empty slot for the current
round; in every other case it reaches `setSchwingerData` with both slots of the current round
written and both totals recomputed. -/
theorem C11_save_fails_iff (currentRound : Nat) (st : AppState) (platzId : Nat)
    (pairing : Pairing) (note1 note2 : Note)
    (hfind : st.pairings.find? (fun p => decide (p.id = platzId)) = some pairing)
    (hfilled : pairing.s1.nummer ≠ "" ∧ pairing.s2.nummer ≠ "" ∧ pairing.s1.note ≠ "" ∧
      pairing.s2.note ≠ "")
    (hnote1 : parseNoteValue pairing.s1.note = some note1)
    (hnote2 : parseNoteValue pairing.s2.note = some note2) :
    ∃ outcome st', saveResult currentRound st platzId = some (outcome, st') ∧
      (st'.schwingerData = st.schwingerData ↔
        (mapGet st.schwingerData pairing.s1.nummer = none ∨
          mapGet st.schwingerData pairing.s2.nummer = none ∨
          slotFilled currentRound (mapGet st.schwingerData pairing.s1.nummer) = true ∨
          slotFilled currentRound (mapGet st.schwingerData pairing.s2.nummer) = true)) ∧
      (outcome = .saved ↔ st'.schwingerData ≠ st.schwingerData) ∧
      (outcome = .saved →
        ∃ s1 s2, mapGet st'.schwingerData pairing.s1.nummer = some s1 ∧
          mapGet st'.schwingerData pairing.s2.nummer = some s2 ∧
          s1.punkteGaenge[currentRound - 1]? =
            some (some (if pairing.s1.nummer = pairing.s2.nummer then note2 else note1)) ∧
          s2.punkteGaenge[currentRound - 1]? = some (some note2) ∧
          s1.total = recomputeTotal s1.punkteBasis s1.punkteGaenge ∧
          s2.total = recomputeTotal s2.punkteBasis s2.punkteGaenge) := by
  rcases saveResult_filled hfind hfilled hnote1 hnote2 with
    ⟨hocc, st', hsave, hdata, _⟩ | ⟨_, hunknown, st', hsave, hdata, _⟩ |
    ⟨⟨hfree1, hfree2⟩, s1, s2, st', hg1, hg2, hk2, hsave, hdata, _⟩
  · refine ⟨_, st', hsave, ⟨fun _ => Or.inr (Or.inr hocc), fun _ => hdata⟩, ?_, ?_⟩
    · exact ⟨fun h => (by cases h), fun h => absurd hdata h⟩
    · intro h; cases h
  · refine ⟨_, st', hsave, ⟨fun _ => ?_, fun _ => hdata⟩, ?_, ?_⟩
    · rcases hunknown with h | h
      · exact Or.inl h
      · exact Or.inr (Or.inl h)
    · exact ⟨fun h => (by cases h), fun h => absurd hdata h⟩
    · intro h; cases h
  · have hget2 : mapGet st'.schwingerData pairing.s2.nummer =
        some (writeSlot currentRound s2 (some note2)) := by
      rw [hdata, mapGet_mapSet, if_pos rfl]
    have hget1 : mapGet st'.schwingerData pairing.s1.nummer =
        some (if pairing.s1.nummer = pairing.s2.nummer then
          writeSlot currentRound s2 (some note2) else writeSlot currentRound s1 (some note1)) := by
      rw [hdata, mapGet_mapSet]
      split_ifs with he
      · rfl
      · rw [mapGet_mapSet, if_pos rfl]
    have hslot1 : ∃ s note, mapGet st'.schwingerData pairing.s1.nummer = some s ∧
        s.punkteGaenge[currentRound - 1]? = some (some note) := by
      rw [hget1]
      split_ifs
      · exact ⟨_, note2, rfl, writeSlot_slot _ _ _⟩
      · exact ⟨_, note1, rfl, writeSlot_slot _ _ _⟩
    have hchanged : st'.schwingerData ≠ st.schwingerData := by
      intro he
      rw [he] at hslot1
      have := (slotFilled_iff currentRound _).2 hslot1
      rw [hfree1] at this
      cases this
    refine ⟨_, st', hsave, ⟨fun h => absurd h hchanged, ?_⟩, ⟨fun _ => hchanged, fun _ => rfl⟩,
      fun _ => ?_⟩
    · rintro (h | h | h | h)
      · rw [hg1] at h; cases h
      · rw [h] at hk2; cases hk2
      · rw [hfree1] at h; cases h
      · rw [hfree2] at h; cases h
    · rw [hget1, hget2]
      by_cases he : pairing.s1.nummer = pairing.s2.nummer
      · simp only [he, if_true]
        exact ⟨_, _, rfl, rfl, writeSlot_slot _ _ _, writeSlot_slot _ _ _, rfl, rfl⟩
      · simp only [he, if_false]
        exact ⟨_, _, rfl, rfl, writeSlot_slot _ _ _, writeSlot_slot _ _ _, rfl, rfl⟩

/-- C11 on the scenario: the bout of `sampleState` has both competitors in the roster with
empty slots, so the save goes through. -/
theorem C11_save_fails_iff_witness :
    ∃ outcome st', saveResult 1 sampleState 0 = some (outcome, st') ∧
      (st'.schwingerData = sampleState.schwingerData ↔
        (mapGet sampleState.schwingerData "1" = none ∨
          mapGet sampleState.schwingerData "2" = none ∨
          slotFilled 1 (mapGet sampleState.schwingerData "1") = true ∨
          slotFilled 1 (mapGet sampleState.schwingerData "2") = true)) ∧
      (outcome = .saved ↔ st'.schwingerData ≠ sampleState.schwingerData) ∧
      (outcome = .saved →
        ∃ s1 s2, mapGet st'.schwingerData "1" = some s1 ∧
          mapGet st'.schwingerData "2" = some s2 ∧
          s1.punkteGaenge[1 - 1]? =
            some (some (if "1" = "2" then ⟨8.75, 8.75, "8.75"⟩ else ⟨9.75, 9.75, "9.75"⟩)) ∧
          s2.punkteGaenge[1 - 1]? = some (some ⟨8.75, 8.75, "8.75"⟩) ∧
          s1.total = recomputeTotal s1.punkteBasis s1.punkteGaenge ∧
          s2.total = recomputeTotal s2.punkteBasis s2.punkteGaenge) :=
  C11_save_fails_iff 1 sampleState 0 ⟨0, ⟨"1", "9.75"⟩, ⟨"2", "8.75"⟩, none⟩
    ⟨9.75, 9.75, "9.75"⟩ ⟨8.75, 8.75, "8.75"⟩ (by decide) (by decide) (by decide!) (by decide!)

/-! ## C12, C18: which operations push a snapshot -/

/-- What a call of `saveResult` that does not reach `setSchwingerData` leaves behind: the
collection is untouched; the history is untouched unless `updateSchwinger` threw, in which
case the collection has been pushed. -/
theorem saveResult_not_saved {currentRound : Nat} {st st' : AppState} {platzId : Nat}
    {outcome : SaveOutcome} (h : saveResult currentRound st platzId = some (outcome, st'))
    (hout : outcome ≠ .saved) :
    st'.schwingerData = st.schwingerData ∧
    (outcome ≠ .thrown → st'.history = st.history) ∧
    (outcome = .thrown → st'.history = st.history ++ [st.schwingerData]) := by
  unfold saveResult at h
  cases hp : st.pairings.find? (fun p => decide (p.id = platzId)) with
  | none =>
    rw [hp] at h
    simp only [Option.some.injEq, Prod.mk.injEq] at h
    obtain ⟨rfl, rfl⟩ := h
    exact ⟨rfl, fun _ => rfl, fun e => by cases e⟩
  | some pairing =>
    rw [hp] at h
    simp only at h
    split_ifs at h with h1 h2
    · simp only [Option.some.injEq, Prod.mk.injEq] at h
      obtain ⟨rfl, rfl⟩ := h
      exact ⟨rfl, fun _ => rfl, fun e => by cases e⟩
    · simp only [Option.some.injEq, Prod.mk.injEq] at h
      obtain ⟨rfl, rfl⟩ := h
      exact ⟨rfl, fun _ => rfl, fun e => by cases e⟩
    · cases hu1 : updateSchwinger currentRound st.schwingerData pairing.s1.nummer
          pairing.s1.note with
      | thrown =>
        rw [hu1] at h
        simp only [Option.some.injEq, Prod.mk.injEq] at h
        obtain ⟨rfl, rfl⟩ := h
        exact ⟨rfl, fun e => absurd rfl e, fun _ => rfl⟩
      | notANumber => rw [hu1] at h; simp at h
      | updated data1 =>
        rw [hu1] at h
        simp only at h
        cases hu2 : updateSchwinger currentRound data1 pairing.s2.nummer pairing.s2.note with
        | thrown =>
          rw [hu2] at h
          simp only [Option.some.injEq, Prod.mk.injEq] at h
          obtain ⟨rfl, rfl⟩ := h
          exact ⟨rfl, fun e => absurd rfl e, fun _ => rfl⟩
        | notANumber => rw [hu2] at h; simp at h
        | updated data2 =>
          rw [hu2] at h
          simp only [Option.some.injEq, Prod.mk.injEq] at h
          exact absurd h.1.symm hout

theorem handleEditSave_history {currentRound : Nat} {st st' : AppState}
    {nummer newNote : String} (h : handleEditSave currentRound st nummer newNote = some st') :
    st'.history = st.history := by
  unfold handleEditSave at h
  split at h
  · cases h; rfl
  · split at h
    · cases h
    · cases h; rfl

theorem handleDelete_history (currentRound : Nat) (st : AppState) (nummer : String) :
    (handleDelete currentRound st nummer).history = st.history := by
  unfold handleDelete
  split <;> rfl

/-- C12 (amended). A call of `saveResult` that changes the collection pushes the collection
as it was before onto the history, so that `undoLast` directly after it restores exactly that
collection; `handleEditSave` and `handleDelete` leave the history as it is. -/
theorem C12_snapshot_on_save :
    (∀ (currentRound : Nat) (st st' : AppState) (platzId : Nat) (outcome : SaveOutcome),
      saveResult currentRound st platzId = some (outcome, st') →
      st'.schwingerData ≠ st.schwingerData →
      st'.history = st.history ++ [st.schwingerData] ∧
      (undoLast currentRound st').schwingerData = st.schwingerData) ∧
    (∀ (currentRound : Nat) (st st' : AppState) (nummer newNote : String),
      handleEditSave currentRound st nummer newNote = some st' →
      st'.history = st.history) ∧
    (∀ (currentRound : Nat) (st : AppState) (nummer : String),
      (handleDelete currentRound st nummer).history = st.history) := by
  refine ⟨?_, fun _ _ _ _ _ h => handleEditSave_history h, handleDelete_history⟩
  intro currentRound st st' platzId outcome h hchanged
  by_cases hout : outcome = .saved
  · subst hout
    obtain ⟨_, _, _, _, _, _, _, hh, _⟩ := saveResult_saved h
    exact ⟨hh, (undoLast_after_push currentRound st' st.history st.schwingerData hh).1⟩
  · exact absurd (saveResult_not_saved h hout).1 hchanged

/-- C12 on the scenario: the saved bout of `sampleState` changes the collection, the roster
is pushed and one undo restores it. -/
theorem C12_snapshot_on_save_witness :
    saveResult 1 sampleState 0 = some (.saved, sampleSavedState) ∧
    sampleSavedState.schwingerData ≠ sampleState.schwingerData ∧
    sampleSavedState.history = sampleState.history ++ [sampleState.schwingerData] ∧
    (undoLast 1 sampleSavedState).schwingerData = sampleState.schwingerData :=
  ⟨sampleState_saved, by decide!,
    C12_snapshot_on_save.1 1 sampleState sampleSavedState 0 .saved sampleState_saved
      (by decide!)⟩

/-- C12 as stated fails for an edit and for a delete: after the bout of the scenario is saved,
deleting or editing the result of competitor "1" changes the collection and pushes nothing,
and `undoLast` directly after it yields the roster, not the collection before the operation. -/
theorem C12_snapshot_on_save_counterexample :
    (handleDelete 1 sampleSavedState "1").schwingerData ≠ sampleSavedState.schwingerData ∧
    (handleDelete 1 sampleSavedState "1").history = sampleSavedState.history ∧
    (undoLast 1 (handleDelete 1 sampleSavedState "1")).schwingerData ≠
      sampleSavedState.schwingerData ∧
    (∃ st', handleEditSave 1 sampleSavedState "1" "10.00" = some st' ∧
      st'.schwingerData ≠ sampleSavedState.schwingerData ∧
      st'.history = sampleSavedState.history ∧
      (undoLast 1 st').schwingerData ≠ sampleSavedState.schwingerData) := by
  refine ⟨by decide!, by decide!, by decide!, ?_⟩
  exact ⟨_, rfl, by decide!, by decide!, by decide!⟩

/-- C18. The history after `saveResult`: a call stopped by a guard (no such bout slot, a
missing field, an occupied slot) leaves history and collection as they are, and a successful
call appends exactly the collection before the save. A call in which `updateSchwinger` throws
on an unknown number leaves the collection as it is but has already appended it to the
history, as for the bout of competitor "1" against the unknown number "3". -/
theorem C18_history_after_save :
    (∀ (currentRound : Nat) (st st' : AppState) (platzId : Nat) (outcome : SaveOutcome),
      saveResult currentRound st platzId = some (outcome, st') →
      outcome ≠ .saved → outcome ≠ .thrown →
      st'.history = st.history ∧ st'.schwingerData = st.schwingerData) ∧
    (∀ (currentRound : Nat) (st st' : AppState) (platzId : Nat),
      saveResult currentRound st platzId = some (.saved, st') →
      st'.history = st.history ++ [st.schwingerData]) ∧
    (∀ (currentRound : Nat) (st st' : AppState) (platzId : Nat),
      saveResult currentRound st platzId = some (.thrown, st') →
      st'.history = st.history ++ [st.schwingerData] ∧
      st'.schwingerData = st.schwingerData) ∧
    (∃ st', saveResult 1 sampleUnknownState 0 = some (.thrown, st') ∧
      st'.schwingerData = sampleRoster ∧ sampleUnknownState.history = [] ∧
      st'.history = [sampleRoster]) := by
  refine ⟨?_, ?_, ?_, ?_⟩
  · intro currentRound st st' platzId outcome h hs ht
    exact ⟨(saveResult_not_saved h hs).2.1 ht, (saveResult_not_saved h hs).1⟩
  · intro currentRound st st' platzId h
    obtain ⟨_, _, _, _, _, _, _, hh, _⟩ := saveResult_saved h
    exact hh
  · intro currentRound st st' platzId h
    have := saveResult_not_saved h (fun e => by cases e)
    exact ⟨this.2.2 rfl, this.1⟩
  · exact ⟨{ sampleUnknownState with history := [sampleRoster], lastAdded := ["1", "3"] },
      by decide!, rfl, rfl, rfl⟩

/-! ## C13: what a successful save writes -/

theorem mapGet_mem {β : Type} {m : List (String × β)} {key : String} {value : β}
    (h : mapGet m key = some value) : (key, value) ∈ m := by
  induction m with
  | nil => simp [mapGet] at h
  | cons kv rest ih =>
    obtain ⟨k, v⟩ := kv
    unfold mapGet at h
    split_ifs at h with hk
    · cases h; subst hk; exact List.mem_cons_self _ _
    · exact List.mem_cons_of_mem _ (ih h)

theorem mapSet_keys {β : Type} (m : List (String × β)) (key : String) (value : β)
    (h : (mapGet m key).isSome = true) :
    (mapSet m key value).map Prod.fst = m.map Prod.fst := by
  induction m with
  | nil => simp [mapGet] at h
  | cons kv rest ih =>
    obtain ⟨k, v⟩ := kv
    unfold mapSet
    unfold mapGet at h
    split_ifs at h ⊢ with hk
    · simp [hk]
    · simp [ih h]

theorem sum_high_set (note : Note) : ∀ (array : List (Option Note)) (i : Nat),
    array[i]? = some none →
    (((array.set i (some note)).filterMap id).map Note.high).sum =
      ((array.filterMap id).map Note.high).sum + note.high := by
  intro array
  induction array with
  | nil => intro i h; simp at h
  | cons a rest ih =>
    intro i h
    cases i with
    | zero =>
      simp only [List.getElem?_cons_zero, Option.some.injEq] at h
      subst h
      simp [add_comm]
    | succ i =>
      simp only [List.getElem?_cons_succ] at h
      cases a with
      | none => simp [ih i h]
      | some n => simp [ih i h, add_assoc]

/-- Writing a result into an empty slot raises the recomputed total by its high value. -/
theorem recomputeTotal_arraySet (punkteBasis : ℚ) (array : List (Option Note)) (i : Nat)
    (note : Note) (hempty : ∀ n, array[i]? ≠ some (some n)) :
    recomputeTotal punkteBasis (arraySet array i (some note)) =
      recomputeTotal punkteBasis array + note.high := by
  rw [recomputeTotal_eq, recomputeTotal_eq]
  unfold arraySet
  split_ifs with h
  · have hslot : array[i]? = some none := by
      cases hs : array[i]? with
      | none => rw [List.getElem?_eq_getElem h] at hs; cases hs
      | some slot =>
        cases slot with
        | none => rfl
        | some n => exact absurd hs (hempty n)
    rw [sum_high_set note array i hslot, add_assoc]
  · have : (List.replicate (i - array.length) (none : Option Note)).filterMap id = [] := by
      induction (i - array.length) with
      | zero => rfl
      | succ k ihk => simp [List.replicate_succ, ihk]
    simp [List.filterMap_append, this, add_assoc]

theorem writeSlot_grows {currentRound : Nat} {schwinger : Schwinger} (note : Note)
    (hconsistent : Consistent schwinger)
    (hfree : slotFilled currentRound (some schwinger) = false) :
    (writeSlot currentRound schwinger (some note)).total = schwinger.total + note.high := by
  have hempty : ∀ n, schwinger.punkteGaenge[currentRound - 1]? ≠ some (some n) := by
    intro n hn
    have := (slotFilled_iff currentRound (some schwinger)).2 ⟨schwinger, n, rfl, hn⟩
    rw [hfree] at this
    cases this
  simp only [writeSlot]
  rw [recomputeTotal_arraySet _ _ _ _ hempty, recomputeTotal_eq]
  exact congrArg (· + note.high) hconsistent.symm

theorem writeSlot_sameElsewhere (currentRound : Nat) (schwinger : Schwinger)
    (slot : Option Note) :
    SameElsewhere currentRound schwinger (writeSlot currentRound schwinger slot) :=
  ⟨rfl, rfl, rfl, rfl, fun _ hi hlen => arraySet_getElem?_ne _ _ _ _ hi hlen⟩

theorem updateSchwinger_updated {currentRound : Nat} {data data' : SchwingerData}
    {nummer noteVal : String}
    (h : updateSchwinger currentRound data nummer noteVal = .updated data') :
    ∃ schwinger note, mapGet data nummer = some schwinger ∧
      parseNoteValue noteVal = some note ∧
      data' = mapSet data nummer (writeSlot currentRound schwinger (some note)) := by
  unfold updateSchwinger at h
  cases hg : mapGet data nummer with
  | none => rw [hg] at h; cases h
  | some schwinger =>
    rw [hg] at h
    simp only at h
    cases hn : parseNoteValue noteVal with
    | none => rw [hn] at h; cases h
    | some note =>
      rw [hn] at h
      simp only [UpdateResult.updated.injEq] at h
      exact ⟨schwinger, note, rfl, rfl, h.symm⟩

/-- A successful `saveResult` has passed the guard on the slots of the current round. -/
theorem saveResult_saved_free {currentRound : Nat} {st st' : AppState} {platzId : Nat}
    {pairing : Pairing}
    (hfind : st.pairings.find? (fun p => decide (p.id = platzId)) = some pairing)
    (h : saveResult currentRound st platzId = some (.saved, st')) :
    slotFilled currentRound (mapGet st.schwingerData pairing.s1.nummer) = false ∧
    slotFilled currentRound (mapGet st.schwingerData pairing.s2.nummer) = false := by
  unfold saveResult at h
  rw [hfind] at h
  simp only at h
  split_ifs at h with h1 h2
  · simp at h
  · simp at h
  · simpa using h2

/-- C13 (amended). Save postcondition: whenever `saveResult` succeeds in round `r` for a bout
of two different competitors in a collection whose competitors are consistent, both numbers
are in the collection, in the new collection the slot of round `r` of the first competitor
holds `parseNoteValue` of the first note and that of the second competitor holds
`parseNoteValue` of the second note, each of the two totals has grown by the high value of
that competitor's own result, and every other slot, every other field and every other
competitor is unchanged. -/
theorem C13_save_postcondition (currentRound : Nat) (st st' : AppState) (platzId : Nat)
    (pairing : Pairing)
    (hfind : st.pairings.find? (fun p => decide (p.id = platzId)) = some pairing)
    (hsave : saveResult currentRound st platzId = some (.saved, st'))
    (hdistinct : pairing.s1.nummer ≠ pairing.s2.nummer)
    (hconsistent : AllConsistent st.schwingerData) :
    ∃ s1 s2 s1' s2' note1 note2,
      mapGet st.schwingerData pairing.s1.nummer = some s1 ∧
      mapGet st.schwingerData pairing.s2.nummer = some s2 ∧
      parseNoteValue pairing.s1.note = some note1 ∧
      parseNoteValue pairing.s2.note = some note2 ∧
      mapGet st'.schwingerData pairing.s1.nummer = some s1' ∧
      mapGet st'.schwingerData pairing.s2.nummer = some s2' ∧
      s1'.punkteGaenge[currentRound - 1]? = some (some note1) ∧
      s2'.punkteGaenge[currentRound - 1]? = some (some note2) ∧
      s1'.total = s1.total + note1.high ∧
      s2'.total = s2.total + note2.high ∧
      SameElsewhere currentRound s1 s1' ∧ SameElsewhere currentRound s2 s2' ∧
      (∀ nummer, nummer ≠ pairing.s1.nummer → nummer ≠ pairing.s2.nummer →
        mapGet st'.schwingerData nummer = mapGet st.schwingerData nummer) ∧
      st'.schwingerData.map Prod.fst = st.schwingerData.map Prod.fst := by
  obtain ⟨hfree1, hfree2⟩ := saveResult_saved_free hfind hsave
  obtain ⟨pairing', data1, data2, hfind', hu1, hu2, hdata, _⟩ := saveResult_saved hsave
  rw [hfind] at hfind'
  cases hfind'
  obtain ⟨s1, note1, hg1, hn1, rfl⟩ := updateSchwinger_updated hu1
  obtain ⟨s2, note2, hg2, hn2, rfl⟩ := updateSchwinger_updated hu2
  have hne : ¬pairing.s2.nummer = pairing.s1.nummer := fun e => hdistinct e.symm
  rw [mapGet_mapSet, if_neg hne] at hg2
  rw [hg1] at hfree1
  rw [hg2] at hfree2
  refine ⟨s1, s2, writeSlot currentRound s1 (some note1), writeSlot currentRound s2 (some note2),
    note1, note2, hg1, hg2, hn1, hn2, ?_, ?_, writeSlot_slot _ _ _, writeSlot_slot _ _ _,
    writeSlot_grows note1 (hconsistent _ (mapGet_mem hg1)) hfree1,
    writeSlot_grows note2 (hconsistent _ (mapGet_mem hg2)) hfree2,
    writeSlot_sameElsewhere _ _ _, writeSlot_sameElsewhere _ _ _, ?_, ?_⟩
  · rw [hdata, mapGet_mapSet, if_neg hdistinct, mapGet_mapSet, if_pos rfl]
  · rw [hdata, mapGet_mapSet, if_pos rfl]
  · intro nummer h1 h2
    rw [hdata, mapGet_mapSet, if_neg h2, mapGet_mapSet, if_neg h1]
  · rw [hdata, mapSet_keys, mapSet_keys]
    · rw [hg1]; rfl
    · rw [mapGet_mapSet, if_neg hne, hg2]; rfl

theorem sampleRoster_consistent : AllConsistent sampleRoster := by
  intro entry he
  simp only [sampleRoster, List.mem_cons, List.mem_singleton, List.not_mem_nil, or_false] at he
  rcases he with rfl | rfl <;> exact newSchwinger_consistent _ _ _ _

/-- C13 on the scenario: roster "1" and "2" at round 1 with the results 9.75 and 8.75 gives the
totals 9.75 and 8.75 and the labels "1a" and "2a". -/
theorem C13_save_postcondition_witness :
    (saveResult 1 sampleState 0 = some (.saved, sampleSavedState) ∧
      (competedSchwinger sampleSavedState.schwingerData 1).map Schwinger.total = [9.75, 8.75] ∧
      getDynamicRankDisplay (competedSchwinger sampleSavedState.schwingerData 1) 0 =
        some ⟨1, "1a"⟩ ∧
      getDynamicRankDisplay (competedSchwinger sampleSavedState.schwingerData 1) 1 =
        some ⟨2, "2a"⟩) ∧
    ∃ s1 s2 s1' s2' note1 note2,
      mapGet sampleState.schwingerData "1" = some s1 ∧
      mapGet sampleState.schwingerData "2" = some s2 ∧
      parseNoteValue "9.75" = some note1 ∧
      parseNoteValue "8.75" = some note2 ∧
      mapGet sampleSavedState.schwingerData "1" = some s1' ∧
      mapGet sampleSavedState.schwingerData "2" = some s2' ∧
      s1'.punkteGaenge[1 - 1]? = some (some note1) ∧
      s2'.punkteGaenge[1 - 1]? = some (some note2) ∧
      s1'.total = s1.total + note1.high ∧
      s2'.total = s2.total + note2.high ∧
      SameElsewhere 1 s1 s1' ∧ SameElsewhere 1 s2 s2' ∧
      (∀ nummer, nummer ≠ "1" → nummer ≠ "2" →
        mapGet sampleSavedState.schwingerData nummer = mapGet sampleState.schwingerData nummer) ∧
      sampleSavedState.schwingerData.map Prod.fst = sampleState.schwingerData.map Prod.fst :=
  ⟨⟨sampleState_saved, by decide!, by decide!, by decide!⟩,
    C13_save_postcondition 1 sampleState sampleSavedState 0
      ⟨0, ⟨"1", "9.75"⟩, ⟨"2", "8.75"⟩, none⟩ (by decide) sampleState_saved (by decide)
      sampleRoster_consistent⟩

/-- C13 as stated fails when both sides of the bout name the same competitor: the save of
"1" with 9.75 against "1" with 8.75 succeeds, and the slot of competitor "1" then holds the
second result, with the total grown by 8.75 only. -/
theorem C13_save_postcondition_counterexample :
    saveResult 1 sampleSelfState 0 = some (.saved, sampleSelfSavedState) ∧
    ∃ s, mapGet sampleSelfSavedState.schwingerData "1" = some s ∧
      s.punkteGaenge[1 - 1]? ≠ some (parseNoteValue "9.75") ∧
      s.punkteGaenge[1 - 1]? = some (parseNoteValue "8.75") ∧
      s.total = 8.75 :=
  ⟨by decide!, _, rfl, by decide!, by decide!, by decide!⟩

/-! ## C16: the initially selected cutoff values -/

/-- C16 (amended). Default cutoff values: the initially selected cutoff is 35.75 for Ausstich,
54.25 for Kranzausstich, and for the Kranz line 56.50 when the festival type is normal and
74.75 when it is esaf. -/
theorem C16_default_cutoffs (festivalType : FestivalType) (currentRound : Nat)
    (schwingerData : SchwingerData) :
    ((initialView festivalType currentRound schwingerData).ausstichLinie = "35.75" ∧
      parseFloat (initialView festivalType currentRound schwingerData).ausstichLinie =
        some 35.75) ∧
    ((initialView festivalType currentRound schwingerData).kranzausstichLinie = "54.25" ∧
      parseFloat (initialView festivalType currentRound schwingerData).kranzausstichLinie =
        some 54.25) ∧
    (festivalType = .normal →
      (initialView festivalType currentRound schwingerData).kranzLinie = "56.50" ∧
      parseFloat (initialView festivalType currentRound schwingerData).kranzLinie =
        some 56.50) ∧
    (festivalType = .esaf →
      (initialView festivalType currentRound schwingerData).kranzLinie = "74.75" ∧
      parseFloat (initialView festivalType currentRound schwingerData).kranzLinie =
        some 74.75) := by
  have h1 : parseFloat "35.75" = some 35.75 := by decide!
  have h2 : parseFloat "54.25" = some 54.25 := by decide!
  have h3 : parseFloat "56.50" = some 56.50 := by decide!
  have h4 : parseFloat "74.75" = some 74.75 := by decide!
  refine ⟨⟨rfl, h1⟩, ⟨rfl, h2⟩, ?_, ?_⟩
  · rintro rfl
    exact ⟨rfl, h3⟩
  · rintro rfl
    exact ⟨rfl, h4⟩

/-- C16 as stated fails for the esaf festival type: the initially selected Kranz line is
"74.75", which is not 75.00. -/
theorem C16_default_cutoffs_counterexample :
    (initialView .esaf 8 sampleRoster).kranzLinie = "74.75" ∧
    parseFloat (initialView .esaf 8 sampleRoster).kranzLinie ≠ some 75 := by
  exact ⟨rfl, by decide!⟩

/-! ## C17: the two-round result is the first found, not the smallest -/

/-- C17. For the current total 38.75 and the target 56.50 (`needed = 17.75`) the pair
returned by `getNeededResultForTwoRounds` is (8.50, 9.75) with the combined score 18.25, while
the pair (8.75, 9.00) of `POSSIBLE_RESULTS` also reaches `needed` with the smaller combined
score 17.75. -/
theorem C17_first_found_not_minimal :
    ∃ (currentScore targetScore : ℚ) (r1 r2 p1 p2 : PossibleResult),
      getNeededResultForTwoRounds currentScore targetScore = some (r1, r2) ∧
      p1 ∈ POSSIBLE_RESULTS ∧ p2 ∈ POSSIBLE_RESULTS ∧
      p1.score + p2.score ≥ targetScore - currentScore ∧
      p1.score + p2.score < r1.score + r2.score ∧
      targetScore - currentScore = 17.75 ∧
      (r1.score, r2.score) = (8.50, 9.75) ∧ (p1.score, p2.score) = (8.75, 9.00) :=
  ⟨38.75, 56.50, ⟨8.50, "Niederlage"⟩, ⟨9.75, "Sieg"⟩, ⟨8.75, "Gestellt"⟩, ⟨9.00, "Gestellt"⟩,
    by decide!, by decide!, by decide!, by decide!, by decide!, by norm_num, by norm_num,
    by norm_num⟩

/-! ## C20: the rank on arbitrary lists -/

theorem min?_concat (l : List ℚ) (b m : ℚ) (h : l.min? = some m) :
    (l ++ [b]).min? = some (min m b) := by
  induction l generalizing m with
  | nil => simp at h
  | cons x xs ih =>
    rw [List.min?_cons] at h
    rw [List.cons_append, List.min?_cons]
    cases hxs : xs.min? with
    | none =>
      have : xs = [] := List.min?_eq_none_iff.1 hxs
      subst this
      simp only [List.min?_nil, Option.elim, Option.some.injEq] at h
      subst h
      simp [List.min?_cons]
    | some m' =>
      rw [hxs] at h
      simp only [Option.elim, Option.some.injEq] at h
      subst h
      rw [ih m' hxs]
      simp [min_assoc]

theorem forwardRank_succ (list : List Schwinger) (i : Nat) :
    forwardRank list (i + 1) =
      forwardRank list i + if belowEarlierMinimum list (i + 1) = true then 1 else 0 := by
  unfold forwardRank
  rw [List.range'_concat, List.filter_append, List.length_append]
  have : 1 + 1 * i = i + 1 := by omega
  rw [this]
  by_cases h : belowEarlierMinimum list (i + 1) = true
  · simp [List.filter, h]; omega
  · simp [List.filter, h]

/-- The loop of `getDynamicRankDisplay` on any list: after index `i` the counter is
`forwardRank list i` and `lastScore` is the minimum of the totals up to `i`. -/
theorem rankCounterLoop_forward (list : List Schwinger) (first : Schwinger)
    (hfirst : list[0]? = some first) : ∀ i, i < list.length →
    ∃ m, rankCounterLoop list first i = (forwardRank list i, m) ∧
      ((list.take (i + 1)).map Schwinger.total).min? = some m ∧
      ∀ k s, k ≤ i → list[k]? = some s → m ≤ s.total := by
  intro i
  induction i with
  | zero =>
    intro hi
    cases list with
    | nil => simp at hi
    | cons a l =>
      simp only [List.getElem?_cons_zero, Option.some.injEq] at hfirst
      subst hfirst
      refine ⟨a.total, ?_, ?_, ?_⟩
      · simp [rankCounterLoop, forwardRank]
      · simp [List.min?_cons]
      · intro k s hk hs
        have : k = 0 := by omega
        subst this
        simp only [List.getElem?_cons_zero, Option.some.injEq] at hs
        subst hs
        exact le_rfl
  | succ i ih =>
    intro hi
    obtain ⟨m, hloop, hmin, hle⟩ := ih (by omega)
    have hbelow : belowEarlierMinimum list (i + 1) = decide (list[i + 1].total < m) := by
      unfold belowEarlierMinimum
      rw [List.getElem?_eq_getElem hi, hmin]
    have htake : (list.take (i + 1 + 1)).map Schwinger.total =
        (list.take (i + 1)).map Schwinger.total ++ [list[i + 1].total] := by
      rw [List.take_succ (n := i + 1), List.getElem?_eq_getElem hi]
      simp only [Option.toList_some, List.map_append, List.map_cons, List.map_nil]
    rw [rankCounterLoop_succ list first i hi, hloop, forwardRank_succ, hbelow, htake,
      min?_concat _ _ m hmin]
    unfold rankCounterStep
    by_cases hlt : list[i + 1].total < m
    · refine ⟨list[i + 1].total, by simp [hlt], by simp [min_eq_right hlt.le], ?_⟩
      intro k s hk hs
      rcases Nat.eq_or_lt_of_le hk with rfl | hk'
      · rw [List.getElem?_eq_getElem hi] at hs
        cases hs
        exact le_rfl
      · exact hlt.le.trans (hle k s (by omega) hs)
    · refine ⟨m, by simp [hlt], by simp [min_eq_left (not_lt.1 hlt)], ?_⟩
      intro k s hk hs
      rcases Nat.eq_or_lt_of_le hk with rfl | hk'
      · rw [List.getElem?_eq_getElem hi] at hs
        cases hs
        exact not_lt.1 hlt
      · exact hle k s (by omega) hs

theorem rankOf_eq_forwardRank (list : List Schwinger) : ∀ i, i < list.length →
    rankOf list i = forwardRank list i := by
  intro i
  induction i with
  | zero => intro _; rfl
  | succ i ih =>
    intro hi
    have h0 : 0 < list.length := by omega
    have h1 : i < list.length := by omega
    obtain ⟨m, hloop, hmin, hle⟩ :=
      rankCounterLoop_forward list list[0] (List.getElem?_eq_getElem h0) i h1
    unfold rankOf
    simp only [List.getElem?_eq_getElem h0, List.getElem?_eq_getElem h1,
      List.getElem?_eq_getElem hi]
    by_cases heq : list[i + 1].total = list[i].total
    · simp only [heq, if_true]
      rw [ih h1, forwardRank_succ]
      have hbelow : belowEarlierMinimum list (i + 1) = false := by
        unfold belowEarlierMinimum
        rw [List.getElem?_eq_getElem hi, hmin]
        have := hle i list[i] le_rfl (List.getElem?_eq_getElem h1)
        simp only [decide_eq_false_iff_not, not_lt, heq]
        exact this
      simp [hbelow]
    · simp only [heq, if_false]
      obtain ⟨m', hloop', _, _⟩ :=
        rankCounterLoop_forward list list[0] (List.getElem?_eq_getElem h0) (i + 1) hi
      rw [hloop']

/-- C20. Recursive rank equals the forward-pass counter on any list: on a list, sorted or not,
in which no run of consecutive equal totals is longer than 26, the rank returned by
`getDynamicRankDisplay` at a valid index `i` is 1 plus the number of positions `j` in `1..i`
at which the total is strictly below the minimum of the totals before `j`, and that number is
the value of the loop counter `rankCounter`. -/
theorem C20_rank_is_forward_counter (list : List Schwinger) (i : Nat)
    (hi : i < list.length) (hruns : RunsWithinAlphabet list) :
    (getDynamicRankDisplay list i).map RankDisplay.rank = some (forwardRank list i) ∧
    ∀ first, list[0]? = some first → (rankCounterLoop list first i).1 = forwardRank list i := by
  constructor
  · rw [getDynamicRankDisplay_eq list i hi (fun j hj => hruns j (by omega)),
      rankOf_eq_forwardRank list i hi]
    rfl
  · intro first hfirst
    obtain ⟨m, hloop, _, _⟩ := rankCounterLoop_forward list first hfirst i hi
    rw [hloop]

/-- C20 on an unsorted list: at index 3, a tie with index 2 after the total has risen, the
rank is 2. -/
theorem C20_rank_is_forward_counter_witness :
    (3 < sampleUnsorted.length ∧ RunsWithinAlphabet sampleUnsorted) ∧
    (getDynamicRankDisplay sampleUnsorted 3).map RankDisplay.rank = some 2 ∧
    forwardRank sampleUnsorted 3 = 2 :=
  have hruns : RunsWithinAlphabet sampleUnsorted := by
    intro j hj
    have hj5 : j < 5 := hj
    interval_cases j <;> decide!
  ⟨⟨by decide, hruns⟩,
    by rw [(C20_rank_is_forward_counter sampleUnsorted 3 (by decide) hruns).1]; decide!,
    by decide!⟩

/-! ## C19: splitting a raw name -/

theorem head?_dropWhile_false {α : Type} (p : α → Bool) (l : List α) (a : α)
    (h : (l.dropWhile p).head? = some a) : p a = false := by
  have := List.head?_dropWhile_not p l
  rw [h] at this
  exact this

theorem dropWhile_all {α : Type} (p : α → Bool) (l rest : List α)
    (hl : ∀ a ∈ l, p a = true) : (l ++ rest).dropWhile p = rest.dropWhile p := by
  induction l with
  | nil => rfl
  | cons a l ih =>
    rw [List.cons_append, List.dropWhile_cons, if_pos (hl a (List.mem_cons_self _ _))]
    exact ih (fun b hb => hl b (List.mem_cons_of_mem _ hb))

theorem not_isWhitespace_star : isWhitespace '*' = false := by decide

/-- The trimmed match is the run of `*`. -/
theorem trimChars_match (ws : List Char) (k : Nat) (hws : ∀ c ∈ ws, isWhitespace c = true) :
    trimChars (ws ++ List.replicate k '*') = List.replicate k '*' := by
  unfold trimChars
  rw [dropWhile_all isWhitespace ws _ hws]
  cases k with
  | zero => rfl
  | succ k =>
    rw [List.replicate_succ, List.dropWhile_cons, if_neg (by simp [not_isWhitespace_star]),
      ← List.replicate_succ, List.reverse_replicate, List.replicate_succ, List.dropWhile_cons,
      if_neg (by simp [not_isWhitespace_star]), ← List.replicate_succ, List.reverse_replicate]

/-- When the only occurrence of `pat` in `core ++ pat` is the one at the end, `replaceFirst`
removes it. -/
theorem replaceFirst_suffix (pat : List Char) (hpat : pat ≠ []) : ∀ core : List Char,
    (∀ p q, core ++ pat = p ++ pat ++ q → q = []) → replaceFirst pat [] (core ++ pat) = core := by
  intro core
  induction core with
  | nil =>
    intro _
    cases pat with
    | nil => exact absurd rfl hpat
    | cons c cs =>
      rw [List.nil_append]
      unfold replaceFirst
      rw [if_pos (List.isPrefixOf_iff_prefix.2 (List.prefix_refl _))]
      simp
  | cons c cs ih =>
    intro honly
    rw [List.cons_append]
    unfold replaceFirst
    rw [← List.cons_append]
    by_cases hpre : pat.isPrefixOf (c :: cs ++ pat) = true
    · obtain ⟨q, hq⟩ := List.isPrefixOf_iff_prefix.1 hpre
      have hq0 := honly [] q (by rw [List.nil_append]; exact hq.symm)
      subst hq0
      rw [List.append_nil] at hq
      have := congrArg List.length hq
      simp only [List.length_append, List.length_cons] at this
      omega
    · rw [if_neg hpre]
      congr 1
      apply ih
      intro p q hpq
      exact honly (c :: p) q (by rw [List.cons_append, hpq]; rfl)

/-- C19 (amended). Name and decoration: for every string `raw`, written as a text `core` that
does not end in white space, a run `ws` of white space and the maximal trailing run of `k`
characters `*`, `parseName` returns that run as `sterne`; `name` is `raw` trimmed when `raw`
does not end in `*`, and `core` trimmed when `raw` ends in `*` and the removed text `ws`
followed by the run occurs nowhere else in `raw`. -/
theorem C19_parse_name (raw : String) :
    ∃ (core ws : List Char) (k : Nat),
      raw.data = core ++ ws ++ List.replicate k '*' ∧
      (core ++ ws).getLast? ≠ some '*' ∧
      (∀ c ∈ ws, isWhitespace c = true) ∧
      (∀ c, core.getLast? = some c → isWhitespace c = false) ∧
      (parseName raw).2 = String.mk (List.replicate k '*') ∧
      (k = 0 → (parseName raw).1 = trim raw) ∧
      (0 < k → (∀ p q, raw.data = p ++ (ws ++ List.replicate k '*') ++ q → q = []) →
        (parseName raw).1 = String.mk (trimChars core)) := by
  have hsplit := List.takeWhile_append_dropWhile (fun c => decide (c = '*')) raw.data.reverse
  have hsplit2 := List.takeWhile_append_dropWhile isWhitespace
    (raw.data.reverse.dropWhile (fun c => decide (c = '*')))
  generalize hstars : raw.data.reverse.takeWhile (fun c => decide (c = '*')) = stars at hsplit
  generalize hbefore : raw.data.reverse.dropWhile (fun c => decide (c = '*')) = before
    at hsplit hsplit2
  generalize hwsr : before.takeWhile isWhitespace = wsr at hsplit2
  generalize hcorer : before.dropWhile isWhitespace = corer at hsplit2
  have hstars_eq : stars = List.replicate stars.length '*' := by
    rw [List.eq_replicate_iff]
    refine ⟨rfl, fun b hb => ?_⟩
    rw [← hstars] at hb
    simpa using List.mem_takeWhile_imp hb
  have hraw : raw.data = corer.reverse ++ wsr.reverse ++ List.replicate stars.length '*' := by
    have := congrArg List.reverse hsplit
    rw [List.reverse_reverse, List.reverse_append, ← hsplit2, List.reverse_append] at this
    rw [← this]
    congr 1
    conv_lhs => rw [hstars_eq]
    exact List.reverse_replicate _ _
  have hws : ∀ c ∈ wsr.reverse, isWhitespace c = true := by
    intro c hc
    rw [List.mem_reverse, ← hwsr] at hc
    exact List.mem_takeWhile_imp hc
  have hmatch : sterneMatch raw =
      if stars = [] then none else some (wsr.reverse ++ stars) := by
    unfold sterneMatch
    simp only [hstars, hbefore, hwsr]
  refine ⟨corer.reverse, wsr.reverse, stars.length, hraw, ?_, hws, ?_, ?_, ?_, ?_⟩
  · rw [← List.reverse_append, hsplit2, List.getLast?_reverse]
    intro h
    rw [← hbefore] at h
    have := head?_dropWhile_false _ _ _ h
    simp at this
  · intro c hc
    rw [List.getLast?_reverse, ← hcorer] at hc
    exact head?_dropWhile_false _ _ _ hc
  · unfold parseName
    rw [hmatch]
    by_cases hnil : stars = []
    · simp [hnil]
    · simp only [hnil, if_false]
      conv_lhs => rw [hstars_eq]
      rw [trimChars_match _ _ hws]
  · intro hk
    have hnil : stars = [] := List.length_eq_zero.1 hk
    unfold parseName
    rw [hmatch]
    simp [hnil]
  · intro hk honly
    have hnil : stars ≠ [] := by
      intro h
      rw [h] at hk
      simp at hk
    unfold parseName
    rw [hmatch]
    simp only [hnil, if_false]
    have hpat : wsr.reverse ++ stars = wsr.reverse ++ List.replicate stars.length '*' := by
      conv_lhs => rw [hstars_eq]
    rw [hpat, hraw, List.append_assoc, replaceFirst_suffix _ (by
      intro h
      have := congrArg List.length h
      simp only [List.length_append, List.length_replicate, List.length_nil,
        List.length_reverse] at this
      omega) corer.reverse (by
      intro p q hpq
      apply honly p q
      rw [hraw, List.append_assoc]
      exact hpq)]

theorem parseName_sample : parseName "Giger Samuel ***" = ("Giger Samuel", "***") := by
  decide

/-- The call `replace(sterneMatch[0], '')` removes the first occurrence of the matched text,
which need not be the one at the end. -/
theorem parseName_first_occurrence : parseName "a* b*" = ("a b*", "*") := by
  decide

/-- C19 as stated fails: the name can end in `*`. For "a* **" the trailing run is `**` and the
name is "a*"; for "a* b*" the first `*` is removed and the name is "a b*". -/
theorem C19_parse_name_counterexample :
    parseName "a* **" = ("a*", "**") ∧ (parseName "a* **").1.data.getLast? = some '*' ∧
    parseName "a* b*" = ("a b*", "*") ∧ (parseName "a* b*").1.data.getLast? = some '*' := by
  decide

/-! ## C14: the final-bout divider -/

theorem toNat_ofNat_small (n : Nat) (h : n < 55296) : (Char.ofNat n).toNat = n := by
  have hv : n.isValidChar := Or.inl h
  unfold Char.ofNat
  rw [dif_pos hv]
  simp [Char.ofNatAux, Char.toNat, UInt32.toNat]

theorem suffixChar_small (k : Nat) (hk : 97 + k < 55296) :
    isDigit (Char.ofNat (97 + k)) = false ∧
    fromCharCode ((Char.ofNat (97 + k)).toNat + 1) = Char.ofNat (97 + (k + 1)) := by
  rw [toNat_ofNat_small _ hk]
  constructor
  · unfold isDigit
    rw [toNat_ofNat_small _ hk]
    simp
    omega
  · unfold fromCharCode
    congr 1
    omega

/-- The rank and the label on any list whose runs of equal totals up to `i` stay within
`maxTieGroup` members. -/
theorem getDynamicRankDisplay_rank (list : List Schwinger) : ∀ i, i < list.length →
    (∀ j, j ≤ i → tieOffset list j < maxTieGroup) →
    getDynamicRankDisplay list i = some ⟨rankOf list i,
      Nat.repr (rankOf list i) ++ String.singleton (Char.ofNat (97 + tieOffset list i))⟩ := by
  intro i
  induction i with
  | zero =>
    intro _ _
    simp only [getDynamicRankDisplay, rankOf, tieOffset]
    decide
  | succ i ih =>
    intro hi hrun
    have h0 : 0 < list.length := by omega
    have h1 : i < list.length := by omega
    have ih := ih h1 (fun j hj => hrun j (by omega))
    have hk := hrun (i + 1) le_rfl
    unfold getDynamicRankDisplay rankOf
    unfold tieOffset at hk ⊢
    simp only [List.getElem?_eq_getElem h0, List.getElem?_eq_getElem h1,
      List.getElem?_eq_getElem hi] at hk ⊢
    by_cases heq : list[i + 1].total = list[i].total
    · simp only [heq, if_true] at hk ⊢
      have hs := suffixChar_small (tieOffset list i) (by unfold maxTieGroup at hk; omega)
      simp only [ih, parseInt_label _ _ hs.1, nextSuffixChar_label, hs.2]
    · simp only [heq, if_false]
      rfl

theorem tieOffset_lt_of_count (list : List Schwinger) (h : SortedByTotal list) (bound : Nat)
    (i : Nat) (hi : i < list.length)
    (hb : list.countP (fun s => decide (s.total = list[i].total)) ≤ bound) :
    tieOffset list i < bound := by
  obtain ⟨hle, hoff⟩ := tieOffset_sorted list h i hi
  have hglt : groupStart list list[i].total < list.length := by omega
  have hgp : list[groupStart list list[i].total].total = list[i].total := by
    have := @List.findIdx_getElem Schwinger
      (fun s : Schwinger => decide (s.total = list[i].total)) list hglt
    simpa using this
  have hall : ∀ s ∈ (list.take (i + 1)).drop (groupStart list list[i].total),
      (fun s => decide (s.total = list[i].total)) s = true := by
    intro s hs
    obtain ⟨j, hj, rfl⟩ := List.mem_iff_getElem.1 hs
    simp only [List.length_drop, List.length_take] at hj
    simp only [List.getElem_drop, List.getElem_take, decide_eq_true_eq]
    have h1 := h.le_of_le (i := groupStart list list[i].total)
      (j := groupStart list list[i].total + j) (by omega) hglt (by omega)
    have h2 := h.le_of_le (i := groupStart list list[i].total + j) (j := i) (by omega)
      (by omega) hi
    rw [hgp] at h1
    exact le_antisymm h1 h2
  have hcount := List.countP_eq_length.2 hall
  have hsub : ((list.take (i + 1)).drop (groupStart list list[i].total)).Sublist list :=
    (List.drop_sublist _ _).trans (List.take_sublist _ _)
  have := hsub.countP_le (fun s => decide (s.total = list[i].total))
  rw [hcount] at this
  simp only [List.length_drop, List.length_take] at this
  omega

/-- On a sorted list with bounded tie groups the rank at a valid index is the dense rank. -/
theorem rankDisplayAt_rank (list : List Schwinger) (hsorted : SortedByTotal list)
    (hgroups : TieGroupsBounded list) (i : Nat) (hi : i < list.length) :
    (rankDisplayAt list i).rank = distinctTotals list i := by
  unfold rankDisplayAt
  rw [getDynamicRankDisplay_rank list i hi (fun j hj =>
    tieOffset_lt_of_count list hsorted maxTieGroup j (by omega) (hgroups _))]
  exact rankOf_sorted list hsorted i hi

theorem rank1CountOf_eq (list : List Schwinger) (hsorted : SortedByTotal list)
    (hgroups : TieGroupsBounded list) : rank1CountOf list = rank1GroupSize list := by
  unfold rank1CountOf rank1GroupSize
  congr 1
  apply List.filter_congr
  intro i hi
  rw [rankDisplayAt_rank list hsorted hgroups i (List.mem_range.1 hi)]

theorem distinctTotals_mono (list : List Schwinger) (h : SortedByTotal list) (i : Nat) :
    ∀ j, i ≤ j → j < list.length → distinctTotals list i ≤ distinctTotals list j := by
  intro j
  induction j with
  | zero => intro hij _; rw [Nat.le_zero.1 hij]
  | succ j ih =>
    intro hij hj
    rcases Nat.eq_or_lt_of_le hij with rfl | hlt
    · exact le_rfl
    · have := ih (by omega) (by omega)
      rw [distinctTotals_succ list h j hj]
      split_ifs <;> omega

theorem distinctTotals_pos (list : List Schwinger) (h : SortedByTotal list) (i : Nat)
    (hi : i < list.length) : 1 ≤ distinctTotals list i := by
  have := distinctTotals_mono list h 0 i (Nat.zero_le _) hi
  rw [distinctTotals_zero list (by omega)] at this
  exact this

theorem rank1GroupSize_le_one (list : List Schwinger) (h : SortedByTotal list)
    (hn : 2 ≤ list.length) (hsize : rank1GroupSize list < 2) : distinctTotals list 1 = 2 := by
  have h0 := distinctTotals_zero list (by omega)
  have h1 := distinctTotals_succ list h 0 (by omega)
  rw [h0] at h1
  by_contra hne
  have hone : distinctTotals list (0 + 1) = 1 := by
    rw [h1] at hne ⊢
    split_ifs at hne ⊢
    · rfl
    · exact absurd rfl hne
  have hsub : ((List.range 2).filter (fun i => decide (distinctTotals list i = 1))).Sublist
      ((List.range list.length).filter (fun i => decide (distinctTotals list i = 1))) :=
    (List.range_sublist.2 hn).filter _
  have hlen := hsub.length_le
  have : (List.range 2).filter (fun i => decide (distinctTotals list i = 1)) = [0, 1] := by
    simp only [zero_add] at hone
    simp [List.range_succ, List.filter_append, List.filter, h0, hone]
  rw [this] at hlen
  unfold rank1GroupSize at hsize
  simp only [List.length_cons, List.length_nil] at hlen
  omega

theorem walkRows_append (v : RanglisteView) (isAnwaerter : Bool) :
    ∀ (l1 l2 : List Schwinger) (g : Nat),
      walkRows v isAnwaerter (l1 ++ l2) g =
        walkRows v isAnwaerter l1 g ++ walkRows v isAnwaerter l2 (g + l1.length) := by
  intro l1
  induction l1 with
  | nil => intro l2 g; rfl
  | cons s l1 ih =>
    intro l2 g
    rw [List.cons_append, walkRows, walkRows, ih, List.append_assoc, List.length_cons]
    congr 3
    omega

theorem walkRows_quiet (v : RanglisteView) (isAnwaerter : Bool) (kind : LineKind) :
    ∀ (list : List Schwinger) (g : Nat),
      (∀ j s, list[j]? = some s → hasLine kind (rowBlock v isAnwaerter (g + j) s) = false) →
      hasLine kind (walkRows v isAnwaerter list g) = false := by
  intro list
  induction list with
  | nil => intro g _; rfl
  | cons s list ih =>
    intro g h
    have h0 : hasLine kind (rowBlock v isAnwaerter g s) = false :=
      h 0 s (List.getElem?_cons_zero)
    rw [walkRows, hasLine_append, h0, Bool.false_or]
    apply ih
    intro j t hj
    have := h (j + 1) t (by simpa using hj)
    rw [show g + (j + 1) = g + 1 + j by omega] at this
    exact this

theorem showSchlussgang_exclusive (v : RanglisteView) (h : showSchlussgang v = true) :
    showAusstich v = false ∧ showKranzausstich v = false ∧ showKranz v = false := by
  simp only [showSchlussgang, showAusstich, showKranzausstich, showKranz] at h ⊢
  cases hf : v.festivalType <;> simp [hf] at h ⊢ <;> omega

/-- In a view with the final-bout divider active the table is the walk over the competed
list, and a row block is the row of the competitor followed by the final-bout check. -/
theorem tableRows_schlussgang (v : RanglisteView) (h : showSchlussgang v = true) :
    fullList v = v.competedSchwinger ∧
    tableRows v = walkRows v true v.competedSchwinger 0 ∧
    ∀ g s, rowBlock v true g s =
      Row.schwinger s (rankDisplayAt v.competedSchwinger g).display ::
        schlussgangLines v (rankDisplayAt v.competedSchwinger g).rank
          (isLastOfRank v.competedSchwinger g s) := by
  obtain ⟨hA, hKA, hK⟩ := showSchlussgang_exclusive v h
  have hfull : fullList v = v.competedSchwinger := by
    simp [fullList, kranzAnwaerter, rest, hK]
  refine ⟨hfull, ?_, ?_⟩
  · simp [tableRows, bodyRows, placeholderRows, missingLines, kranzAnwaerter, rest, hK, hA, hKA,
      walkRows]
  · intro g s
    simp [rowBlock, cutoffLines, hfull, hK, hA, hKA]

theorem isSchlussgangCandidate_iff (list : List Schwinger) (h : SortedByTotal list) (i : Nat)
    (hi : i < list.length) :
    IsSchlussgangCandidate list i ↔ distinctTotals list i ≤ schlussgangRank list := by
  have := distinctTotals_pos list h i hi
  unfold IsSchlussgangCandidate schlussgangRank
  split_ifs <;> omega

theorem schlussgangLines_eq (v : RanglisteView) (hshow : showSchlussgang v = true)
    (hsorted : SortedByTotal v.competedSchwinger) (hgroups : TieGroupsBounded v.competedSchwinger)
    (rank : Nat) (isLast : Bool) :
    schlussgangLines v rank isLast =
      if isLast = true ∧ rank = schlussgangRank v.competedSchwinger then
        [Row.line .schlussgang "--- Schlussgangkandidaten ---"]
      else [] := by
  unfold schlussgangLines schlussgangRank
  rw [(tableRows_schlussgang v hshow).1, rank1CountOf_eq _ hsorted hgroups, hshow]
  cases isLast
  · simp
  · by_cases h2 : 2 ≤ rank1GroupSize v.competedSchwinger
    · have h2' : ¬rank1GroupSize v.competedSchwinger < 2 := by omega
      by_cases hr : rank = 1 <;> simp [h2, h2', hr]
    · have h2' : rank1GroupSize v.competedSchwinger < 2 := by omega
      by_cases hr : rank = 2
      · simp [h2, h2', hr]
      · simp [h2, h2', hr]

/-- On a sorted non-empty list the entries of dense rank at most `r ≥ 1` are the first `k`
entries for some `k ≥ 1`. -/
theorem exists_rank_prefix (list : List Schwinger) (h : SortedByTotal list) (r : Nat)
    (hr : 1 ≤ r) (hn : 0 < list.length) :
    ∃ k, 0 < k ∧ k ≤ list.length ∧
      ∀ i, i < list.length → (i < k ↔ distinctTotals list i ≤ r) := by
  classical
  have hex : ∃ k, k = list.length ∨ (k < list.length ∧ r < distinctTotals list k) :=
    ⟨list.length, Or.inl rfl⟩
  have hspec := Nat.find_spec hex
  have hmin := fun m (hm : m < Nat.find hex) => Nat.find_min hex hm
  have hiff : ∀ i, i < list.length → (i < Nat.find hex ↔ distinctTotals list i ≤ r) := by
    intro i hi
    constructor
    · intro hik
      have := hmin i hik
      by_contra hc
      exact this (Or.inr ⟨hi, by omega⟩)
    · intro hle
      by_contra hc
      rcases hspec with he | ⟨hlt, hgt⟩
      · omega
      · have := distinctTotals_mono list h (Nat.find hex) i (by omega) hi
        omega
  refine ⟨Nat.find hex, ?_, ?_, hiff⟩
  · apply (hiff 0 hn).2
    rw [distinctTotals_zero list hn]
    exact hr
  · rcases hspec with he | ⟨hlt, _⟩ <;> omega

theorem schlussgangRank_exists (list : List Schwinger) (h : SortedByTotal list)
    (hn : 2 ≤ list.length) :
    1 ≤ schlussgangRank list ∧
    ∃ i, i < list.length ∧ distinctTotals list i = schlussgangRank list := by
  unfold schlussgangRank
  by_cases h2 : 2 ≤ rank1GroupSize list
  · rw [if_pos h2]
    exact ⟨le_rfl, 0, by omega, distinctTotals_zero list (by omega)⟩
  · rw [if_neg h2]
    exact ⟨by omega, 1, by omega, rank1GroupSize_le_one list h hn (by omega)⟩

theorem hasLine_rowBlock_schlussgang (v : RanglisteView) (hshow : showSchlussgang v = true)
    (hsorted : SortedByTotal v.competedSchwinger) (hgroups : TieGroupsBounded v.competedSchwinger)
    (g : Nat) (s : Schwinger) (hg : g < v.competedSchwinger.length)
    (hquiet : ¬(isLastOfRank v.competedSchwinger g s = true ∧
      distinctTotals v.competedSchwinger g = schlussgangRank v.competedSchwinger)) :
    hasLine .schlussgang (rowBlock v true g s) = false := by
  rw [(tableRows_schlussgang v hshow).2.2, schlussgangLines_eq v hshow hsorted hgroups,
    rankDisplayAt_rank _ hsorted hgroups g hg, if_neg hquiet]
  rfl

/-- C14. Final-bout candidates: when the final-bout divider is active (normal round 5, esaf
round 7), for a competed list sorted by total in non-increasing order (tie groups of at most
`maxTieGroup` members) with at least two competitors the table has exactly one
"Schlussgangkandidaten" divider, and the competitor rows before it are exactly the rank-1
group when that group has at least 2 members, otherwise exactly the rank-1 and rank-2 groups
combined; with fewer than two competitors the table has no such divider. -/
theorem C14_schlussgang_candidates (v : RanglisteView) (hshow : showSchlussgang v = true)
    (hsorted : SortedByTotal v.competedSchwinger)
    (hgroups : TieGroupsBounded v.competedSchwinger) :
    (2 ≤ v.competedSchwinger.length →
      ∃ before after k,
        renderTableRows v =
          some (before ++ Row.line .schlussgang "--- Schlussgangkandidaten ---" :: after) ∧
        hasLine .schlussgang before = false ∧ hasLine .schlussgang after = false ∧
        before.filterMap Row.entry = (v.competedSchwinger.take k).map Sum.inl ∧
        k ≤ v.competedSchwinger.length ∧
        ∀ i, i < v.competedSchwinger.length →
          (i < k ↔ IsSchlussgangCandidate v.competedSchwinger i)) ∧
    (v.competedSchwinger.length < 2 →
      ∃ rows, renderTableRows v = some rows ∧ hasLine .schlussgang rows = false) := by
  obtain ⟨hfull, hrows, hblock⟩ := tableRows_schlussgang v hshow
  rw [renderTableRows_eq, hrows]
  constructor
  · intro hn
    obtain ⟨hr1, i0, hi0, hD0⟩ := schlussgangRank_exists _ hsorted hn
    obtain ⟨k, hk0, hkn, hiff⟩ :=
      exists_rank_prefix _ hsorted (schlussgangRank v.competedSchwinger) hr1 (by omega)
    have hk1 : k - 1 < v.competedSchwinger.length := by omega
    have hDk : distinctTotals v.competedSchwinger (k - 1) =
        schlussgangRank v.competedSchwinger := by
      have h1 := (hiff (k - 1) hk1).1 (by omega)
      have h2 := (hiff i0 hi0).2 (by omega)
      have h3 := distinctTotals_mono _ hsorted i0 (k - 1) (by omega) hk1
      omega
    have hlast : isLastOfRank v.competedSchwinger (k - 1) v.competedSchwinger[k - 1] = true := by
      unfold isLastOfRank
      rw [show k - 1 + 1 = k by omega]
      by_cases hk : k < v.competedSchwinger.length
      · rw [List.getElem?_eq_getElem hk]
        simp only [decide_eq_true_eq]
        intro heq
        have hsucc := distinctTotals_succ _ hsorted (k - 1) (by omega)
        simp only [show k - 1 + 1 = k by omega] at hsucc
        rw [if_pos heq] at hsucc
        have := (hiff k hk).2 (by omega)
        omega
      · rw [List.getElem?_eq_none (by omega)]
    have hsplit : v.competedSchwinger =
        v.competedSchwinger.take (k - 1) ++
          v.competedSchwinger[k - 1] :: v.competedSchwinger.drop k := by
      have := List.take_append_drop (k - 1) v.competedSchwinger
      rw [List.drop_eq_getElem_cons hk1, show k - 1 + 1 = k by omega] at this
      exact this.symm
    have hlen : (v.competedSchwinger.take (k - 1)).length = k - 1 := by
      rw [List.length_take]
      omega
    refine ⟨walkRows v true (v.competedSchwinger.take (k - 1)) 0 ++
        [Row.schwinger v.competedSchwinger[k - 1]
          (rankDisplayAt v.competedSchwinger (k - 1)).display],
      walkRows v true (v.competedSchwinger.drop k) k, k, ?_, ?_, ?_, ?_, hkn, ?_⟩
    · conv_lhs => rw [hsplit]
      rw [walkRows_append, walkRows, hblock, hlen, Nat.zero_add,
        schlussgangLines_eq v hshow hsorted hgroups,
        rankDisplayAt_rank _ hsorted hgroups _ hk1, if_pos ⟨hlast, hDk⟩,
        show k - 1 + 1 = k by omega]
      simp
    · rw [hasLine_append]
      have hq : hasLine .schlussgang (walkRows v true (v.competedSchwinger.take (k - 1)) 0) =
          false := by
        apply walkRows_quiet
        intro j s hj
        rw [Nat.zero_add]
        rw [List.getElem?_take] at hj
        split_ifs at hj with hjk
        rw [List.getElem?_eq_getElem (by omega)] at hj
        cases hj
        apply hasLine_rowBlock_schlussgang v hshow hsorted hgroups j _ (by omega)
        rintro ⟨hl, hD⟩
        have hsucc := distinctTotals_succ _ hsorted j (by omega)
        have h1 := (hiff (j + 1) (by omega)).1 (by omega)
        unfold isLastOfRank at hl
        rw [List.getElem?_eq_getElem (by omega)] at hl
        simp only [decide_eq_true_eq] at hl
        rw [if_neg hl] at hsucc
        omega
      rw [hq]
      rfl
    · apply walkRows_quiet
      intro j s hj
      have hjn : k + j < v.competedSchwinger.length := by
        by_contra hc
        rw [List.getElem?_drop, List.getElem?_eq_none (by omega)] at hj
        cases hj
      apply hasLine_rowBlock_schlussgang v hshow hsorted hgroups (k + j) _ hjn
      rintro ⟨_, hD⟩
      have := (hiff (k + j) hjn).2 (by omega)
      omega
    · have htake : v.competedSchwinger.take k =
          v.competedSchwinger.take (k - 1) ++ [v.competedSchwinger[k - 1]] := by
        conv_lhs => rw [← show k - 1 + 1 = k by omega, List.take_succ,
          List.getElem?_eq_getElem hk1]
        rfl
      rw [List.filterMap_append, entries_walkRows, htake, List.map_append]
      rfl
    · intro i hi
      rw [isSchlussgangCandidate_iff _ hsorted i hi]
      exact hiff i hi
  · intro hn
    refine ⟨_, rfl, ?_⟩
    apply walkRows_quiet
    intro j s hj
    have hjn : j < v.competedSchwinger.length := by
      by_contra hc
      rw [List.getElem?_eq_none (by omega)] at hj
      cases hj
    rw [Nat.zero_add]
    apply hasLine_rowBlock_schlussgang v hshow hsorted hgroups j _ hjn
    rintro ⟨_, hD⟩
    have hj0 : j = 0 := by omega
    subst hj0
    rw [distinctTotals_zero _ hjn] at hD
    have hsize : rank1GroupSize v.competedSchwinger ≤ v.competedSchwinger.length := by
      unfold rank1GroupSize
      exact (List.length_filter_le _ _).trans (by simp)
    unfold schlussgangRank at hD
    rw [if_neg (by omega)] at hD
    cases hD

theorem sampleSchlussgangView_sorted :
    SortedByTotal sampleSchlussgangView.competedSchwinger := by
  unfold SortedByTotal sampleSchlussgangView sampleSchwinger
  simp only [List.pairwise_cons, List.mem_cons, List.mem_singleton, List.not_mem_nil,
    forall_eq_or_imp, forall_eq, List.Pairwise.nil, and_true]
  norm_num

theorem sampleSchlussgangView_groups :
    TieGroupsBounded sampleSchlussgangView.competedSchwinger :=
  fun _ => le_trans (List.countP_le_length _) (by decide)

/-- C14 at the sample round-5 view: one leader, so the candidates are the leader and the two
competitors tied at rank 2. -/
theorem C14_schlussgang_candidates_witness :
    showSchlussgang sampleSchlussgangView = true ∧
    SortedByTotal sampleSchlussgangView.competedSchwinger ∧
    TieGroupsBounded sampleSchlussgangView.competedSchwinger ∧
    2 ≤ sampleSchlussgangView.competedSchwinger.length ∧
    ∃ before after k,
      renderTableRows sampleSchlussgangView =
        some (before ++ Row.line .schlussgang "--- Schlussgangkandidaten ---" :: after) ∧
      hasLine .schlussgang before = false ∧ hasLine .schlussgang after = false ∧
      before.filterMap Row.entry = (sampleSchlussgangView.competedSchwinger.take k).map Sum.inl ∧
      k ≤ sampleSchlussgangView.competedSchwinger.length ∧
      ∀ i, i < sampleSchlussgangView.competedSchwinger.length →
        (i < k ↔ IsSchlussgangCandidate sampleSchlussgangView.competedSchwinger i) :=
  ⟨by decide, sampleSchlussgangView_sorted, sampleSchlussgangView_groups, by decide,
    (C14_schlussgang_candidates sampleSchlussgangView (by decide) sampleSchlussgangView_sorted
      sampleSchlussgangView_groups).1 (by decide)⟩

/-- The rows of the sample round-5 view. -/
theorem sampleSchlussgangView_rows :
    renderTableRows sampleSchlussgangView = some
      [Row.schwinger (sampleSchwinger "1" 48.75) "1a",
       Row.schwinger (sampleSchwinger "2" 48.50) "2a",
       Row.schwinger (sampleSchwinger "3" 48.50) "2b",
       Row.line .schlussgang "--- Schlussgangkandidaten ---",
       Row.schwinger (sampleSchwinger "4" 47) "3a"] := by
  decide!

/-! ## C15: where the qualification-count dividers sit -/

theorem showKranz_exclusive (v : RanglisteView) (h : showKranz v = true) :
    showSchlussgang v = false := by
  simp only [showSchlussgang, showKranz] at h ⊢
  cases hf : v.festivalType <;> simp [hf] at h ⊢ <;> omega

theorem minKranzRank_le_max (v : RanglisteView) (hbound : v.size < 2 ^ 32) :
    minKranzRank v ≤ maxKranzRank v := by
  unfold minKranzRank maxKranzRank
  split_ifs
  · rw [ceil_double015 v.size hbound, ceil_double018 v.size hbound]
    apply Nat.ceil_mono
    have : (0 : ℚ) ≤ v.size := Nat.cast_nonneg _
    linarith
  · exact le_rfl

theorem minKranzRank_pos (v : RanglisteView) (hs : showKranz v = true) (hsize : 1 ≤ v.size)
    (hbound : v.size < 2 ^ 32) : 1 ≤ minKranzRank v := by
  unfold minKranzRank
  rw [if_pos hs, ceil_double015 v.size hbound]
  apply Nat.one_le_iff_ne_zero.2
  rw [Ne, Nat.ceil_eq_zero, not_le]
  have : (1 : ℚ) ≤ v.size := by exact_mod_cast hsize
  linarith

theorem countTarget_bounds (v : RanglisteView) (hs : showKranz v = true) (hsize : 1 ≤ v.size)
    (hbound : v.size < 2 ^ 32) (kind : LineKind) (hk : kind = .minKranz ∨ kind = .maxKranz) :
    1 ≤ countTarget v kind ∧ minKranzRank v ≤ countTarget v kind ∧
    countTarget v kind ≤ maxKranzRank v := by
  have h1 := minKranzRank_pos v hs hsize hbound
  have h2 := minKranzRank_le_max v hbound
  rcases hk with rfl | rfl <;> simp only [countTarget] <;> omega

/-- In the Kranz view a row block is the cutoff check, the row and, after the last row of a
tie group of candidates, the two count checks. -/
theorem rowBlock_kranz (v : RanglisteView) (hs : showKranz v = true) (isAnwaerter : Bool)
    (g : Nat) (s : Schwinger) :
    rowBlock v isAnwaerter g s =
      cutoffLines v (prevTotal (fullList v) g) s.total ++
        Row.schwinger s (rankDisplayAt (fullList v) g).display ::
          (if (isLastOfRank (fullList v) g s && isAnwaerter) = true then countLines v (g + 1)
            else []) := by
  unfold rowBlock schlussgangLines
  simp [hs, showKranz_exclusive v hs]

/-- The count checks at the position of a divider push that divider, preceded by nothing or,
for the "Max. Kränze" divider at the common position, by the "Min. Kränze" divider. -/
theorem countLines_target (v : RanglisteView) (kind : LineKind)
    (hk : kind = .minKranz ∨ kind = .maxKranz) :
    ∃ gap text tail, countLines v (countTarget v kind) = gap ++ Row.line kind text :: tail ∧
      (gap = [] ∨ ∃ t, kind = .maxKranz ∧ gap = [Row.line .minKranz t]) ∧
      (kind = .minKranz → gap = []) := by
  rcases hk with rfl | rfl
  · refine ⟨[], countText "Min. Kränze" (minKranzRank v),
      if minKranzRank v = maxKranzRank v then
        [Row.line .maxKranz (countText "Max. Kränze" (maxKranzRank v))] else [],
      ?_, Or.inl rfl, fun _ => rfl⟩
    simp [countLines, countTarget]
  · by_cases hm : maxKranzRank v = minKranzRank v
    · refine ⟨[Row.line .minKranz (countText "Min. Kränze" (minKranzRank v))],
        countText "Max. Kränze" (maxKranzRank v), [], ?_, Or.inr ⟨_, rfl, rfl⟩,
        fun h => by cases h⟩
      simp [countLines, countTarget, hm]
    · refine ⟨[], countText "Max. Kränze" (maxKranzRank v), [], ?_, Or.inl rfl,
        fun h => by cases h⟩
      simp [countLines, countTarget, hm]

theorem mem_walkRows_schwinger (v : RanglisteView) (isAnwaerter : Bool) (list : List Schwinger)
    (g : Nat) (s : Schwinger) (d : String)
    (h : Row.schwinger s d ∈ walkRows v isAnwaerter list g) : s ∈ list := by
  have hmem : Sum.inl s ∈ (walkRows v isAnwaerter list g).filterMap Row.entry :=
    List.mem_filterMap.2 ⟨_, h, rfl⟩
  rw [entries_walkRows] at hmem
  simpa using hmem

theorem not_mem_placeholderRowsFrom (v : RanglisteView) (lastRank remaining i : Nat)
    (s : Schwinger) (d : String) :
    Row.schwinger s d ∉ placeholderRowsFrom v lastRank remaining i := by
  intro h
  have hmem : Sum.inl s ∈ (placeholderRowsFrom v lastRank remaining i).filterMap Row.entry :=
    List.mem_filterMap.2 ⟨_, h, rfl⟩
  rw [entries_placeholderRowsFrom] at hmem
  simp at hmem

theorem not_mem_cutoffLines (v : RanglisteView) (lastTotal : Option ℚ) (total : ℚ)
    (s : Schwinger) (d : String) : Row.schwinger s d ∉ cutoffLines v lastTotal total := by
  intro h
  have hmem : Sum.inl s ∈ (cutoffLines v lastTotal total).filterMap Row.entry :=
    List.mem_filterMap.2 ⟨_, h, rfl⟩
  rw [entries_cutoffLines] at hmem
  simp at hmem

theorem placeholderRowsFrom_add (v : RanglisteView) (lastRank : Nat) :
    ∀ (a b i : Nat),
      placeholderRowsFrom v lastRank (a + b) i =
        placeholderRowsFrom v lastRank a i ++ placeholderRowsFrom v lastRank b (i + a) := by
  intro a
  induction a with
  | zero => intro b i; simp [placeholderRowsFrom]
  | succ a ih =>
    intro b i
    rw [show a + 1 + b = (a + b) + 1 by omega, placeholderRowsFrom, placeholderRowsFrom, ih,
      show i + 1 + a = i + (a + 1) by omega]
    simp

theorem hasLine_false_of_lineCount {kind : LineKind} {rows : List Row}
    (h : lineCount kind rows = 0) : hasLine kind rows = false := by
  rw [hasLine_eq_decide, h]
  rfl

theorem hasLine_split {kind : LineKind} {rows : List Row} (h : hasLine kind rows = true) :
    ∃ b t c, rows = b ++ Row.line kind t :: c := by
  unfold hasLine at h
  obtain ⟨row, hmem, hrow⟩ := List.any_eq_true.1 h
  obtain ⟨b, c, rfl⟩ := List.append_of_mem hmem
  cases row with
  | line k t =>
    simp only [isLineOf, decide_eq_true_eq] at hrow
    subst hrow
    exact ⟨b, t, c, rfl⟩
  | schwinger s d => simp [isLineOf] at hrow
  | empty r => simp [isLineOf] at hrow

theorem kranzAnwaerter_above (v : RanglisteView) (hs : showKranz v = true) (s : Schwinger)
    (h : s ∈ kranzAnwaerter v) : kranzScoreThreshold v < s.total := by
  unfold kranzAnwaerter at h
  rw [if_pos hs] at h
  simpa using (List.mem_filter.1 h).2

/-- The walk over the first `n` candidates pushes no count divider whose position is beyond
`n`. -/
theorem walkRows_take_quiet (v : RanglisteView) (kind : LineKind)
    (hk : kind = .minKranz ∨ kind = .maxKranz) (n : Nat) (hn : n < countTarget v kind) :
    hasLine kind (walkRows v true ((kranzAnwaerter v).take n) 0) = false := by
  apply hasLine_false_of_lineCount
  have h := lineCount_walkRows_le v kind hk true ((kranzAnwaerter v).take n) 0
  have hlen : ((kranzAnwaerter v).take n).length ≤ n := by
    rw [List.length_take]
    omega
  rw [if_neg (by omega)] at h
  omega

theorem hasLine_gap (kind : LineKind) (gap : List Row)
    (hgap : gap = [] ∨ ∃ t, kind = .maxKranz ∧ gap = [Row.line .minKranz t]) :
    hasLine kind gap = false ∧ gap.filterMap Row.entry = [] ∧
      ∀ s d, Row.schwinger s d ∉ gap := by
  rcases hgap with rfl | ⟨t, rfl, rfl⟩
  · exact ⟨rfl, rfl, fun _ _ h => by cases h⟩
  · exact ⟨rfl, rfl, fun _ _ h => by simp at h⟩

/-- The divider sits at its position when the row at that position is a candidate followed by
no entry with the same total. -/
theorem tableRows_placed_candidate (v : RanglisteView) (hs : showKranz v = true)
    (kind : LineKind) (hk : kind = .minKranz ∨ kind = .maxKranz)
    (hpos : 1 ≤ countTarget v kind) (hle : minKranzRank v ≤ maxKranzRank v) (s : Schwinger)
    (hget : (kranzAnwaerter v)[countTarget v kind - 1]? = some s)
    (hlast : isLastOfRank (fullList v) (countTarget v kind - 1) s = true) :
    ∃ before text after, tableRows v = before ++ Row.line kind text :: after ∧
      hasLine kind before = false ∧
      (before.filterMap Row.entry).length = countTarget v kind ∧
      (∀ s d, Row.schwinger s d ∈ before → kranzScoreThreshold v < s.total) ∧
      ((∃ front row, before = front ++ [row] ∧ (Row.entry row).isSome = true) ∨
        (∃ front row t, kind = .maxKranz ∧ before = front ++ [row, Row.line .minKranz t] ∧
          (Row.entry row).isSome = true)) ∧
      (kind = .minKranz → hasLine .maxKranz before = false) := by
  obtain ⟨gap, text, tail, hcount, hgap, hgapmin⟩ := countLines_target v kind hk
  obtain ⟨hgap1, hgap2, hgap3⟩ := hasLine_gap kind gap hgap
  have hlt : countTarget v kind - 1 < (kranzAnwaerter v).length := by
    by_contra hc
    rw [List.getElem?_eq_none (by omega)] at hget
    cases hget
  rw [List.getElem?_eq_getElem hlt] at hget
  cases hget
  have hsplit : kranzAnwaerter v =
      (kranzAnwaerter v).take (countTarget v kind - 1) ++
        (kranzAnwaerter v)[countTarget v kind - 1] ::
          (kranzAnwaerter v).drop (countTarget v kind) := by
    have := List.take_append_drop (countTarget v kind - 1) (kranzAnwaerter v)
    rw [List.drop_eq_getElem_cons hlt, show countTarget v kind - 1 + 1 = countTarget v kind
      by omega] at this
    exact this.symm
  have hlen : ((kranzAnwaerter v).take (countTarget v kind - 1)).length =
      countTarget v kind - 1 := by
    rw [List.length_take]
    omega
  have hwalk : walkRows v true (kranzAnwaerter v) 0 =
      walkRows v true ((kranzAnwaerter v).take (countTarget v kind - 1)) 0 ++
        (cutoffLines v (prevTotal (fullList v) (countTarget v kind - 1))
            (kranzAnwaerter v)[countTarget v kind - 1].total ++
          Row.schwinger (kranzAnwaerter v)[countTarget v kind - 1]
            (rankDisplayAt (fullList v) (countTarget v kind - 1)).display ::
            (gap ++ Row.line kind text :: tail)) ++
        walkRows v true ((kranzAnwaerter v).drop (countTarget v kind)) (countTarget v kind) := by
    conv_lhs => rw [hsplit]
    rw [walkRows_append, walkRows, hlen, Nat.zero_add, rowBlock_kranz v hs, hlast,
      show countTarget v kind - 1 + 1 = countTarget v kind by omega, hcount]
    simp
  refine ⟨walkRows v true ((kranzAnwaerter v).take (countTarget v kind - 1)) 0 ++
      cutoffLines v (prevTotal (fullList v) (countTarget v kind - 1))
        (kranzAnwaerter v)[countTarget v kind - 1].total ++
      [Row.schwinger (kranzAnwaerter v)[countTarget v kind - 1]
        (rankDisplayAt (fullList v) (countTarget v kind - 1)).display] ++ gap,
    text,
    tail ++ walkRows v true ((kranzAnwaerter v).drop (countTarget v kind)) (countTarget v kind)
      ++ placeholderRows v ++ walkRows v false (rest v) (kranzAnwaerter v).length
      ++ missingLines v (bodyRows v), ?_, ?_, ?_, ?_, ?_, ?_⟩
  · unfold tableRows
    generalize missingLines v (bodyRows v) = missing
    rw [bodyRows, hwalk]
    simp only [List.append_assoc, List.cons_append, List.nil_append]
  · rw [hasLine_append, hasLine_append, hasLine_append,
      walkRows_take_quiet v kind hk _ (by omega),
      hasLine_false_of_lineCount (lineCount_cutoffLines v kind hk _ _), hgap1]
    rfl
  · rw [List.filterMap_append, List.filterMap_append, List.filterMap_append, entries_walkRows,
      entries_cutoffLines, hgap2]
    simp [Row.entry, hlen]
    omega
  · intro s d hmem
    simp only [List.mem_append, List.mem_singleton] at hmem
    rcases hmem with ((hmem | hmem) | hmem) | hmem
    · exact kranzAnwaerter_above v hs s
        (List.mem_of_mem_take (mem_walkRows_schwinger v true _ _ s d hmem))
    · exact absurd hmem (not_mem_cutoffLines v _ _ s d)
    · cases hmem
      exact kranzAnwaerter_above v hs _ (List.getElem_mem _)
    · exact absurd hmem (hgap3 s d)
  · rcases hgap with rfl | ⟨t, hkind, rfl⟩
    · exact Or.inl ⟨walkRows v true ((kranzAnwaerter v).take (countTarget v kind - 1)) 0 ++
        cutoffLines v (prevTotal (fullList v) (countTarget v kind - 1))
          (kranzAnwaerter v)[countTarget v kind - 1].total,
        Row.schwinger (kranzAnwaerter v)[countTarget v kind - 1]
          (rankDisplayAt (fullList v) (countTarget v kind - 1)).display,
        by rw [List.append_nil], rfl⟩
    · exact Or.inr ⟨walkRows v true ((kranzAnwaerter v).take (countTarget v kind - 1)) 0 ++
        cutoffLines v (prevTotal (fullList v) (countTarget v kind - 1))
          (kranzAnwaerter v)[countTarget v kind - 1].total,
        Row.schwinger (kranzAnwaerter v)[countTarget v kind - 1]
          (rankDisplayAt (fullList v) (countTarget v kind - 1)).display,
        t, hkind, by simp only [List.append_assoc, List.singleton_append], rfl⟩
  · intro hmin
    subst hmin
    rw [hgapmin rfl, List.append_nil, hasLine_append, hasLine_append,
      walkRows_take_quiet v .maxKranz (Or.inr rfl) _ (by simp only [countTarget] at *; omega),
      hasLine_false_of_lineCount (lineCount_cutoffLines v .maxKranz (Or.inr rfl) _ _)]
    rfl

theorem walkRows_candidates_quiet (v : RanglisteView) (kind : LineKind)
    (hk : kind = .minKranz ∨ kind = .maxKranz)
    (hn : (kranzAnwaerter v).length < countTarget v kind) :
    hasLine kind (walkRows v true (kranzAnwaerter v) 0) = false := by
  apply hasLine_false_of_lineCount
  have h := lineCount_walkRows_le v kind hk true (kranzAnwaerter v) 0
  rw [if_neg (by omega)] at h
  omega

theorem placeholderRowsFrom_quiet (v : RanglisteView) (kind : LineKind)
    (hk : kind = .minKranz ∨ kind = .maxKranz) (lastRank remaining : Nat)
    (hn : (kranzAnwaerter v).length + remaining < countTarget v kind) :
    hasLine kind (placeholderRowsFrom v lastRank remaining 0) = false := by
  apply hasLine_false_of_lineCount
  have h := lineCount_placeholderRowsFrom_le v kind hk lastRank remaining 0
  rw [if_neg (by omega)] at h
  omega

/-- The divider sits at its position when the row at that position is a placeholder. -/
theorem tableRows_placed_placeholder (v : RanglisteView) (hs : showKranz v = true)
    (kind : LineKind) (hk : kind = .minKranz ∨ kind = .maxKranz)
    (hlt : (kranzAnwaerter v).length < countTarget v kind)
    (hmax : countTarget v kind ≤ maxKranzRank v) :
    ∃ before text after, tableRows v = before ++ Row.line kind text :: after ∧
      hasLine kind before = false ∧
      (before.filterMap Row.entry).length = countTarget v kind ∧
      (∀ s d, Row.schwinger s d ∈ before → kranzScoreThreshold v < s.total) ∧
      ((∃ front row, before = front ++ [row] ∧ (Row.entry row).isSome = true) ∨
        (∃ front row t, kind = .maxKranz ∧ before = front ++ [row, Row.line .minKranz t] ∧
          (Row.entry row).isSome = true)) ∧
      (kind = .minKranz → hasLine .maxKranz before = false) := by
  obtain ⟨gap, text, tail, hcount, hgap, hgapmin⟩ := countLines_target v kind hk
  obtain ⟨hgap1, hgap2, hgap3⟩ := hasLine_gap kind gap hgap
  generalize hi : countTarget v kind - (kranzAnwaerter v).length - 1 = i
  have hplace : placeholderRows v =
      placeholderRowsFrom v (lastCandidateRank v) i 0 ++
        (Row.empty (Nat.repr (lastCandidateRank v + (0 + i) + 1) ++ "a") ::
          (gap ++ Row.line kind text :: tail)) ++
        placeholderRowsFrom v (lastCandidateRank v) (maxKranzRank v - countTarget v kind)
          (0 + i + 1) := by
    unfold placeholderRows
    rw [if_pos hs, show maxKranzRank v - (kranzAnwaerter v).length =
      i + ((maxKranzRank v - countTarget v kind) + 1) by omega, placeholderRowsFrom_add]
    have h2 : placeholderRowsFrom v (lastCandidateRank v)
        ((maxKranzRank v - countTarget v kind) + 1) (0 + i) =
        Row.empty (Nat.repr (lastCandidateRank v + (0 + i) + 1) ++ "a") ::
          (countLines v ((kranzAnwaerter v).length + (0 + i) + 1) ++
            placeholderRowsFrom v (lastCandidateRank v) (maxKranzRank v - countTarget v kind)
              (0 + i + 1)) := rfl
    rw [h2, show (kranzAnwaerter v).length + (0 + i) + 1 = countTarget v kind by omega, hcount]
    simp only [List.append_assoc, List.cons_append]
  refine ⟨walkRows v true (kranzAnwaerter v) 0 ++
      placeholderRowsFrom v (lastCandidateRank v) i 0 ++
      [Row.empty (Nat.repr (lastCandidateRank v + (0 + i) + 1) ++ "a")] ++ gap,
    text,
    tail ++ placeholderRowsFrom v (lastCandidateRank v) (maxKranzRank v - countTarget v kind)
        (0 + i + 1)
      ++ walkRows v false (rest v) (kranzAnwaerter v).length
      ++ missingLines v (bodyRows v), ?_, ?_, ?_, ?_, ?_, ?_⟩
  · unfold tableRows
    generalize missingLines v (bodyRows v) = missing
    rw [bodyRows, hplace]
    simp only [List.append_assoc, List.cons_append, List.nil_append]
  · rw [hasLine_append, hasLine_append, hasLine_append,
      walkRows_candidates_quiet v kind hk hlt,
      placeholderRowsFrom_quiet v kind hk _ _ (by omega), hgap1]
    rfl
  · rw [List.filterMap_append, List.filterMap_append, List.filterMap_append, entries_walkRows,
      entries_placeholderRowsFrom, hgap2]
    simp [Row.entry]
    omega
  · intro s d hmem
    simp only [List.mem_append, List.mem_singleton] at hmem
    rcases hmem with ((hmem | hmem) | hmem) | hmem
    · exact kranzAnwaerter_above v hs s (mem_walkRows_schwinger v true _ _ s d hmem)
    · exact absurd hmem (not_mem_placeholderRowsFrom v _ _ _ s d)
    · cases hmem
    · exact absurd hmem (hgap3 s d)
  · rcases hgap with rfl | ⟨t, hkind, rfl⟩
    · exact Or.inl ⟨walkRows v true (kranzAnwaerter v) 0 ++
          placeholderRowsFrom v (lastCandidateRank v) i 0,
        Row.empty (Nat.repr (lastCandidateRank v + (0 + i) + 1) ++ "a"),
        by rw [List.append_nil], rfl⟩
    · exact Or.inr ⟨walkRows v true (kranzAnwaerter v) 0 ++
          placeholderRowsFrom v (lastCandidateRank v) i 0,
        Row.empty (Nat.repr (lastCandidateRank v + (0 + i) + 1) ++ "a"),
        t, hkind, by simp only [List.append_assoc, List.singleton_append], rfl⟩
  · intro hmin
    subst hmin
    rw [hgapmin rfl, List.append_nil, hasLine_append, hasLine_append,
      walkRows_candidates_quiet v .maxKranz (Or.inr rfl)
        (by simp only [countTarget] at *; omega),
      placeholderRowsFrom_quiet v .maxKranz (Or.inr rfl) _ _
        (by simp only [countTarget] at *; omega)]
    rfl

/-- The final checks: three cutoff checks, then the "Max. Kränze" check, then the
"Min. Kränze" check. -/
theorem missingLines_split (v : RanglisteView) (body : List Row) :
    ∃ cutoffs, missingLines v body =
        cutoffs ++
          ((if (showKranz v && !hasLine .maxKranz body) = true then
              [Row.line .maxKranz (countText "Max. Kränze" (maxKranzRank v))] else []) ++
            (if (showKranz v && !hasLine .minKranz body) = true then
              [Row.line .minKranz (countText "Min. Kränze" (minKranzRank v))] else [])) ∧
      hasLine .minKranz cutoffs = false ∧ hasLine .maxKranz cutoffs = false ∧
      cutoffs.filterMap Row.entry = [] := by
  refine ⟨(if (showAusstich v && decide (v.ausstichLinie ≠ "0") && !hasLine .ausstich body)
        = true then [Row.line .ausstich (cutoffText "Ausstichlinie" v.ausstichLinie)] else []) ++
      (if (showKranzausstich v && decide (v.kranzausstichLinie ≠ "0")
          && !hasLine .kranzausstich body) = true then
        [Row.line .kranzausstich (cutoffText "Kranzausstichlinie" v.kranzausstichLinie)]
        else []) ++
      (if (showKranz v && decide (v.kranzLinie ≠ "0") && !hasLine .kranz body) = true then
        [Row.line .kranz (cutoffText "Kranzlinie" v.kranzLinie)] else []), ?_, ?_, ?_, ?_⟩
  · unfold missingLines
    simp only [List.append_assoc]
  · split_ifs <;> rfl
  · split_ifs <;> rfl
  · split_ifs <;> rfl

theorem bodyRows_quiet (v : RanglisteView) (hs : showKranz v = true) (kind : LineKind)
    (hk : kind = .minKranz ∨ kind = .maxKranz) (hnot : ¬SitsAtPosition v kind) :
    hasLine kind (bodyRows v) = false := by
  have hle : countTarget v kind ≤ (kranzAnwaerter v).length := by
    by_contra hc
    exact hnot (Or.inl (by omega))
  unfold bodyRows
  rw [hasLine_append, hasLine_append]
  have h1 : hasLine kind (walkRows v true (kranzAnwaerter v) 0) = false := by
    apply walkRows_quiet
    intro j s hj
    rw [Nat.zero_add]
    by_cases hjt : j + 1 = countTarget v kind
    · have hlast : isLastOfRank (fullList v) j s = false := by
        cases hl : isLastOfRank (fullList v) j s with
        | false => rfl
        | true =>
          exfalso
          apply hnot
          refine Or.inr ⟨s, ?_, ?_⟩
          · rw [← hjt]; exact hj
          · rw [← hjt]; exact hl
      apply hasLine_false_of_lineCount
      rw [rowBlock_kranz v hs, hlast, lineCount_append, lineCount_cutoffLines v kind hk]
      simp [lineCount, isLineOf]
    · apply hasLine_false_of_lineCount
      have := lineCount_rowBlock_le v kind hk true j s
      rw [if_neg (by omega)] at this
      omega
  have h2 : hasLine kind (placeholderRows v) = false := by
    apply hasLine_false_of_lineCount
    unfold placeholderRows
    rw [if_pos hs]
    have := lineCount_placeholderRowsFrom_le v kind hk (lastCandidateRank v)
      (maxKranzRank v - (kranzAnwaerter v).length) 0
    rw [if_neg (by omega)] at this
    omega
  have h3 : hasLine kind (walkRows v false (rest v) (kranzAnwaerter v).length) = false := by
    apply hasLine_false_of_lineCount
    have := lineCount_walkRows_le v kind hk false (rest v) (kranzAnwaerter v).length
    simpa using this
  rw [h1, h2, h3]
  rfl

/-- A divider that does not sit at its position is pushed by the final checks, after all
competitor and placeholder rows; the "Min. Kränze" divider is then the last row. -/
theorem tableRows_at_end (v : RanglisteView) (hs : showKranz v = true) (kind : LineKind)
    (hk : kind = .minKranz ∨ kind = .maxKranz) (hnot : ¬SitsAtPosition v kind) :
    ∃ before text after, tableRows v = before ++ Row.line kind text :: after ∧
      hasLine kind before = false ∧ after.filterMap Row.entry = [] ∧
      (kind = .minKranz → after = []) := by
  have hbody := bodyRows_quiet v hs kind hk hnot
  obtain ⟨cutoffs, hsplit, hc1, hc2, _⟩ := missingLines_split v (bodyRows v)
  unfold tableRows
  rw [hsplit]
  rcases hk with rfl | rfl
  · refine ⟨bodyRows v ++ cutoffs ++
        (if (showKranz v && !hasLine .maxKranz (bodyRows v)) = true then
          [Row.line .maxKranz (countText "Max. Kränze" (maxKranzRank v))] else []),
      countText "Min. Kränze" (minKranzRank v), [], ?_, ?_, rfl, fun _ => rfl⟩
    · rw [hs, hbody]
      simp only [List.append_assoc, Bool.not_false, Bool.and_self, if_true]
    · rw [hasLine_append, hasLine_append, hbody, hc1]
      split_ifs <;> rfl
  · refine ⟨bodyRows v ++ cutoffs, countText "Max. Kränze" (maxKranzRank v),
      (if (showKranz v && !hasLine .minKranz (bodyRows v)) = true then
          [Row.line .minKranz (countText "Min. Kränze" (minKranzRank v))] else []),
      ?_, ?_, ?_, fun h => by cases h⟩
    · rw [hs, hbody]
      simp only [List.append_assoc, Bool.not_false, Bool.and_self, if_true]
      rfl
    · rw [hasLine_append, hbody, hc2]
      rfl
    · split_ifs <;> rfl

theorem takeWhile_not_isLineOf (kind : LineKind) (text : String) (after : List Row) :
    ∀ before : List Row, hasLine kind before = false →
      (before ++ Row.line kind text :: after).takeWhile (fun row => !isLineOf kind row) =
        before := by
  intro before
  induction before with
  | nil => intro _; simp [isLineOf]
  | cons b before ih =>
    intro h
    unfold hasLine at h
    rw [List.any_cons, Bool.or_eq_false_iff] at h
    rw [List.cons_append, List.takeWhile_cons]
    simp only [h.1, Bool.not_false, if_true]
    rw [ih h.2]

/-- C15 (amended). Qualification-count dividers: in the final-round Kranz view with `N ≥ 1`
competitors, each of the "Min. Kränze" and "Max. Kränze" dividers directly follows the row
at its position (`minKranzRank`, `maxKranzRank`) in the sequence of candidate rows followed
by placeholder rows, with exactly that many candidate or placeholder rows and no
non-candidate row before it, whenever that row is a placeholder or a candidate followed by no
entry with the same total; otherwise the final checks push it after all competitor and
placeholder rows. The Min divider comes before the Max divider when it sits at its position,
and after it otherwise. -/
theorem C15_count_divider_positions (v : RanglisteView)
    (hfinal : (v.festivalType = .normal ∧ v.currentRound = 6) ∨
      (v.festivalType = .esaf ∧ v.currentRound = 8))
    (hsize : 1 ≤ v.size) (hbound : v.size < 2 ^ 32) :
    ∃ rows, renderTableRows v = some rows ∧
      (∀ kind, kind = .minKranz ∨ kind = .maxKranz →
        (SitsAtPosition v kind → CountDividerPlaced v kind rows) ∧
        (¬SitsAtPosition v kind → CountDividerAtEnd kind rows)) ∧
      (SitsAtPosition v .minKranz → DividerBefore .minKranz .maxKranz rows) ∧
      (¬SitsAtPosition v .minKranz → DividerBefore .maxKranz .minKranz rows) := by
  have hs : showKranz v = true := by simpa [showKranz] using hfinal
  have hplaced : ∀ kind, kind = .minKranz ∨ kind = .maxKranz → SitsAtPosition v kind →
      ∃ before text after, tableRows v = before ++ Row.line kind text :: after ∧
        hasLine kind before = false ∧
        (before.filterMap Row.entry).length = countTarget v kind ∧
        (∀ s d, Row.schwinger s d ∈ before → kranzScoreThreshold v < s.total) ∧
        ((∃ front row, before = front ++ [row] ∧ (Row.entry row).isSome = true) ∨
          (∃ front row t, kind = .maxKranz ∧ before = front ++ [row, Row.line .minKranz t] ∧
            (Row.entry row).isSome = true)) ∧
        (kind = .minKranz → hasLine .maxKranz before = false) := by
    intro kind hk hsits
    obtain ⟨hpos, _, hmax⟩ := countTarget_bounds v hs hsize hbound kind hk
    rcases hsits with hlt | ⟨s, hget, hlast⟩
    · exact tableRows_placed_placeholder v hs kind hk hlt hmax
    · exact tableRows_placed_candidate v hs kind hk hpos (minKranzRank_le_max v hbound) s hget
        hlast
  have hone := lineCount_tableRows v .maxKranz (Or.inr rfl) hs
  refine ⟨tableRows v, renderTableRows_eq v, ?_, ?_, ?_⟩
  · intro kind hk
    constructor
    · intro hsits
      obtain ⟨before, text, after, h1, h2, h3, h4, h5, _⟩ := hplaced kind hk hsits
      exact ⟨before, text, after, h1, h2, h3, h4, h5⟩
    · intro hnot
      obtain ⟨before, text, after, h1, h2, h3, _⟩ := tableRows_at_end v hs kind hk hnot
      exact ⟨before, text, after, h1, h2, h3⟩
  · intro hsits
    obtain ⟨before, text, after, h1, _, _, _, _, h6⟩ := hplaced .minKranz (Or.inl rfl) hsits
    have h6 := h6 rfl
    rw [h1, lineCount_append, ← List.singleton_append, lineCount_append] at hone
    rw [hasLine_eq_decide, decide_eq_false_iff_not] at h6
    have hmin : lineCount .maxKranz [Row.line .minKranz text] = 0 := rfl
    have hafter : hasLine .maxKranz after = true := by
      rw [hasLine_eq_decide, decide_eq_true_eq]
      omega
    obtain ⟨b, t2, c, rfl⟩ := hasLine_split hafter
    exact ⟨before, text, b, t2, c, h1⟩
  · intro hnot
    obtain ⟨before, text, after, h1, _, _, h4⟩ :=
      tableRows_at_end v hs .minKranz (Or.inl rfl) hnot
    rw [h4 rfl] at h1
    rw [h1, lineCount_append] at hone
    have hmin : lineCount .maxKranz [Row.line .minKranz text] = 0 := rfl
    have hbefore : hasLine .maxKranz before = true := by
      rw [hasLine_eq_decide, decide_eq_true_eq]
      omega
    obtain ⟨b, t2, c, rfl⟩ := hasLine_split hbefore
    refine ⟨b, t2, c, text, [], ?_⟩
    rw [h1]
    simp only [List.append_assoc, List.cons_append]

/-- C15 at the sample final-round view: 40 competitors, two candidates, so both positions
(6 and 8) fall on placeholder rows. -/
theorem C15_count_divider_positions_witness :
    ((sampleKranzView.festivalType = .normal ∧ sampleKranzView.currentRound = 6) ∨
      (sampleKranzView.festivalType = .esaf ∧ sampleKranzView.currentRound = 8)) ∧
    1 ≤ sampleKranzView.size ∧ sampleKranzView.size < 2 ^ 32 ∧
    ∃ rows, renderTableRows sampleKranzView = some rows ∧
      (∀ kind, kind = .minKranz ∨ kind = .maxKranz →
        (SitsAtPosition sampleKranzView kind → CountDividerPlaced sampleKranzView kind rows) ∧
        (¬SitsAtPosition sampleKranzView kind → CountDividerAtEnd kind rows)) ∧
      (SitsAtPosition sampleKranzView .minKranz → DividerBefore .minKranz .maxKranz rows) ∧
      (¬SitsAtPosition sampleKranzView .minKranz → DividerBefore .maxKranz .minKranz rows) :=
  ⟨Or.inl ⟨rfl, rfl⟩, by decide, by decide,
    C15_count_divider_positions sampleKranzView (Or.inl ⟨rfl, rfl⟩) (by decide) (by decide)⟩

/-- C15 as stated fails when the position falls inside a tie group: with 20 competitors
(`minKranzRank = 3`, `maxKranzRank = 4`) and four candidates of which the last three are
tied, the "Min. Kränze" divider does not follow the third row; it is the last row of the
table, after four candidate rows and after the "Max. Kränze" divider. -/
theorem C15_count_divider_positions_counterexample :
    ((sampleTiedKranzView.festivalType = .normal ∧ sampleTiedKranzView.currentRound = 6) ∨
      (sampleTiedKranzView.festivalType = .esaf ∧ sampleTiedKranzView.currentRound = 8)) ∧
    1 ≤ sampleTiedKranzView.size ∧
    SortedByTotal sampleTiedKranzView.competedSchwinger ∧
    countTarget sampleTiedKranzView .minKranz = 3 ∧
    renderTableRows sampleTiedKranzView = some
      [.schwinger (sampleSchwinger "1" 58) "1a", .schwinger (sampleSchwinger "2" 57) "2a",
       .schwinger (sampleSchwinger "3" 57) "2b", .schwinger (sampleSchwinger "4" 57) "2c",
       .line .maxKranz "--- Max. Kränze (4) ---",
       .line .kranz "--- Kranzlinie (56.50) ---",
       .line .minKranz "--- Min. Kränze (3) ---"] ∧
    ¬CountDividerPlaced sampleTiedKranzView .minKranz
      [.schwinger (sampleSchwinger "1" 58) "1a", .schwinger (sampleSchwinger "2" 57) "2a",
       .schwinger (sampleSchwinger "3" 57) "2b", .schwinger (sampleSchwinger "4" 57) "2c",
       .line .maxKranz "--- Max. Kränze (4) ---",
       .line .kranz "--- Kranzlinie (56.50) ---",
       .line .minKranz "--- Min. Kränze (3) ---"] ∧
    DividerBefore .maxKranz .minKranz
      [.schwinger (sampleSchwinger "1" 58) "1a", .schwinger (sampleSchwinger "2" 57) "2a",
       .schwinger (sampleSchwinger "3" 57) "2b", .schwinger (sampleSchwinger "4" 57) "2c",
       .line .maxKranz "--- Max. Kränze (4) ---",
       .line .kranz "--- Kranzlinie (56.50) ---",
       .line .minKranz "--- Min. Kränze (3) ---"] := by
  have htarget : countTarget sampleTiedKranzView .minKranz = 3 := by decide!
  refine ⟨Or.inl ⟨rfl, rfl⟩, by decide, sampleTiedKranzView_sorted, htarget, by decide!, ?_, ?_⟩
  · rintro ⟨before, text, after, hrows, hnone, hlen, _, _⟩
    have htake := takeWhile_not_isLineOf .minKranz text after before hnone
    rw [← hrows] at htake
    have hbefore : before =
        [.schwinger (sampleSchwinger "1" 58) "1a", .schwinger (sampleSchwinger "2" 57) "2a",
         .schwinger (sampleSchwinger "3" 57) "2b", .schwinger (sampleSchwinger "4" 57) "2c",
         .line .maxKranz "--- Max. Kränze (4) ---",
         .line .kranz "--- Kranzlinie (56.50) ---"] := by
      rw [← htake]
      simp [List.takeWhile, isLineOf]
    rw [hbefore, htarget] at hlen
    simp [Row.entry] at hlen
  · exact ⟨[.schwinger (sampleSchwinger "1" 58) "1a", .schwinger (sampleSchwinger "2" 57) "2a",
        .schwinger (sampleSchwinger "3" 57) "2b", .schwinger (sampleSchwinger "4" 57) "2c"],
      "--- Max. Kränze (4) ---", [.line .kranz "--- Kranzlinie (56.50) ---"],
      "--- Min. Kränze (3) ---", [], rfl⟩

end Schwingen
